import Mathlib

/-!
# libubigen: generating UBI images

A shallow embedding of `lib/libubigen.c` (geometry derivation and volume-table
construction) together with theorems about it.

Conventions of the embedding.

* C `int` and `long long` values are Lean `Int`s.  Signed overflow is undefined
  in C, so signed arithmetic is carried out exactly; every conversion that C
  defines as a reduction (to `uint8_t`, `uint16_t`, `uint32_t`, `uint64_t`, and
  the narrowing of a `uint64_t` to `int`) is written out with an explicit
  modulus.
* C `/` and `%` on signed operands are `Int.tdiv` and `Int.tmod` (truncation
  toward zero).
* An execution that traps or leaves the objects it was given (division by zero,
  an access outside the table, the name field or the name buffer) yields
  `Except.error` with the kind of fault; every other execution yields
  `Except.ok` with the C return value and the new contents of the memory written.
* On-flash multi-byte fields are kept as the list of their bytes in memory
  order; a byte is a `Nat` below 256.
-/

namespace Ubigen

/-! ## Machine integers -/

/-- Kinds of execution that have no result in C. -/
inductive Fault where
  | div_by_zero
  | out_of_bounds
deriving DecidableEq

/-- Largest value of a C `int`. -/
def INT_MAX : Int := 2147483647

/-- Smallest value of a C `int`. -/
def INT_MIN : Int := -2147483648

/-- Largest value of a C `long long`. -/
def LLONG_MAX : Int := 9223372036854775807

/-- Conversion to `uint8_t`. -/
def to_u8 (x : Int) : Nat := (x % 256).toNat

/-- Conversion to `uint16_t`. -/
def to_u16 (x : Int) : Nat := (x % 65536).toNat

/-- Conversion to `uint32_t`. -/
def to_u32 (x : Int) : Nat := (x % 4294967296).toNat

/-- Conversion to `uint64_t`. -/
def to_u64 (x : Int) : Nat := (x % 18446744073709551616).toNat

/-- Narrowing conversion to `int` (two's complement wrap-around). -/
def to_int (x : Int) : Int := (x + 2147483648) % 4294967296 - 2147483648

/-- C signed division `a / b`: traps on a zero divisor, truncates toward zero. -/
def c_div (a b : Int) : Except Fault Int :=
  if b = 0 then .error .div_by_zero else .ok (a.tdiv b)

/-- C signed remainder `a % b`: traps on a zero divisor, sign follows the dividend. -/
def c_mod (a b : Int) : Except Fault Int :=
  if b = 0 then .error .div_by_zero else .ok (a.tmod b)

/-- The bytes of a 16-bit value in big-endian order (`cpu_to_be16`). -/
def cpu_to_be16 (x : Nat) : List Nat := [x / 256 % 256, x % 256]

/-- The bytes of a 32-bit value in big-endian order (`cpu_to_be32`). -/
def cpu_to_be32 (x : Nat) : List Nat :=
  [x / 16777216 % 256, x / 65536 % 256, x / 256 % 256, x % 256]

/-- Reading a big-endian 16-bit field (`be16_to_cpu`). -/
def be16_to_cpu (bs : List Nat) : Nat :=
  match bs with
  | [a, b] => a * 256 + b
  | _ => 0

/-- Reading a big-endian 32-bit field (`be32_to_cpu`). -/
def be32_to_cpu (bs : List Nat) : Nat :=
  match bs with
  | [a, b, c, d] => ((a * 256 + b) * 256 + c) * 256 + d
  | _ => 0

/-! ## Protocol constants -/

/-- Modelled from the spec: size in bytes of the erase-counter header,
`UBI_EC_HDR_SIZE` of the absent `mtd/ubi-media.h`, a fixed protocol constant. -/
def UBI_EC_HDR_SIZE : Int := 64

/-- Modelled from the spec: size in bytes of the volume-identifier header,
`UBI_VID_HDR_SIZE` of the absent `mtd/ubi-media.h`. -/
def UBI_VID_HDR_SIZE : Int := 64

/-- Modelled from the spec: size in bytes of one volume-table record,
`UBI_VTBL_RECORD_SIZE` of the absent `mtd/ubi-media.h`. -/
def UBI_VTBL_RECORD_SIZE : Int := 172

/-- Modelled from the spec: size of a volume-table record without its trailing
checksum field, `UBI_VTBL_RECORD_SIZE_CRC` of the absent `mtd/ubi-media.h`. -/
def UBI_VTBL_RECORD_SIZE_CRC : Int := 168

/-- Modelled from the spec: the protocol maximum of the volume count,
`UBI_MAX_VOLUMES` of the absent `mtd/ubi-media.h`. -/
def UBI_MAX_VOLUMES : Int := 128

/-- Modelled from the spec: the bound on the length of a volume name,
`UBI_VOL_NAME_MAX` of the absent `mtd/ubi-media.h`. -/
def UBI_VOL_NAME_MAX : Int := 127

/-- Modelled from the spec: initial value of every checksum, `UBI_CRC32_INIT`
of the absent `mtd/ubi-media.h`. -/
def UBI_CRC32_INIT : Nat := 4294967295

/-- Modelled from the spec: the plain storage mode, `UBI_VID_MODE_NORMAL` of
the absent `mtd/ubi-media.h`. -/
def UBI_VID_MODE_NORMAL : Int := 0

/-- Modelled from the spec: the SLC-emulated storage mode, `UBI_VID_MODE_SLC`
of the absent `mtd/ubi-media.h`. -/
def UBI_VID_MODE_SLC : Int := 1

/-- Modelled from the spec: the MLC-safe storage mode, `UBI_VID_MODE_MLC_SAFE`
of the absent `mtd/ubi-media.h`. -/
def UBI_VID_MODE_MLC_SAFE : Int := 2

/-- Modelled from the spec: the dynamic volume type, `UBI_VID_DYNAMIC` of the
absent `mtd/ubi-media.h`. -/
def UBI_VID_DYNAMIC : Int := 1

/-- Modelled from the spec: the static volume type, `UBI_VID_STATIC` of the
absent `mtd/ubi-media.h`. -/
def UBI_VID_STATIC : Int := 2

/-! ## Checksum -/

/-- One shift step of the reflected CRC-32 with polynomial `0xEDB88320`. -/
def crc32_shift (v : Nat) : Nat :=
  if v % 2 = 1 then (v / 2) ^^^ 3988292384 else v / 2

/-- Entry `n` of the CRC-32 lookup table: eight shift steps applied to `n`. -/
def mtd_crc32_table (n : Nat) : Nat :=
  crc32_shift (crc32_shift (crc32_shift (crc32_shift
    (crc32_shift (crc32_shift (crc32_shift (crc32_shift n)))))))

/-- Modelled from the spec: the checksum `mtd_crc32(val, buf, len)` of the absent
CRC library, with `buf` holding exactly the `len` bytes read: the table-driven
reflected CRC-32 that starts from `val` and applies no final inversion. -/
def mtd_crc32 (val : Nat) (buf : List Nat) : Nat :=
  buf.foldl (fun v b => mtd_crc32_table ((v ^^^ b) % 256) ^^^ (v / 256)) val

/-! ## Data model -/

/-- Pair and group coordinates of a write-unit (`struct mtd_pairing_info`). -/
structure mtd_pairing_info where
  pair : Int
  group : Int
deriving DecidableEq

/-- A page-pairing scheme (`struct mtd_pairing_scheme`): the group count and the
two translations, which receive the erase-block size and the I/O unit of the
device they are asked about. -/
structure mtd_pairing_scheme where
  ngroups : Int
  get_info : Int → Int → Int → Int × mtd_pairing_info
  get_wunit : Int → Int → mtd_pairing_info → Int

/-- The fields of `struct mtd_dev_info` that `libubigen.c` writes. -/
structure mtd_dev_info where
  eb_size : Int
  min_io_size : Int
  pairing : Option mtd_pairing_scheme

/-- Modelled from the spec: the geometry descriptor `struct ubigen_info` of the
absent `libubigen.h`, with the fields that `libubigen.c` reads and writes. -/
structure ubigen_info where
  leb_size : Int
  peb_size : Int
  min_io_size : Int
  vid_hdr_offs : Int
  data_offs : Int
  ubi_ver : Int
  vtbl_size : Int
  max_volumes : Int
  image_seq : Nat
  slc_leb_size : Int
  max_lebs_per_peb : Int
  mtd : mtd_dev_info

/-- Modelled from the spec: the volume descriptor `struct ubigen_vol_info` of the
absent `libubigen.h`.  `name` holds the bytes readable through the `name`
pointer. -/
structure ubigen_vol_info where
  id : Int
  type : Int
  mode : Int
  alignment : Int
  data_pad : Int
  usable_leb_size : Int
  name : List Nat
  name_len : Int
  compat : Int
  used_ebs : Int
  bytes : Int
  flags : Int
  slc_ratio : Int
deriving DecidableEq

/-- Modelled from the spec: one volume-table record, `struct ubi_vtbl_record` of
the absent `mtd/ubi-media.h`, field by field in memory order.  The fields the
UBI protocol fixes come first (three big-endian words, type, update marker,
big-endian name length, 128 name bytes, flags); the mode, the allocation ratio
and the reserved logical-block count that `libubigen.c` stores follow, then
padding up to `UBI_VTBL_RECORD_SIZE_CRC`, then the big-endian checksum. -/
structure ubi_vtbl_record where
  reserved_pebs : List Nat
  alignment : List Nat
  data_pad : List Nat
  vol_type : Nat
  upd_marker : Nat
  name_len : List Nat
  name : List Nat
  flags : Nat
  vol_mode : Nat
  slc_ratio : Nat
  reserved_lebs : List Nat
  padding : List Nat
  crc : List Nat
deriving DecidableEq

/-- The bytes of a record in memory order. -/
def ubi_vtbl_record.to_bytes (r : ubi_vtbl_record) : List Nat :=
  r.reserved_pebs ++ r.alignment ++ r.data_pad ++ [r.vol_type, r.upd_marker] ++
    r.name_len ++ r.name ++ [r.flags, r.vol_mode, r.slc_ratio] ++
    r.reserved_lebs ++ r.padding ++ r.crc

/-- The bytes of a record that precede its checksum field. -/
def ubi_vtbl_record.head_bytes (r : ubi_vtbl_record) : List Nat :=
  r.reserved_pebs ++ r.alignment ++ r.data_pad ++ [r.vol_type, r.upd_marker] ++
    r.name_len ++ r.name ++ [r.flags, r.vol_mode, r.slc_ratio] ++
    r.reserved_lebs ++ r.padding

/-- The record left by `memset(rec, 0, sizeof(struct ubi_vtbl_record))`, which is
also what `calloc` hands out. -/
def zero_vtbl_record : ubi_vtbl_record where
  reserved_pebs := [0, 0, 0, 0]
  alignment := [0, 0, 0, 0]
  data_pad := [0, 0, 0, 0]
  vol_type := 0
  upd_marker := 0
  name_len := [0, 0]
  name := List.replicate 128 0
  flags := 0
  vol_mode := 0
  slc_ratio := 0
  reserved_lebs := [0, 0, 0, 0]
  padding := List.replicate 17 0
  crc := [0, 0, 0, 0]

/-- The pair of statements
`crc = mtd_crc32(UBI_CRC32_INIT, rec, UBI_VTBL_RECORD_SIZE_CRC); rec->crc = cpu_to_be32(crc);` -/
def vtbl_record_set_crc (r : ubi_vtbl_record) : ubi_vtbl_record :=
  { r with
    crc := cpu_to_be32
             (mtd_crc32 UBI_CRC32_INIT (r.to_bytes.take UBI_VTBL_RECORD_SIZE_CRC.toNat)) }

/-- A record validates: its stored checksum is the CRC-32 of its first
`UBI_VTBL_RECORD_SIZE_CRC` bytes. -/
def vtbl_record_crc_valid (r : ubi_vtbl_record) : Prop :=
  r.crc = cpu_to_be32
    (mtd_crc32 UBI_CRC32_INIT (r.to_bytes.take UBI_VTBL_RECORD_SIZE_CRC.toNat))

instance (r : ubi_vtbl_record) : Decidable (vtbl_record_crc_valid r) := by
  unfold vtbl_record_crc_valid
  infer_instance

/-- Applying `f` to element `i` of the table, an access outside it being a fault. -/
def vtbl_update (vtbl : List ubi_vtbl_record) (i : Int)
    (f : ubi_vtbl_record → ubi_vtbl_record) : Except Fault (List ubi_vtbl_record) :=
  if i < 0 then .error .out_of_bounds
  else
    match vtbl[i.toNat]? with
    | none => .error .out_of_bounds
    | some r => .ok (vtbl.set i.toNat (f r))

/-! ## Geometry -/

/-- The function `ubigen_info_init`. -/
def ubigen_info_init (peb_size min_io_size subpage_size vid_hdr_offs ubi_ver : Int)
    (image_seq : Nat) (pairing : Option mtd_pairing_scheme) : Except Fault ubigen_info := do
  let vid_hdr_offs ←
    (if vid_hdr_offs = 0 then do
      let v := UBI_EC_HDR_SIZE + subpage_size - 1
      let v ← c_div v subpage_size
      pure (v * subpage_size)
    else pure vid_hdr_offs)
  let data_offs := vid_hdr_offs + UBI_VID_HDR_SIZE + min_io_size - 1
  let data_offs ← c_div data_offs min_io_size
  let data_offs := data_offs * min_io_size
  let leb_size := peb_size - data_offs
  let max_volumes := leb_size.tdiv UBI_VTBL_RECORD_SIZE
  let max_volumes := if max_volumes > UBI_MAX_VOLUMES then UBI_MAX_VOLUMES else max_volumes
  let vtbl_size := max_volumes * UBI_VTBL_RECORD_SIZE
  let mtd : mtd_dev_info :=
    { eb_size := peb_size, min_io_size := min_io_size, pairing := pairing }
  match pairing with
  | some p =>
    let q ← c_div peb_size p.ngroups
    pure { leb_size := leb_size, peb_size := peb_size, min_io_size := min_io_size,
           vid_hdr_offs := vid_hdr_offs, data_offs := data_offs, ubi_ver := ubi_ver,
           vtbl_size := vtbl_size, max_volumes := max_volumes, image_seq := image_seq,
           slc_leb_size := q - data_offs, max_lebs_per_peb := p.ngroups, mtd := mtd }
  | none =>
    pure { leb_size := leb_size, peb_size := peb_size, min_io_size := min_io_size,
           vid_hdr_offs := vid_hdr_offs, data_offs := data_offs, ubi_ver := ubi_ver,
           vtbl_size := vtbl_size, max_volumes := max_volumes, image_seq := image_seq,
           slc_leb_size := leb_size, max_lebs_per_peb := 1, mtd := mtd }

/-- The identifier-header offset `ubigen_info_init` stores: the erase-counter header
size rounded up to the sub-page size when the caller passes 0, the caller's value
otherwise. -/
def init_vid_hdr_offs (subpage_size vid_hdr_offs : Int) : Int :=
  if vid_hdr_offs = 0 then ((UBI_EC_HDR_SIZE + subpage_size - 1).tdiv subpage_size) * subpage_size
  else vid_hdr_offs

/-- The geometry of a device with 128 KiB physical blocks, a 2 KiB I/O unit, no
sub-pages and no pairing scheme, as `ubigen_info_init` derives it. -/
def geometry_128k : ubigen_info where
  leb_size := 126976
  peb_size := 131072
  min_io_size := 2048
  vid_hdr_offs := 2048
  data_offs := 4096
  ubi_ver := 1
  vtbl_size := 22016
  max_volumes := 128
  image_seq := 0
  slc_leb_size := 126976
  max_lebs_per_peb := 1
  mtd := { eb_size := 131072, min_io_size := 2048, pairing := none }

/-! ## Volume table -/

/-- The loop of `ubigen_create_empty_vtbl`: `k` iterations remain, `i` is the
loop counter; each iteration stores the checksum of record `i`. -/
def empty_vtbl_loop : Nat → Nat → List ubi_vtbl_record → Except Fault (List ubi_vtbl_record)
  | 0, _, vtbl => .ok vtbl
  | k + 1, i, vtbl =>
    match vtbl_update vtbl i vtbl_record_set_crc with
    | .error e => .error e
    | .ok vtbl1 => empty_vtbl_loop k (i + 1) vtbl1

/-- The function `ubigen_create_empty_vtbl`.  `calloc(1, ui->vtbl_size)` hands out
`vtbl_size` zero bytes, that is `vtbl_size / UBI_VTBL_RECORD_SIZE` whole zero
records; a negative `vtbl_size` is a request no allocator meets and gives the
`NULL` result `none`.  The loop runs `i` over `0 .. max_volumes - 1`. -/
def ubigen_create_empty_vtbl (ui : ubigen_info) :
    Except Fault (Option (List ubi_vtbl_record)) :=
  if ui.vtbl_size < 0 then .ok none
  else
    let vtbl := List.replicate (ui.vtbl_size / UBI_VTBL_RECORD_SIZE).toNat zero_vtbl_record
    match empty_vtbl_loop ui.max_volumes.toNat 0 vtbl with
    | .error e => .error e
    | .ok vtbl1 => .ok (some vtbl1)

/-- The statements `memcpy(rec->name, vi->name, vi->name_len); rec->name[vi->name_len] = 0;`
on the 128-byte name field, for `0 <= name_len <= UBI_VOL_NAME_MAX`. -/
def vtbl_record_set_name (vi_name : List Nat) (name_len : Nat) (r : ubi_vtbl_record) :
    ubi_vtbl_record :=
  { r with name := ((vi_name.take name_len) ++ (r.name.drop name_len)).set name_len 0 }

/-- The logical-block size `ubigen_add_volume` divides by: `ui->slc_leb_size` when
the mode is SLC-emulated or MLC-safe, `ui->leb_size` otherwise. -/
def add_volume_leb_size (ui : ubigen_info) (vi : ubigen_vol_info) : Int :=
  if vi.mode = UBI_VID_MODE_SLC ∨ vi.mode = UBI_VID_MODE_MLC_SAFE then ui.slc_leb_size
  else ui.leb_size

/-- The value of `nlebs = (uint64_t)(vi->bytes + leb_size - 1) / leb_size`: both
operands are `uint64_t`, the quotient is narrowed to `int`. -/
def add_volume_nlebs (ui : ubigen_info) (vi : ubigen_vol_info) : Int :=
  to_int ((to_u64 (vi.bytes + add_volume_leb_size ui vi - 1)
    / to_u64 (add_volume_leb_size ui vi) : Nat) : Int)

/-- The function `ubigen_add_volume`, over the external allocation-ratio helper
`ubi_lebs_to_pebs` (declared in the absent `libubi.h`).  The result is the C return
value and the table after the call. -/
def ubigen_add_volume (ubi_lebs_to_pebs : Int → Int → Int → Int → Int)
    (ui : ubigen_info) (vi : ubigen_vol_info) (vtbl : List ubi_vtbl_record) :
    Except Fault (Int × List ubi_vtbl_record) :=
  if vi.id ≥ ui.max_volumes then .ok (-1, vtbl)
  else if vi.alignment ≥ ui.leb_size then .ok (-1, vtbl)
  else do
    -- memset(vtbl_rec, 0, sizeof(struct ubi_vtbl_record))
    let vtbl ← vtbl_update vtbl vi.id (fun _ => zero_vtbl_record)
    -- nlebs = (uint64_t)(vi->bytes + leb_size - 1) / leb_size
    if to_u64 (add_volume_leb_size ui vi) = 0 then .error .div_by_zero
    else
      let nlebs := add_volume_nlebs ui vi
      let npebs := ubi_lebs_to_pebs ui.max_lebs_per_peb vi.mode vi.slc_ratio nlebs
      if npebs < 0 then .ok (-1, vtbl)
      else do
        -- tmp = (vi->bytes + ui->leb_size - 1) / ui->leb_size
        let _ ← c_div (vi.bytes + ui.leb_size - 1) ui.leb_size
        let vtbl ← vtbl_update vtbl vi.id
          (fun r => { r with reserved_pebs := cpu_to_be32 (to_u32 npebs) })
        let vtbl ← vtbl_update vtbl vi.id
          (fun r => { r with alignment := cpu_to_be32 (to_u32 vi.alignment) })
        let vtbl ← vtbl_update vtbl vi.id (fun r => { r with vol_type := to_u8 vi.type })
        let vtbl ← vtbl_update vtbl vi.id (fun r => { r with vol_mode := to_u8 vi.mode })
        let tmp ← c_mod ui.leb_size vi.alignment
        let vtbl ← vtbl_update vtbl vi.id
          (fun r => { r with data_pad := cpu_to_be32 (to_u32 tmp) })
        let vtbl ← vtbl_update vtbl vi.id (fun r => { r with flags := to_u8 vi.flags })
        let vtbl ←
          (if vi.mode = UBI_VID_MODE_MLC_SAFE then do
            -- vtbl->slc_ratio = vi->slc_ratio
            let vtbl ← vtbl_update vtbl 0 (fun r => { r with slc_ratio := to_u8 vi.slc_ratio })
            vtbl_update vtbl vi.id
              (fun r => { r with reserved_lebs := cpu_to_be32 (to_u32 nlebs) })
          else pure vtbl)
        if vi.name_len < 0 ∨ vi.name_len > UBI_VOL_NAME_MAX
            ∨ (vi.name.length : Int) < vi.name_len then .error .out_of_bounds
        else do
          let vtbl ← vtbl_update vtbl vi.id (vtbl_record_set_name vi.name vi.name_len.toNat)
          let vtbl ← vtbl_update vtbl vi.id
            (fun r => { r with name_len := cpu_to_be16 (to_u16 vi.name_len) })
          let vtbl ← vtbl_update vtbl vi.id vtbl_record_set_crc
          pure (0, vtbl)

/-- The record `ubigen_add_volume` leaves at index `vi.id` when it returns 0, field
by field, for the physical-block count `npebs` the helper returned. -/
def added_vtbl_record (ui : ubigen_info) (vi : ubigen_vol_info) (npebs : Int) :
    ubi_vtbl_record :=
  vtbl_record_set_crc
    { reserved_pebs := cpu_to_be32 (to_u32 npebs)
      alignment := cpu_to_be32 (to_u32 vi.alignment)
      data_pad := cpu_to_be32 (to_u32 (ui.leb_size.tmod vi.alignment))
      vol_type := to_u8 vi.type
      upd_marker := 0
      name_len := cpu_to_be16 (to_u16 vi.name_len)
      name := ((vi.name.take vi.name_len.toNat)
                ++ ((List.replicate 128 0).drop vi.name_len.toNat)).set vi.name_len.toNat 0
      flags := to_u8 vi.flags
      vol_mode := to_u8 vi.mode
      slc_ratio := if vi.mode = UBI_VID_MODE_MLC_SAFE ∧ vi.id = 0 then to_u8 vi.slc_ratio else 0
      reserved_lebs :=
        if vi.mode = UBI_VID_MODE_MLC_SAFE then cpu_to_be32 (to_u32 (add_volume_nlebs ui vi))
        else [0, 0, 0, 0]
      padding := List.replicate 17 0
      crc := [0, 0, 0, 0] }

/-- An allocation-ratio helper for geometries that hold one logical block per
physical block: `n` logical blocks need `n` physical blocks. -/
def lebs_to_pebs_one_to_one (_max_lebs_per_peb _mode _slc_ratio nlebs : Int) : Int := nlebs

/-- The table `ubigen_create_empty_vtbl` returns for `geometry_128k`. -/
def empty_vtbl_128 : List ubi_vtbl_record :=
  List.replicate 128 (vtbl_record_set_crc zero_vtbl_record)

/-- A dynamic plain-mode volume of 100 KiB with alignment 1, id 0, named `vol`. -/
def volume_100k : ubigen_vol_info where
  id := 0
  type := UBI_VID_DYNAMIC
  mode := UBI_VID_MODE_NORMAL
  alignment := 1
  data_pad := 0
  usable_leb_size := 126976
  name := [118, 111, 108, 0]
  name_len := 3
  compat := 0
  used_ebs := 0
  bytes := 102400
  flags := 0
  slc_ratio := 0

/-- A dynamic MLC-safe volume of 100 KiB with alignment 1, id 1 and allocation
ratio 3, named `vol`. -/
def volume_mlc_safe : ubigen_vol_info :=
  { volume_100k with id := 1, mode := UBI_VID_MODE_MLC_SAFE, slc_ratio := 3 }

/-- A plain-mode volume whose requested size is `2^32` logical blocks of
`geometry_128k`. -/
def volume_huge : ubigen_vol_info :=
  { volume_100k with bytes := 126976 * 4294967296 }

/-- An allocation-ratio helper that reports an error (a negative code) for every
request. -/
def lebs_to_pebs_error (_max_lebs_per_peb _mode _slc_ratio _nlebs : Int) : Int := -1

/-! ## On-flash headers -/

/-- The bytes of a 64-bit value in big-endian order (`cpu_to_be64`). -/
def cpu_to_be64 (x : Nat) : List Nat :=
  [x / 72057594037927936 % 256, x / 281474976710656 % 256, x / 1099511627776 % 256,
   x / 4294967296 % 256, x / 16777216 % 256, x / 65536 % 256, x / 256 % 256, x % 256]

/-- Reading a big-endian 64-bit field (`be64_to_cpu`). -/
def be64_to_cpu (bs : List Nat) : Nat :=
  match bs with
  | [a, b, c, d, e, f, g, h] =>
    ((((((a * 256 + b) * 256 + c) * 256 + d) * 256 + e) * 256 + f) * 256 + g) * 256 + h
  | _ => 0

/-- Modelled from the spec: the magic number of the erase-counter header,
`UBI_EC_HDR_MAGIC` of the absent `mtd/ubi-media.h` (the bytes `UBI#`). -/
def UBI_EC_HDR_MAGIC : Nat := 1430407459

/-- Modelled from the spec: the magic number of the volume-identifier header,
`UBI_VID_HDR_MAGIC` of the absent `mtd/ubi-media.h` (the bytes `UBI!`). -/
def UBI_VID_HDR_MAGIC : Nat := 1430407457

/-- Modelled from the spec: size of the erase-counter header without its trailing
checksum field, `UBI_EC_HDR_SIZE_CRC` of the absent `mtd/ubi-media.h`. -/
def UBI_EC_HDR_SIZE_CRC : Int := 60

/-- Modelled from the spec: size of the volume-identifier header without its
trailing checksum field, `UBI_VID_HDR_SIZE_CRC` of the absent `mtd/ubi-media.h`. -/
def UBI_VID_HDR_SIZE_CRC : Int := 60

/-- Modelled from the spec: the replica position that marks a block as consolidated,
`UBI_VID_LPOS_CONSOLIDATED` of the absent `mtd/ubi-media.h`; a reserved byte
value. -/
def UBI_VID_LPOS_CONSOLIDATED : Int := 255

/-- Modelled from the spec: the replica position that marks a replica slot as
holding no logical block, `UBI_VID_LPOS_INVALID` of the absent
`mtd/ubi-media.h`; a reserved byte value. -/
def UBI_VID_LPOS_INVALID : Int := 254

/-- Modelled from the spec: the erase-counter header, `struct ubi_ec_hdr` of the
absent `mtd/ubi-media.h`, field by field in memory order (64 bytes). -/
structure ubi_ec_hdr where
  magic : List Nat
  version : Nat
  padding1 : List Nat
  ec : List Nat
  vid_hdr_offset : List Nat
  data_offset : List Nat
  image_seq : List Nat
  padding2 : List Nat
  hdr_crc : List Nat
deriving DecidableEq

/-- The bytes of an erase-counter header that precede its checksum field. -/
def ubi_ec_hdr.head_bytes (h : ubi_ec_hdr) : List Nat :=
  h.magic ++ [h.version] ++ h.padding1 ++ h.ec ++ h.vid_hdr_offset ++ h.data_offset ++
    h.image_seq ++ h.padding2

/-- The bytes of an erase-counter header in memory order. -/
def ubi_ec_hdr.to_bytes (h : ubi_ec_hdr) : List Nat :=
  h.head_bytes ++ h.hdr_crc

/-- The header left by `memset(hdr, 0, sizeof(struct ubi_ec_hdr))`. -/
def zero_ec_hdr : ubi_ec_hdr where
  magic := [0, 0, 0, 0]
  version := 0
  padding1 := [0, 0, 0]
  ec := [0, 0, 0, 0, 0, 0, 0, 0]
  vid_hdr_offset := [0, 0, 0, 0]
  data_offset := [0, 0, 0, 0]
  image_seq := [0, 0, 0, 0]
  padding2 := List.replicate 32 0
  hdr_crc := [0, 0, 0, 0]

/-- The 64 bytes of memory at a `struct ubi_ec_hdr *` seen as a header. -/
def ubi_ec_hdr.of_bytes (bs : List Nat) : ubi_ec_hdr where
  magic := bs.take 4
  version := (bs.drop 4).headD 0
  padding1 := (bs.drop 5).take 3
  ec := (bs.drop 8).take 8
  vid_hdr_offset := (bs.drop 16).take 4
  data_offset := (bs.drop 20).take 4
  image_seq := (bs.drop 24).take 4
  padding2 := (bs.drop 28).take 32
  hdr_crc := (bs.drop 60).take 4

/-- Modelled from the spec: the volume-identifier header, `struct ubi_vid_hdr` of the
absent `mtd/ubi-media.h`, field by field in memory order (64 bytes).  The fields
the UBI protocol fixes keep their places; the mode and the replica position that
`libubigen.c` stores take the first two bytes of the padding that follows
`lnum`. -/
structure ubi_vid_hdr where
  magic : List Nat
  version : Nat
  vol_type : Nat
  copy_flag : Nat
  compat : Nat
  vol_id : List Nat
  lnum : List Nat
  vol_mode : Nat
  lpos : Nat
  padding1 : List Nat
  data_size : List Nat
  used_ebs : List Nat
  data_pad : List Nat
  data_crc : List Nat
  padding2 : List Nat
  sqnum : List Nat
  padding3 : List Nat
  hdr_crc : List Nat
deriving DecidableEq

/-- The bytes of a volume-identifier header that precede its checksum field. -/
def ubi_vid_hdr.head_bytes (h : ubi_vid_hdr) : List Nat :=
  h.magic ++ [h.version, h.vol_type, h.copy_flag, h.compat] ++ h.vol_id ++ h.lnum ++
    [h.vol_mode, h.lpos] ++ h.padding1 ++ h.data_size ++ h.used_ebs ++ h.data_pad ++
    h.data_crc ++ h.padding2 ++ h.sqnum ++ h.padding3

/-- The bytes of a volume-identifier header in memory order. -/
def ubi_vid_hdr.to_bytes (h : ubi_vid_hdr) : List Nat :=
  h.head_bytes ++ h.hdr_crc

/-- The header left by `memset(hdr, 0, sizeof(struct ubi_vid_hdr))`. -/
def zero_vid_hdr : ubi_vid_hdr where
  magic := [0, 0, 0, 0]
  version := 0
  vol_type := 0
  copy_flag := 0
  compat := 0
  vol_id := [0, 0, 0, 0]
  lnum := [0, 0, 0, 0]
  vol_mode := 0
  lpos := 0
  padding1 := [0, 0]
  data_size := [0, 0, 0, 0]
  used_ebs := [0, 0, 0, 0]
  data_pad := [0, 0, 0, 0]
  data_crc := [0, 0, 0, 0]
  padding2 := [0, 0, 0, 0]
  sqnum := [0, 0, 0, 0, 0, 0, 0, 0]
  padding3 := List.replicate 12 0
  hdr_crc := [0, 0, 0, 0]

/-- The 64 bytes of memory at a `struct ubi_vid_hdr *` seen as a header. -/
def ubi_vid_hdr.of_bytes (bs : List Nat) : ubi_vid_hdr where
  magic := bs.take 4
  version := (bs.drop 4).headD 0
  vol_type := (bs.drop 5).headD 0
  copy_flag := (bs.drop 6).headD 0
  compat := (bs.drop 7).headD 0
  vol_id := (bs.drop 8).take 4
  lnum := (bs.drop 12).take 4
  vol_mode := (bs.drop 16).headD 0
  lpos := (bs.drop 17).headD 0
  padding1 := (bs.drop 18).take 2
  data_size := (bs.drop 20).take 4
  used_ebs := (bs.drop 24).take 4
  data_pad := (bs.drop 28).take 4
  data_crc := (bs.drop 32).take 4
  padding2 := (bs.drop 36).take 4
  sqnum := (bs.drop 40).take 8
  padding3 := (bs.drop 48).take 12
  hdr_crc := (bs.drop 60).take 4

/-- The pair of statements
`crc = mtd_crc32(UBI_CRC32_INIT, hdr, UBI_EC_HDR_SIZE_CRC); hdr->hdr_crc = cpu_to_be32(crc);` -/
def ec_hdr_set_crc (h : ubi_ec_hdr) : ubi_ec_hdr :=
  { h with
    hdr_crc := cpu_to_be32
                 (mtd_crc32 UBI_CRC32_INIT (h.to_bytes.take UBI_EC_HDR_SIZE_CRC.toNat)) }

/-- The pair of statements
`crc = mtd_crc32(UBI_CRC32_INIT, hdr, UBI_VID_HDR_SIZE_CRC); hdr->hdr_crc = cpu_to_be32(crc);` -/
def vid_hdr_set_crc (h : ubi_vid_hdr) : ubi_vid_hdr :=
  { h with
    hdr_crc := cpu_to_be32
                 (mtd_crc32 UBI_CRC32_INIT (h.to_bytes.take UBI_VID_HDR_SIZE_CRC.toNat)) }

/-- An erase-counter header validates: its stored checksum is the CRC-32 of its
first `UBI_EC_HDR_SIZE_CRC` bytes. -/
def ec_hdr_crc_valid (h : ubi_ec_hdr) : Prop :=
  h.hdr_crc = cpu_to_be32
    (mtd_crc32 UBI_CRC32_INIT (h.to_bytes.take UBI_EC_HDR_SIZE_CRC.toNat))

/-- A volume-identifier header validates: its stored checksum is the CRC-32 of its
first `UBI_VID_HDR_SIZE_CRC` bytes. -/
def vid_hdr_crc_valid (h : ubi_vid_hdr) : Prop :=
  h.hdr_crc = cpu_to_be32
    (mtd_crc32 UBI_CRC32_INIT (h.to_bytes.take UBI_VID_HDR_SIZE_CRC.toNat))

instance (h : ubi_ec_hdr) : Decidable (ec_hdr_crc_valid h) := by
  unfold ec_hdr_crc_valid
  infer_instance

instance (h : ubi_vid_hdr) : Decidable (vid_hdr_crc_valid h) := by
  unfold vid_hdr_crc_valid
  infer_instance

/-- The function `ubigen_init_ec_hdr`; `hdr` is the previous contents of the
destination. -/
def ubigen_init_ec_hdr (ui : ubigen_info) (hdr : ubi_ec_hdr) (ec : Int) : ubi_ec_hdr :=
  -- memset(hdr, 0, sizeof(struct ubi_ec_hdr))
  let hdr := (fun _ => zero_ec_hdr) hdr
  let hdr := { hdr with magic := cpu_to_be32 (to_u32 UBI_EC_HDR_MAGIC) }
  let hdr := { hdr with version := to_u8 ui.ubi_ver }
  let hdr := { hdr with ec := cpu_to_be64 (to_u64 ec) }
  let hdr := { hdr with vid_hdr_offset := cpu_to_be32 (to_u32 ui.vid_hdr_offs) }
  let hdr := { hdr with data_offset := cpu_to_be32 (to_u32 ui.data_offs) }
  let hdr := { hdr with image_seq := cpu_to_be32 (to_u32 ui.image_seq) }
  ec_hdr_set_crc hdr

/-- The function `ubigen_init_vid_hdr`; `hdr` is the previous contents of the
destination, `data` the bytes readable through the `data` pointer.  Reading
`data_size` bytes of a shorter `data` is a fault, and a negative `data_size` is a
huge `size_t`. -/
def ubigen_init_vid_hdr (ui : ubigen_info) (vi : ubigen_vol_info) (hdr : ubi_vid_hdr)
    (lnum lpos : Int) (data : List Nat) (data_size : Int) : Except Fault ubi_vid_hdr := do
  -- memset(hdr, 0, sizeof(struct ubi_vid_hdr))
  let hdr := (fun _ => zero_vid_hdr) hdr
  let hdr := { hdr with magic := cpu_to_be32 (to_u32 UBI_VID_HDR_MAGIC) }
  let hdr := { hdr with version := to_u8 ui.ubi_ver }
  let hdr := { hdr with vol_type := to_u8 vi.type }
  let hdr := { hdr with vol_mode := to_u8 vi.mode }
  let hdr := { hdr with vol_id := cpu_to_be32 (to_u32 vi.id) }
  let hdr := { hdr with lnum := cpu_to_be32 (to_u32 lnum) }
  let hdr := if vi.mode = UBI_VID_MODE_MLC_SAFE then { hdr with lpos := to_u8 lpos } else hdr
  let hdr := { hdr with data_pad := cpu_to_be32 (to_u32 vi.data_pad) }
  let hdr := { hdr with compat := to_u8 vi.compat }
  let hdr ←
    (if vi.type = UBI_VID_STATIC then
      if data_size < 0 ∨ (data.length : Int) < data_size then .error .out_of_bounds
      else
        let hdr := { hdr with data_size := cpu_to_be32 (to_u32 data_size) }
        let hdr := { hdr with used_ebs := cpu_to_be32 (to_u32 vi.used_ebs) }
        let crc := mtd_crc32 UBI_CRC32_INIT (data.take data_size.toNat)
        .ok { hdr with data_crc := cpu_to_be32 crc }
    else .ok hdr)
  pure (vid_hdr_set_crc hdr)

/-- The function `ubigen_init_dummy_vid_hdr`; `hdr` is the previous contents of the
destination. -/
def ubigen_init_dummy_vid_hdr (ui : ubigen_info) (vi : ubigen_vol_info) (hdr : ubi_vid_hdr) :
    ubi_vid_hdr :=
  -- memset(hdr, 0, sizeof(struct ubi_vid_hdr))
  let hdr := (fun _ => zero_vid_hdr) hdr
  let hdr := { hdr with magic := cpu_to_be32 (to_u32 UBI_VID_HDR_MAGIC) }
  let hdr := { hdr with version := to_u8 ui.ubi_ver }
  let hdr := { hdr with vol_type := to_u8 vi.type }
  let hdr := { hdr with vol_mode := to_u8 vi.mode }
  let hdr := { hdr with lpos := to_u8 UBI_VID_LPOS_CONSOLIDATED }
  vid_hdr_set_crc hdr

/-! ## Block buffers -/

/-- Storing `bytes` at `buf + off`: a store outside the buffer is a fault. -/
def buf_write (buf : List Nat) (off : Int) (bytes : List Nat) : Except Fault (List Nat) :=
  if off < 0 ∨ (buf.length : Int) < off + bytes.length then .error .out_of_bounds
  else .ok (buf.take off.toNat ++ bytes ++ buf.drop (off.toNat + bytes.length))

/-- The call `memset(buf + off, c, n)`; a negative `n` is a huge `size_t`. -/
def buf_memset (buf : List Nat) (off : Int) (c : Nat) (n : Int) : Except Fault (List Nat) :=
  if n < 0 then .error .out_of_bounds else buf_write buf off (List.replicate n.toNat c)

/-- The call `memcpy(buf + off, src, n)`, `src` holding the bytes readable through
the source pointer; a negative `n` is a huge `size_t`, and reading more than `src`
holds is a fault. -/
def buf_memcpy (buf : List Nat) (off : Int) (src : List Nat) (n : Int) :
    Except Fault (List Nat) :=
  if n < 0 ∨ (src.length : Int) < n then .error .out_of_bounds
  else buf_write buf off (src.take n.toNat)

/-- The `n` bytes of a buffer that start at `off`. -/
def buf_slice (buf : List Nat) (off : Int) (n : Nat) : List Nat :=
  (buf.drop off.toNat).take n

/-- The call `ubigen_init_vid_hdr(ui, vi, buf + off, lnum, lpos, data, data_size)` on a
header that lives in a block buffer. -/
def buf_init_vid_hdr (ui : ubigen_info) (vi : ubigen_vol_info) (buf : List Nat) (off : Int)
    (lnum lpos : Int) (data : List Nat) (data_size : Int) : Except Fault (List Nat) := do
  let hdr ← ubigen_init_vid_hdr ui vi (ubi_vid_hdr.of_bytes (buf_slice buf off 64))
    lnum lpos data data_size
  buf_write buf off hdr.to_bytes

/-- The call `ubigen_init_dummy_vid_hdr(ui, vi, buf + off)` on a header that lives in
a block buffer. -/
def buf_init_dummy_vid_hdr (ui : ubigen_info) (vi : ubigen_vol_info) (buf : List Nat)
    (off : Int) : Except Fault (List Nat) :=
  buf_write buf off
    (ubigen_init_dummy_vid_hdr ui vi (ubi_vid_hdr.of_bytes (buf_slice buf off 64))).to_bytes

/-- The call `ubigen_init_ec_hdr(ui, buf + off, ec)` on a header that lives in a
block buffer. -/
def buf_init_ec_hdr (ui : ubigen_info) (buf : List Nat) (off : Int) (ec : Int) :
    Except Fault (List Nat) :=
  buf_write buf off
    (ubigen_init_ec_hdr ui (ubi_ec_hdr.of_bytes (buf_slice buf off 64)) ec).to_bytes

/-! ## Page pairing -/

/-- Modelled from the spec: the group-count accessor `mtd_pairing_groups` of the
absent `libmtd.c`: the group count of the pairing scheme, 1 without a scheme. -/
def mtd_pairing_groups (mtd : mtd_dev_info) : Int :=
  match mtd.pairing with
  | some p => p.ngroups
  | none => 1

/-- Modelled from the spec: the coordinate-to-write-unit translation
`mtd_pairing_info_to_wunit` of the absent `libmtd.c`: the scheme's `get_wunit`, the
pair itself without a scheme. -/
def mtd_pairing_info_to_wunit (mtd : mtd_dev_info) (info : mtd_pairing_info) : Int :=
  match mtd.pairing with
  | some p => p.get_wunit mtd.eb_size mtd.min_io_size info
  | none => info.pair

/-- Modelled from the spec: the write-unit-to-coordinate translation
`mtd_wunit_to_pairing_info` of the absent `libmtd.c`: the scheme's `get_info`, pair
`wunit` of group 0 without a scheme. -/
def mtd_wunit_to_pairing_info (mtd : mtd_dev_info) (wunit : Int) : mtd_pairing_info :=
  match mtd.pairing with
  | some p => (p.get_info mtd.eb_size mtd.min_io_size wunit).2
  | none => { pair := wunit, group := 0 }

/-! ## Physical block layout -/

/-- The loop `for (; info.pair < npairs && len; info.pair++)` of
`ubigen_layout_vid_and_data`, with `info.group = 0`.  The first argument counts the
pairs from `pair` up to `npairs`, which bounds the iterations; the result is the
block buffer, the advanced `inbuf` and the remaining `len`. -/
def slc_copy_loop (ui : ubigen_info) (npairs : Int) :
    Nat → Int → List Nat → List Nat → Int → Except Fault (List Nat × List Nat × Int)
  | 0, _, outbuf, inbuf, len => .ok (outbuf, inbuf, len)
  | n + 1, pair, outbuf, inbuf, len =>
    if pair < npairs ∧ len ≠ 0 then
      let wunit := mtd_pairing_info_to_wunit ui.mtd { pair := pair, group := 0 }
      let wsize := if ui.min_io_size > len then len else ui.min_io_size
      let offset := wunit * ui.min_io_size
      match buf_memcpy outbuf offset inbuf wsize with
      | .error e => .error e
      | .ok outbuf1 =>
        slc_copy_loop ui npairs n (pair + 1) outbuf1 (inbuf.drop wsize.toNat) (len - wsize)
    else .ok (outbuf, inbuf, len)

/-- The loop `for (i = 0; i < nlebs; i++) ubigen_init_vid_hdr(ui, vi, vid_hdr, lnum, i,
inbuf, len);` of `ubigen_layout_vid_and_data`: the first argument counts the
iterations that remain, `i` is the loop counter. -/
def mlc_real_hdr_loop (ui : ubigen_info) (vi : ubigen_vol_info) (vid_hdr lnum : Int)
    (inbuf : List Nat) (len : Int) : Nat → Int → List Nat → Except Fault (List Nat)
  | 0, _, outbuf => .ok outbuf
  | n + 1, i, outbuf =>
    match buf_init_vid_hdr ui vi outbuf vid_hdr lnum i inbuf len with
    | .error e => .error e
    | .ok outbuf1 => mlc_real_hdr_loop ui vi vid_hdr lnum inbuf len n (i + 1) outbuf1

/-- The loop `for (; i < ui->max_lebs_per_peb; i++) ubigen_init_vid_hdr(ui, vi, vid_hdr,
0, UBI_VID_LPOS_INVALID, inbuf, len);` of `ubigen_layout_vid_and_data`: the first
argument counts the iterations that remain. -/
def mlc_invalid_hdr_loop (ui : ubigen_info) (vi : ubigen_vol_info) (vid_hdr : Int)
    (inbuf : List Nat) (len : Int) : Nat → List Nat → Except Fault (List Nat)
  | 0, outbuf => .ok outbuf
  | n + 1, outbuf =>
    match buf_init_vid_hdr ui vi outbuf vid_hdr 0 UBI_VID_LPOS_INVALID inbuf len with
    | .error e => .error e
    | .ok outbuf1 => mlc_invalid_hdr_loop ui vi vid_hdr inbuf len n outbuf1

/-- The function `ubigen_layout_vid_and_data`: `inbuf` holds the bytes readable
through the payload pointer, `outbuf` the block buffer; the result is the block
buffer after the call. -/
def ubigen_layout_vid_and_data (ui : ubigen_info) (vi : ubigen_vol_info) (lnum : Int)
    (inbuf outbuf : List Nat) (len : Int) : Except Fault (List Nat) := do
  let outbuf ← buf_memset outbuf ui.vid_hdr_offs 0 (ui.data_offs - ui.vid_hdr_offs)
  let vid_hdr := ui.vid_hdr_offs
  let outbuf ←
    (if vi.mode = UBI_VID_MODE_MLC_SAFE then buf_init_dummy_vid_hdr ui vi outbuf vid_hdr
     else buf_init_vid_hdr ui vi outbuf vid_hdr lnum 0 inbuf len)
  let outbuf ← buf_memset outbuf ui.data_offs 255 (ui.peb_size - ui.data_offs)
  let copied ←
    (if vi.mode = UBI_VID_MODE_SLC ∧ ui.max_lebs_per_peb > 1 then do
      let nwunits ← c_div ui.peb_size ui.min_io_size
      let npairs ← c_div nwunits (mtd_pairing_groups ui.mtd)
      let pair ← c_div (ui.data_offs + ui.min_io_size - 1) ui.min_io_size
      slc_copy_loop ui npairs (npairs - pair).toNat pair outbuf inbuf len
    else do
      let outbuf ← buf_memcpy outbuf ui.data_offs inbuf len
      pure (outbuf, inbuf, len))
  let outbuf := copied.1
  let inbuf := copied.2.1
  let len := copied.2.2
  if vi.mode ≠ UBI_VID_MODE_MLC_SAFE then pure outbuf
  else do
    let offset := ui.data_offs + ui.slc_leb_size * ui.max_lebs_per_peb
    let outbuf ← buf_memset outbuf offset 0 (ui.peb_size - offset)
    let vid_hdr := ui.peb_size - ui.min_io_size
    let nlebs ← c_div (len + ui.slc_leb_size - 1) ui.slc_leb_size
    let outbuf ← mlc_real_hdr_loop ui vi vid_hdr lnum inbuf len nlebs.toNat 0 outbuf
    let i := if nlebs > 0 then nlebs else 0
    mlc_invalid_hdr_loop ui vi vid_hdr inbuf len (ui.max_lebs_per_peb - i).toNat outbuf

/-! ## Streams -/

/-- An input source: the bytes a descriptor still has to deliver. -/
structure in_file where
  data : List Nat
deriving DecidableEq

/-- An output sink: the byte strings accepted by the `write` calls so far, in call
order, and the number of bytes the sink still accepts. -/
structure out_file where
  writes : List (List Nat)
  room : Nat
deriving DecidableEq

/-- The call `read(in, buf, l)` on an input source: it delivers `l` bytes or, when
fewer are left, all of them, and returns their number; a negative `l` is refused
with -1. -/
def sys_read (f : in_file) (l : Int) : Int × List Nat × in_file :=
  if l < 0 then (-1, [], f)
  else ((f.data.take l.toNat).length, f.data.take l.toNat, { data := f.data.drop l.toNat })

/-- The call `write(out, buf, n)` on an output sink, `bytes` being the `n` bytes at
`buf`: the sink accepts them all or, when it has less room, as many as it has room
for, and returns their number. -/
def sys_write (f : out_file) (bytes : List Nat) : Int × out_file :=
  ((bytes.take f.room).length,
   { writes := f.writes ++ [bytes.take f.room], room := f.room - (bytes.take f.room).length })

/-- The memory `malloc(n)` hands out: `n` bytes of unspecified contents, taken from
`garbage`. -/
def malloc_bytes (garbage : List Nat) (n : Nat) : List Nat :=
  (garbage ++ List.replicate n 0).take n

/-- The loop `while (bytes)` of `ubigen_write_volume`.  The first argument bounds the
number of iterations (`none` when it is used up); the result is the C return value
and the two streams.  The inner `do ... while (l)` runs its body once: it leaves
through `goto out_free1` when `rd != l` and ends with `l == 0` when `rd == l`. -/
def write_volume_loop (ui : ubigen_info) (vi : ubigen_vol_info) :
    Nat → Int → Int → Int → List Nat → List Nat → in_file → out_file →
      Option (Except Fault (Int × in_file × out_file))
  | 0, _, _, _, _, _, _, _ => none
  | fuel + 1, bytes, len, lnum, inbuf, outbuf, src, dst =>
    if bytes = 0 then some (.ok (0, src, dst))
    else
      let len := if bytes < len then bytes else len
      let bytes := bytes - len
      let l := len
      -- rd = read(in, inbuf + len - l, l)
      let r := sys_read src l
      if r.1 ≠ l then some (.ok (-1, r.2.2, dst))
      else
        match buf_write inbuf (len - l) r.2.1 with
        | .error e => some (.error e)
        | .ok inbuf1 =>
          match ubigen_layout_vid_and_data ui vi lnum inbuf1 outbuf len with
          | .error e => some (.error e)
          | .ok outbuf1 =>
            let w := sys_write dst (outbuf1.take ui.peb_size.toNat)
            if w.1 ≠ ui.peb_size then some (.ok (-1, r.2.2, w.2))
            else
              write_volume_loop ui vi fuel bytes len (lnum + ui.max_lebs_per_peb)
                inbuf1 outbuf1 r.2.2 w.2

/-- The function `ubigen_write_volume`.  `fuel` bounds the iterations of the block
loop, `garbage_in` and `garbage_out` give the contents of the two freshly allocated
buffers; `malloc` is taken to succeed for every size that is not negative. -/
def ubigen_write_volume (fuel : Nat) (ui : ubigen_info) (vi : ubigen_vol_info) (ec : Int)
    (bytes : Int) (garbage_in garbage_out : List Nat) (src : in_file) (dst : out_file) :
    Option (Except Fault (Int × in_file × out_file)) :=
  if vi.id ≥ ui.max_volumes then some (.ok (-1, src, dst))
  else if vi.alignment ≥ ui.leb_size then some (.ok (-1, src, dst))
  else if ui.peb_size < 0 then some (.ok (-1, src, dst))
  else
    let inbuf := malloc_bytes garbage_in ui.peb_size.toNat
    let outbuf := malloc_bytes garbage_out ui.peb_size.toNat
    match buf_memset outbuf 0 255 ui.data_offs with
    | .error e => some (.error e)
    | .ok outbuf1 =>
      match buf_init_ec_hdr ui outbuf1 0 ec with
      | .error e => some (.error e)
      | .ok outbuf2 =>
        let len := vi.usable_leb_size
        let len := if vi.mode = UBI_VID_MODE_MLC_SAFE then len * ui.max_lebs_per_peb else len
        write_volume_loop ui vi fuel bytes len 0 inbuf outbuf2 src dst

/-! ## Header contents -/

/-- Smallest value of a C `long long`. -/
def LLONG_MIN : Int := -9223372036854775808

/-- Conversion of a `uint64_t` to `long long` (two's complement). -/
def to_int64 (x : Int) : Int :=
  (x + 9223372036854775808) % 18446744073709551616 - 9223372036854775808

/-- The header `ubigen_init_ec_hdr` builds, before its checksum is stored. -/
def ec_hdr_fields (ui : ubigen_info) (ec : Int) : ubi_ec_hdr where
  magic := cpu_to_be32 (to_u32 UBI_EC_HDR_MAGIC)
  version := to_u8 ui.ubi_ver
  padding1 := [0, 0, 0]
  ec := cpu_to_be64 (to_u64 ec)
  vid_hdr_offset := cpu_to_be32 (to_u32 ui.vid_hdr_offs)
  data_offset := cpu_to_be32 (to_u32 ui.data_offs)
  image_seq := cpu_to_be32 (to_u32 ui.image_seq)
  padding2 := List.replicate 32 0
  hdr_crc := [0, 0, 0, 0]

/-- The header `ubigen_init_vid_hdr` builds, before its checksum is stored. -/
def vid_hdr_fields (ui : ubigen_info) (vi : ubigen_vol_info) (lnum lpos : Int)
    (data : List Nat) (data_size : Int) : ubi_vid_hdr where
  magic := cpu_to_be32 (to_u32 UBI_VID_HDR_MAGIC)
  version := to_u8 ui.ubi_ver
  vol_type := to_u8 vi.type
  copy_flag := 0
  compat := to_u8 vi.compat
  vol_id := cpu_to_be32 (to_u32 vi.id)
  lnum := cpu_to_be32 (to_u32 lnum)
  vol_mode := to_u8 vi.mode
  lpos := if vi.mode = UBI_VID_MODE_MLC_SAFE then to_u8 lpos else 0
  padding1 := [0, 0]
  data_size := if vi.type = UBI_VID_STATIC then cpu_to_be32 (to_u32 data_size) else [0, 0, 0, 0]
  used_ebs := if vi.type = UBI_VID_STATIC then cpu_to_be32 (to_u32 vi.used_ebs) else [0, 0, 0, 0]
  data_pad := cpu_to_be32 (to_u32 vi.data_pad)
  data_crc :=
    if vi.type = UBI_VID_STATIC
    then cpu_to_be32 (mtd_crc32 UBI_CRC32_INIT (data.take data_size.toNat))
    else [0, 0, 0, 0]
  padding2 := [0, 0, 0, 0]
  sqnum := [0, 0, 0, 0, 0, 0, 0, 0]
  padding3 := List.replicate 12 0
  hdr_crc := [0, 0, 0, 0]

/-- The header `ubigen_init_dummy_vid_hdr` builds, before its checksum is stored. -/
def dummy_vid_hdr_fields (ui : ubigen_info) (vi : ubigen_vol_info) : ubi_vid_hdr :=
  { zero_vid_hdr with
    magic := cpu_to_be32 (to_u32 UBI_VID_HDR_MAGIC)
    version := to_u8 ui.ubi_ver
    vol_type := to_u8 vi.type
    vol_mode := to_u8 vi.mode
    lpos := to_u8 UBI_VID_LPOS_CONSOLIDATED }

/-- A static plain-mode volume with id 2 and three used blocks, otherwise as
`volume_100k`. -/
def volume_static : ubigen_vol_info :=
  { volume_100k with id := 2, type := UBI_VID_STATIC, used_ebs := 3 }

/-! ## Layout steps -/

/-- The identifier header `ubigen_layout_vid_and_data` stores at
`vid_hdr_offs`: the dummy header in MLC-safe mode, the real header for `lnum`,
replica position 0, the payload and its length in every other mode. -/
def layout_gap_hdr (ui : ubigen_info) (vi : ubigen_vol_info) (lnum : Int) (inbuf : List Nat)
    (len : Int) : ubi_vid_hdr :=
  if vi.mode = UBI_VID_MODE_MLC_SAFE then vid_hdr_set_crc (dummy_vid_hdr_fields ui vi)
  else vid_hdr_set_crc (vid_hdr_fields ui vi lnum 0 inbuf len)

/-- The first pair the pair-by-pair copy of `ubigen_layout_vid_and_data` visits, the
initial `info.pair` (no division fault: `min_io_size` is not 0). -/
def slc_first_pair (ui : ubigen_info) : Int :=
  (ui.data_offs + ui.min_io_size - 1).tdiv ui.min_io_size

/-- The pair count `npairs` of `ubigen_layout_vid_and_data` (no division fault:
`min_io_size` and the group count are not 0). -/
def slc_npairs (ui : ubigen_info) : Int :=
  (ui.peb_size.tdiv ui.min_io_size).tdiv (mtd_pairing_groups ui.mtd)

/-! ## Sample device with paired pages -/

/-- Equality of two results of a fallible operation is decidable. -/
instance except_decidable_eq {ε α : Type} [DecidableEq ε] [DecidableEq α] :
    DecidableEq (Except ε α)
  | .ok a, .ok b =>
    if h : a = b then isTrue (by rw [h]) else isFalse (fun e => h (by cases e; rfl))
  | .error a, .error b =>
    if h : a = b then isTrue (by rw [h]) else isFalse (fun e => h (by cases e; rfl))
  | .ok _, .error _ => isFalse (fun e => by cases e)
  | .error _, .ok _ => isFalse (fun e => by cases e)

/-- A pairing scheme with two groups in which write-unit `w` is page `w % 2` of pair
`w / 2`, so that pair `p` holds the write-units `2 p` (group 0) and `2 p + 1`. -/
def pairing_two_groups : mtd_pairing_scheme where
  ngroups := 2
  get_info := fun _ _ wunit => (0, { pair := wunit / 2, group := wunit % 2 })
  get_wunit := fun _ _ info => info.pair * 2 + info.group

/-- The geometry `ubigen_info_init` derives for 1 KiB physical blocks with a 64-byte
I/O unit and sub-page, version 1, image sequence 7 and `pairing_two_groups`: sixteen
write-units in eight pairs, the identifier header at 64, the payload at 128. -/
def geometry_paired : ubigen_info where
  leb_size := 896
  peb_size := 1024
  min_io_size := 64
  vid_hdr_offs := 64
  data_offs := 128
  ubi_ver := 1
  vtbl_size := 860
  max_volumes := 5
  image_seq := 7
  slc_leb_size := 384
  max_lebs_per_peb := 2
  mtd := { eb_size := 1024, min_io_size := 64, pairing := some pairing_two_groups }

/-- A volume of `geometry_paired` with id 2, the given mode and type, three used
blocks and 384 usable bytes per logical block. -/
def volume_paired (mode type : Int) : ubigen_vol_info where
  id := 2
  type := type
  mode := mode
  alignment := 1
  data_pad := 0
  usable_leb_size := 384
  name := [97, 0]
  name_len := 1
  compat := 0
  used_ebs := 3
  bytes := 768
  flags := 0
  slc_ratio := 0

/-- A payload of `n` bytes, none of them 0 or 0xFF: byte `i` is `i % 251 + 1`. -/
def sample_payload (n : Nat) : List Nat :=
  (List.range n).map (fun i => i % 251 + 1)

/-! ## Payload region of an SLC-emulated block -/

/-- The number of payload bytes the pair-by-pair copy of `ubigen_layout_vid_and_data`
can place: one write-unit for every pair from `slc_first_pair` up to `slc_npairs`. -/
def slc_capacity (ui : ubigen_info) : Nat :=
  (slc_npairs ui - slc_first_pair ui).toNat * ui.min_io_size.toNat

/-- The payload region of an SLC-emulated block as a reader gathers it: the bytes of
the group-0 write-units, in pair order, from the first pair the copy uses to the last
pair of the block. -/
def slc_gather (ui : ubigen_info) (out : List Nat) : List Nat :=
  (List.range (slc_capacity ui)).map (fun j =>
    out.getD
      ((mtd_pairing_info_to_wunit ui.mtd
          { pair := slc_first_pair ui + (j / ui.min_io_size.toNat : Nat), group := 0 }
        * ui.min_io_size).toNat + j % ui.min_io_size.toNat) 0)

/-- The geometry `ubigen_info_init` derives for 384-byte physical blocks with a 64-byte
I/O unit and sub-page, version 1, image sequence 7 and `pairing_two_groups`: six
write-units in three pairs, of which the pair-by-pair copy uses the last one. -/
def geometry_paired_small : ubigen_info where
  leb_size := 256
  peb_size := 384
  min_io_size := 64
  vid_hdr_offs := 64
  data_offs := 128
  ubi_ver := 1
  vtbl_size := 172
  max_volumes := 1
  image_seq := 7
  slc_leb_size := 64
  max_lebs_per_peb := 2
  mtd := { eb_size := 384, min_io_size := 64, pairing := some pairing_two_groups }

/-- The payload length of one physical block in `ubigen_write_volume`: the local `len`
after its adjustment, `usable_leb_size`, multiplied by `max_lebs_per_peb` in MLC-safe
mode. -/
def write_volume_len (ui : ubigen_info) (vi : ubigen_vol_info) : Int :=
  if vi.mode = UBI_VID_MODE_MLC_SAFE then vi.usable_leb_size * ui.max_lebs_per_peb
  else vi.usable_leb_size

/-! ## Descriptors outside the validated range -/

/-- A volume descriptor that differs from `volume_100k` only in its alignment, 0. -/
def volume_align_zero : ubigen_vol_info :=
  { volume_100k with alignment := 0 }

/-- A volume descriptor that differs from `volume_100k` only in its identifier, -1. -/
def volume_negative_id : ubigen_vol_info :=
  { volume_100k with id := -1 }

/-- A volume descriptor that differs from `volume_100k` only in its name: 128 bytes
`a` followed by a NUL, with `name_len` 128. -/
def volume_long_name : ubigen_vol_info :=
  { volume_100k with name := List.replicate 128 97 ++ [0], name_len := 128 }

/-- A volume descriptor that differs from `volume_100k` only in its usable
logical-block size, 0. -/
def volume_zero_leb : ubigen_vol_info :=
  { volume_100k with usable_leb_size := 0 }

/-! ## The layout volume -/

/-- The macros `UBI_LAYOUT_VOLUME_ID`, `UBI_LAYOUT_VOLUME_EBS`,
`UBI_LAYOUT_VOLUME_ALIGN`, `UBI_LAYOUT_VOLUME_TYPE`, `UBI_LAYOUT_VOLUME_NAME` and
`UBI_LAYOUT_VOLUME_COMPAT` of the absent `mtd/ubi-media.h`, which
`ubigen_write_layout_vol` reads: a parameter of the model.  `name` holds the
characters of the string without its terminator. -/
structure layout_volume_macros where
  id : Int
  ebs : Int
  align : Int
  type : Int
  name : List Nat
  compat : Int
deriving DecidableEq

/-- Modelled from the spec: a value of the layout-volume macros, with the reserved
identifier `0x7FFFEFFF`, two blocks, alignment 1, the static type, the name
`layout volume` and compatibility 5. -/
def sample_layout_volume : layout_volume_macros where
  id := 2147479551
  ebs := 2
  align := 1
  type := UBI_VID_STATIC
  name := [108, 97, 121, 111, 117, 116, 32, 118, 111, 108, 117, 109, 101]
  compat := 5

/-- A seekable output: the byte strings accepted by the `write` calls so far with the
offsets they were written at, in call order; the current offset; the offsets `lseek`
cannot reach; and the number of bytes the output still accepts. -/
structure seek_file where
  stored : List (Int × List Nat)
  pos : Int
  unreachable : List Int
  room : Nat
deriving DecidableEq

/-- The call `lseek(fd, off, SEEK_SET)`: it moves to `off` and returns it, or returns
-1 and leaves the offset alone when `off` is negative or cannot be reached. -/
def sys_lseek (f : seek_file) (off : Int) : Int × seek_file :=
  if off < 0 ∨ off ∈ f.unreachable then (-1, f) else (off, { f with pos := off })

/-- The call `write(fd, buf, n)` on a seekable output, `bytes` being the `n` bytes at
`buf`: the output accepts them all at the current offset or, when it has less room,
as many as it has room for, advances by their number and returns it. -/
def sys_write_at (f : seek_file) (bytes : List Nat) : Int × seek_file :=
  ((bytes.take f.room).length,
   { f with stored := f.stored ++ [(f.pos, bytes.take f.room)],
            pos := f.pos + (bytes.take f.room).length,
            room := f.room - (bytes.take f.room).length })

/-- The bytes of a volume table in memory: its records one after the other. -/
def vtbl_bytes (vtbl : List ubi_vtbl_record) : List Nat :=
  (vtbl.map ubi_vtbl_record.to_bytes).flatten

/-- The assignments to the local `vi` at the start of `ubigen_write_layout_vol`.
`stack_vi` gives the contents of the uninitialised structure: the fields that are
not assigned (`mode`, `used_ebs`, `flags`, `slc_ratio`) keep it. -/
def layout_vol_info (lv : layout_volume_macros) (stack_vi : ubigen_vol_info)
    (ui : ubigen_info) : Except Fault ubigen_vol_info := do
  let vi := stack_vi
  let vi := { vi with bytes := ui.leb_size * lv.ebs }
  let vi := { vi with id := lv.id }
  let vi := { vi with alignment := lv.align }
  let pad ← c_mod ui.leb_size lv.align
  let vi := { vi with data_pad := pad }
  let vi := { vi with usable_leb_size := ui.leb_size - vi.data_pad }
  let vi := { vi with data_pad := ui.leb_size - vi.usable_leb_size }
  let vi := { vi with type := lv.type }
  let vi := { vi with name := lv.name ++ [0] }
  let vi := { vi with name_len := lv.name.length }
  let vi := { vi with compat := lv.compat }
  pure vi

/-- The function `ubigen_write_layout_vol`.  `lv` gives the layout-volume macros,
`stack_vi` the contents of the uninitialised local `vi`, `garbage_out` the contents
of the freshly allocated block buffer; `malloc` is taken to succeed for every size
that is not negative.  The result is the C return value and the output. -/
def ubigen_write_layout_vol (lv : layout_volume_macros) (stack_vi : ubigen_vol_info)
    (ui : ubigen_info) (peb1 peb2 ec1 ec2 : Int) (vtbl : List ubi_vtbl_record)
    (garbage_out : List Nat) (fd : seek_file) : Except Fault (Int × seek_file) := do
  let vi ← layout_vol_info lv stack_vi ui
  if ui.peb_size < 0 then pure (-1, fd)
  else do
    let outbuf := malloc_bytes garbage_out ui.peb_size.toNat
    let outbuf ← buf_memset outbuf 0 255 ui.data_offs
    let vid_hdr := ui.vid_hdr_offs
    let outbuf ← buf_memcpy outbuf ui.data_offs (vtbl_bytes vtbl) ui.vtbl_size
    let outbuf ← buf_memset outbuf (ui.data_offs + ui.vtbl_size) 255
      (ui.peb_size - ui.data_offs - ui.vtbl_size)
    let seek := peb1 * ui.peb_size
    let r := sys_lseek fd seek
    if r.1 ≠ seek then pure (-1, r.2)
    else do
      let outbuf ← buf_init_ec_hdr ui outbuf 0 ec1
      let outbuf ← buf_init_vid_hdr ui vi outbuf vid_hdr 0 0 [] 0
      let w := sys_write_at r.2 (outbuf.take ui.peb_size.toNat)
      if w.1 ≠ ui.peb_size then pure (-1, w.2)
      else do
        let seek := peb2 * ui.peb_size
        let r := sys_lseek w.2 seek
        if r.1 ≠ seek then pure (-1, r.2)
        else do
          let outbuf ← buf_init_ec_hdr ui outbuf 0 ec2
          let outbuf ← buf_init_vid_hdr ui vi outbuf vid_hdr 1 0 [] 0
          let w := sys_write_at r.2 (outbuf.take ui.peb_size.toNat)
          if w.1 ≠ ui.peb_size then pure (-1, w.2)
          else pure (0, w.2)

/-- The volume table of `geometry_paired_small`: one empty record. -/
def vtbl_single : List ubi_vtbl_record := [vtbl_record_set_crc zero_vtbl_record]

/-! ## Auxiliary facts -/

theorem except_bind_eq_ok {ε α β : Type} (x : Except ε α) (g : α → Except ε β) (b : β) :
    (x >>= g) = .ok b ↔ ∃ a, x = .ok a ∧ g a = .ok b := by
  cases x with
  | error e => simp [bind, Except.bind]
  | ok a => simp [bind, Except.bind]

theorem c_div_eq_ok (a b q : Int) : c_div a b = .ok q ↔ b ≠ 0 ∧ q = a.tdiv b := by
  unfold c_div
  by_cases hb : b = 0
  · simp [hb]
  · simp [hb, eq_comm]

theorem c_mod_eq_ok (a b q : Int) : c_mod a b = .ok q ↔ b ≠ 0 ∧ q = a.tmod b := by
  unfold c_mod
  by_cases hb : b = 0
  · simp [hb]
  · simp [hb, eq_comm]

theorem vtbl_update_eq_ok (t t1 : List ubi_vtbl_record) (i : Int)
    (f : ubi_vtbl_record → ubi_vtbl_record) :
    vtbl_update t i f = .ok t1 ↔
      0 ≤ i ∧ ∃ r, t[i.toNat]? = some r ∧ t1 = t.set i.toNat (f r) := by
  unfold vtbl_update
  by_cases hi : i < 0
  · simp [hi]
  · simp only [hi, if_false]
    cases hg : t[i.toNat]? with
    | none => simp
    | some r =>
      simp only [Except.ok.injEq, Option.some.injEq, exists_eq_left']
      constructor
      · intro h; exact ⟨by omega, h.symm⟩
      · intro h; exact h.2.symm

theorem vtbl_update_get_self (t t1 : List ubi_vtbl_record) (i : Int)
    (f : ubi_vtbl_record → ubi_vtbl_record) (r : ubi_vtbl_record)
    (h : vtbl_update t i f = .ok t1) (hr : t[i.toNat]? = some r) :
    t1[i.toNat]? = some (f r) := by
  obtain ⟨_, r1, hr1, rfl⟩ := (vtbl_update_eq_ok t t1 i f).1 h
  have hlt : i.toNat < t.length := by
    rcases List.getElem?_eq_some_iff.1 hr1 with ⟨hl, _⟩
    exact hl
  rw [hr] at hr1
  cases hr1
  simp [List.getElem?_set, hlt]

theorem vtbl_update_get_other (t t1 : List ubi_vtbl_record) (i : Int)
    (f : ubi_vtbl_record → ubi_vtbl_record) (j : Nat)
    (h : vtbl_update t i f = .ok t1) (hj : i.toNat ≠ j) :
    t1[j]? = t[j]? := by
  obtain ⟨_, r1, _, rfl⟩ := (vtbl_update_eq_ok t t1 i f).1 h
  exact List.getElem?_set_ne hj

theorem vtbl_update_length (t t1 : List ubi_vtbl_record) (i : Int)
    (f : ubi_vtbl_record → ubi_vtbl_record)
    (h : vtbl_update t i f = .ok t1) : t1.length = t.length := by
  obtain ⟨_, r1, _, rfl⟩ := (vtbl_update_eq_ok t t1 i f).1 h
  simp

theorem take_head_bytes (r : ubi_vtbl_record) (h : r.head_bytes.length = 168) :
    r.to_bytes.take UBI_VTBL_RECORD_SIZE_CRC.toNat = r.head_bytes := by
  have e : r.to_bytes = r.head_bytes ++ r.crc := rfl
  have e2 : UBI_VTBL_RECORD_SIZE_CRC.toNat = r.head_bytes.length := by rw [h]; rfl
  rw [e, e2, List.take_left']
  rfl

theorem set_crc_head_bytes (r : ubi_vtbl_record) :
    (vtbl_record_set_crc r).head_bytes = r.head_bytes := rfl

theorem take_set_crc (r : ubi_vtbl_record) (h : r.head_bytes.length = 168) :
    (vtbl_record_set_crc r).to_bytes.take UBI_VTBL_RECORD_SIZE_CRC.toNat = r.head_bytes := by
  rw [take_head_bytes _ (by rw [set_crc_head_bytes]; exact h), set_crc_head_bytes]

theorem set_crc_valid (r : ubi_vtbl_record) (h : r.head_bytes.length = 168) :
    vtbl_record_crc_valid (vtbl_record_set_crc r) := by
  unfold vtbl_record_crc_valid
  rw [take_set_crc r h, ← take_head_bytes r h]
  rfl

theorem zero_head_bytes : zero_vtbl_record.head_bytes = List.replicate 168 0 := by decide!

theorem zero_head_bytes_length : zero_vtbl_record.head_bytes.length = 168 := by decide!

theorem empty_vtbl_loop_ok (k : Nat) : ∀ (i : Nat) (t : List ubi_vtbl_record),
    i + k ≤ t.length →
    ∃ t1, empty_vtbl_loop k i t = .ok t1 ∧ t1.length = t.length ∧
      ∀ j, t1[j]? = if i ≤ j ∧ j < i + k then (t[j]?).map vtbl_record_set_crc else t[j]? := by
  induction k with
  | zero =>
    intro i t _
    refine ⟨t, rfl, rfl, fun j => ?_⟩
    rw [if_neg (by omega)]
  | succ k ih =>
    intro i t hlen
    have hi : i < t.length := by omega
    have hu : vtbl_update t (i : Int) vtbl_record_set_crc
        = .ok (t.set i (vtbl_record_set_crc t[i])) := by
      rw [vtbl_update_eq_ok]
      refine ⟨by omega, t[i], ?_, ?_⟩
      · simp [List.getElem?_eq_getElem hi]
      · simp
    obtain ⟨t1, h1, hl1, hg1⟩ := ih (i + 1) (t.set i (vtbl_record_set_crc t[i]))
      (by rw [List.length_set]; omega)
    refine ⟨t1, ?_, ?_, fun j => ?_⟩
    · simp only [empty_vtbl_loop, hu]
      exact h1
    · rw [hl1, List.length_set]
    · rw [hg1 j]
      by_cases hj : j = i
      · subst hj
        rw [if_neg (by omega), if_pos (by omega), List.getElem?_set_self hi,
          List.getElem?_eq_getElem hi]
        rfl
      · rw [List.getElem?_set_ne (Ne.symm hj)]
        by_cases hr : i + 1 ≤ j ∧ j < i + 1 + k
        · rw [if_pos hr, if_pos (by omega)]
        · rw [if_neg hr, if_neg (by omega)]

theorem be32_roundtrip (x : Nat) (h : x < 4294967296) : be32_to_cpu (cpu_to_be32 x) = x := by
  unfold cpu_to_be32 be32_to_cpu
  simp only
  omega

theorem be16_roundtrip (x : Nat) (h : x < 65536) : be16_to_cpu (cpu_to_be16 x) = x := by
  unfold cpu_to_be16 be16_to_cpu
  simp only
  omega

theorem to_u32_of_range (x : Int) (h0 : 0 ≤ x) (h1 : x < 4294967296) :
    to_u32 x < 4294967296 ∧ (to_u32 x : Int) = x := by
  unfold to_u32
  omega

theorem to_u16_of_range (x : Int) (h0 : 0 ≤ x) (h1 : x < 65536) :
    to_u16 x < 65536 ∧ (to_u16 x : Int) = x := by
  unfold to_u16
  omega

theorem to_u8_of_range (x : Int) (h0 : 0 ≤ x) (h1 : x < 256) : (to_u8 x : Int) = x := by
  unfold to_u8
  omega

theorem to_u64_of_range (x : Int) (h0 : 0 ≤ x) (h1 : x < 18446744073709551616) :
    (to_u64 x : Int) = x := by
  unfold to_u64
  omega

theorem to_int_of_range (x : Int) (h0 : INT_MIN ≤ x) (h1 : x ≤ INT_MAX) : to_int x = x := by
  unfold to_int
  unfold INT_MIN at h0
  unfold INT_MAX at h1
  omega

theorem ceil_div_eq (a b : Int) (hb : 0 < b) : ⌈(a : ℚ) / (b : ℚ)⌉ = (a + b - 1) / b := by
  rw [Int.ceil_eq_iff]
  have hbq : (0 : ℚ) < (b : ℚ) := by exact_mod_cast hb
  have h1 := Int.ediv_add_emod (a + b - 1) b
  have h2 := Int.emod_nonneg (a + b - 1) (ne_of_gt hb)
  have h3 := Int.emod_lt_of_pos (a + b - 1) hb
  constructor
  · rw [lt_div_iff₀ hbq]
    have : ((a + b - 1) / b - 1) * b < a := by
      have : ((a + b - 1) / b - 1) * b = b * ((a + b - 1) / b) - b := by ring
      omega
    exact_mod_cast this
  · rw [div_le_iff₀ hbq]
    have : a ≤ (a + b - 1) / b * b := by
      have : (a + b - 1) / b * b = b * ((a + b - 1) / b) := by ring
      omega
    exact_mod_cast this

/-! ## Geometry derivation -/

theorem info_init_eq_ok (peb_size min_io_size subpage_size vid_hdr_offs ubi_ver : Int)
    (image_seq : Nat) (pairing : Option mtd_pairing_scheme) (ui : ubigen_info)
    (h : ubigen_info_init peb_size min_io_size subpage_size vid_hdr_offs ubi_ver image_seq
      pairing = .ok ui) :
    (vid_hdr_offs = 0 → subpage_size ≠ 0) ∧ min_io_size ≠ 0 ∧
    ui.vid_hdr_offs = init_vid_hdr_offs subpage_size vid_hdr_offs ∧
    ui.data_offs = ((ui.vid_hdr_offs + UBI_VID_HDR_SIZE + min_io_size - 1).tdiv min_io_size)
      * min_io_size ∧
    ui.peb_size = peb_size ∧ ui.min_io_size = min_io_size ∧
    ui.leb_size = peb_size - ui.data_offs ∧
    ui.max_volumes = (if ui.leb_size.tdiv UBI_VTBL_RECORD_SIZE > UBI_MAX_VOLUMES
      then UBI_MAX_VOLUMES else ui.leb_size.tdiv UBI_VTBL_RECORD_SIZE) ∧
    ui.vtbl_size = ui.max_volumes * UBI_VTBL_RECORD_SIZE := by
  unfold ubigen_info_init at h
  simp only [except_bind_eq_ok] at h
  obtain ⟨v, hv, d, hd, h⟩ := h
  obtain ⟨hmio, hd⟩ := (c_div_eq_ok _ _ _).1 hd
  have hv1 : (vid_hdr_offs = 0 → subpage_size ≠ 0) ∧ v = init_vid_hdr_offs subpage_size vid_hdr_offs := by
    unfold init_vid_hdr_offs
    by_cases h0 : vid_hdr_offs = 0
    · simp only [h0, if_true, except_bind_eq_ok, c_div_eq_ok] at hv ⊢
      obtain ⟨q, ⟨hs, hq⟩, hv⟩ := hv
      simp only [pure, Except.pure, Except.ok.injEq] at hv
      subst hq
      exact ⟨fun _ => hs, hv.symm⟩
    · simp only [h0, if_false, pure, Except.pure, Except.ok.injEq] at hv ⊢
      exact ⟨fun hh => absurd hh (by simp), hv.symm⟩
  obtain ⟨hs, hv1⟩ := hv1
  subst hd
  cases pairing with
  | none =>
    simp only [pure, Except.pure, Except.ok.injEq] at h
    subst h
    subst hv1
    exact ⟨hs, hmio, rfl, rfl, rfl, rfl, rfl, rfl, rfl⟩
  | some p =>
    simp only [except_bind_eq_ok, pure, Except.pure, Except.ok.injEq] at h
    obtain ⟨q, _, h⟩ := h
    subst h
    subst hv1
    exact ⟨hs, hmio, rfl, rfl, rfl, rfl, rfl, rfl, rfl⟩

theorem info_init_returns (peb_size min_io_size subpage_size vid_hdr_offs ubi_ver : Int)
    (image_seq : Nat) (pairing : Option mtd_pairing_scheme)
    (hs : vid_hdr_offs = 0 → subpage_size ≠ 0) (hmio : min_io_size ≠ 0)
    (hp : ∀ p, pairing = some p → p.ngroups ≠ 0) :
    ∃ ui, ubigen_info_init peb_size min_io_size subpage_size vid_hdr_offs ubi_ver image_seq
      pairing = .ok ui := by
  unfold ubigen_info_init
  by_cases h0 : vid_hdr_offs = 0
  · have hs1 := hs h0
    cases pairing with
    | none => simp [h0, c_div, hs1, hmio, bind, Except.bind, pure, Except.pure]
    | some p =>
      have := hp p rfl
      simp [h0, c_div, hs1, hmio, this, bind, Except.bind, pure, Except.pure]
  · cases pairing with
    | none => simp [h0, c_div, hmio, bind, Except.bind, pure, Except.pure]
    | some p =>
      have := hp p rfl
      simp [h0, c_div, hmio, this, bind, Except.bind, pure, Except.pure]

theorem round_up_bounds (x m : Int) (hm : 0 < m) (hx : 0 ≤ x + m - 1) :
    m ∣ ((x + m - 1).tdiv m) * m ∧ x ≤ ((x + m - 1).tdiv m) * m ∧
      ((x + m - 1).tdiv m) * m < x + m := by
  rw [Int.tdiv_eq_ediv hx (le_of_lt hm)]
  have h1 := Int.ediv_add_emod (x + m - 1) m
  have h2 := Int.emod_nonneg (x + m - 1) (ne_of_gt hm)
  have h3 := Int.emod_lt_of_pos (x + m - 1) hm
  have h4 : (x + m - 1) / m * m = m * ((x + m - 1) / m) := Int.mul_comm _ _
  refine ⟨Dvd.intro_left _ rfl, ?_, ?_⟩ <;> omega

theorem round_up_least (x m k : Int) (hm : 0 < m) (hx : 0 ≤ x + m - 1)
    (hk : m ∣ k) (hxk : x ≤ k) : ((x + m - 1).tdiv m) * m ≤ k := by
  obtain ⟨_, _, hlt⟩ := round_up_bounds x m hm hx
  obtain ⟨c, rfl⟩ := hk
  have h5 : (x + m - 1).tdiv m * m < m * (c + 1) := by
    have : m * (c + 1) = m * c + m := by ring
    omega
  have h6 : (x + m - 1).tdiv m < c + 1 := by
    by_contra hcon
    have hge : c + 1 ≤ (x + m - 1).tdiv m := not_lt.1 hcon
    have := Int.mul_le_mul_of_nonneg_right hge (le_of_lt hm)
    have h7 : (c + 1) * m = m * (c + 1) := Int.mul_comm _ _
    omega
  have h8 : (x + m - 1).tdiv m ≤ c := by omega
  have := Int.mul_le_mul_of_nonneg_right h8 (le_of_lt hm)
  have h9 : c * m = m * c := Int.mul_comm _ _
  omega


theorem info_init_vid_hdr_offs_nonneg (peb_size min_io_size subpage_size vid_hdr_offs ubi_ver : Int)
    (image_seq : Nat) (pairing : Option mtd_pairing_scheme) (ui : ubigen_info)
    (hsub : 0 < subpage_size) (hvid : 0 ≤ vid_hdr_offs)
    (h : ubigen_info_init peb_size min_io_size subpage_size vid_hdr_offs ubi_ver image_seq
      pairing = .ok ui) :
    0 ≤ ui.vid_hdr_offs := by
  obtain ⟨_, _, hv, _⟩ := info_init_eq_ok _ _ _ _ _ _ _ _ h
  rw [hv]
  unfold init_vid_hdr_offs
  split
  · have := (round_up_bounds UBI_EC_HDR_SIZE subpage_size hsub
      (by unfold UBI_EC_HDR_SIZE; omega)).2.1
    have h64 : (0 : Int) ≤ UBI_EC_HDR_SIZE := by decide
    omega
  · exact hvid

theorem info_init_data_offs_bounds (peb_size min_io_size subpage_size vid_hdr_offs ubi_ver : Int)
    (image_seq : Nat) (pairing : Option mtd_pairing_scheme) (ui : ubigen_info)
    (hmio : 0 < min_io_size) (hsub : 0 < subpage_size) (hvid : 0 ≤ vid_hdr_offs)
    (h : ubigen_info_init peb_size min_io_size subpage_size vid_hdr_offs ubi_ver image_seq
      pairing = .ok ui) :
    min_io_size ∣ ui.data_offs ∧ ui.vid_hdr_offs + UBI_VID_HDR_SIZE ≤ ui.data_offs ∧
    ui.data_offs < ui.vid_hdr_offs + UBI_VID_HDR_SIZE + min_io_size ∧
    ∀ k, min_io_size ∣ k → ui.vid_hdr_offs + UBI_VID_HDR_SIZE ≤ k → ui.data_offs ≤ k := by
  obtain ⟨_, _, _, hd, _⟩ := info_init_eq_ok _ _ _ _ _ _ _ _ h
  have hv0 := info_init_vid_hdr_offs_nonneg _ _ _ _ _ _ _ _ hsub hvid h
  have hx : 0 ≤ ui.vid_hdr_offs + UBI_VID_HDR_SIZE + min_io_size - 1 := by
    unfold UBI_VID_HDR_SIZE
    omega
  obtain ⟨h1, h2, h3⟩ := round_up_bounds (ui.vid_hdr_offs + UBI_VID_HDR_SIZE) min_io_size hmio hx
  rw [← hd] at h1 h2 h3
  refine ⟨h1, h2, h3, fun k hk hle => ?_⟩
  rw [hd]
  exact round_up_least _ _ _ hmio hx hk hle

/-- C7: whenever `min_io_size > 0`, `subpage_size > 0` and the offset passed is not
negative, the descriptor `ubigen_info_init` builds has a payload offset `data_offs`
that is a multiple of `min_io_size`, is at least `vid_hdr_offs + UBI_VID_HDR_SIZE`
for the stored identifier-header offset, lies less than one I/O unit above that
sum, and is the least multiple of `min_io_size` with that lower bound.  A descriptor
is built whenever the pairing scheme, if one is given, has a non-zero group count. -/
theorem info_init_data_offs_aligned
    (peb_size min_io_size subpage_size vid_hdr_offs ubi_ver : Int)
    (image_seq : Nat) (pairing : Option mtd_pairing_scheme)
    (hmio : 0 < min_io_size) (hsub : 0 < subpage_size) (hvid : 0 ≤ vid_hdr_offs) :
    (∀ ui, ubigen_info_init peb_size min_io_size subpage_size vid_hdr_offs ubi_ver image_seq
        pairing = .ok ui →
      min_io_size ∣ ui.data_offs ∧ ui.vid_hdr_offs + UBI_VID_HDR_SIZE ≤ ui.data_offs ∧
      ui.data_offs < ui.vid_hdr_offs + UBI_VID_HDR_SIZE + min_io_size ∧
      ∀ k, min_io_size ∣ k → ui.vid_hdr_offs + UBI_VID_HDR_SIZE ≤ k → ui.data_offs ≤ k) ∧
    ((∀ p, pairing = some p → p.ngroups ≠ 0) →
      ∃ ui, ubigen_info_init peb_size min_io_size subpage_size vid_hdr_offs ubi_ver image_seq
        pairing = .ok ui) :=
  ⟨fun ui h => info_init_data_offs_bounds _ _ _ _ _ _ _ ui hmio hsub hvid h,
   fun hp => info_init_returns _ _ _ _ _ _ _ (fun _ => ne_of_gt hsub) (ne_of_gt hmio) hp⟩

/-- C7 at 128 KiB blocks, a 2 KiB I/O unit, 512-byte sub-pages and a derived offset:
a descriptor is built, its payload offset is a multiple of 2048 and lies in
`[vid_hdr_offs + 64, vid_hdr_offs + 64 + 2048)`. -/
theorem info_init_data_offs_aligned_witness :
    ∃ ui, ubigen_info_init 131072 2048 512 0 1 0 none = .ok ui ∧
      (2048 : Int) ∣ ui.data_offs ∧ ui.vid_hdr_offs + UBI_VID_HDR_SIZE ≤ ui.data_offs ∧
      ui.data_offs < ui.vid_hdr_offs + UBI_VID_HDR_SIZE + 2048 :=
  match (info_init_data_offs_aligned 131072 2048 512 0 1 0 none
      (by decide) (by decide) (by decide)).2 (fun _ hp => nomatch hp) with
  | ⟨ui, h⟩ =>
    have hb := (info_init_data_offs_aligned 131072 2048 512 0 1 0 none
      (by decide) (by decide) (by decide)).1 ui h
    ⟨ui, h, hb.1, hb.2.1, hb.2.2.1⟩

/-- C8: for `subpage_size > 0`, when `ubigen_info_init` is called with offset 0 the
stored `vid_hdr_offs` is a multiple of `subpage_size`, is at least `UBI_EC_HDR_SIZE`
and is the least such multiple; when called with a non-zero offset the stored value
is the one supplied.  A descriptor is built whenever `min_io_size` is not 0 and the
pairing scheme, if one is given, has a non-zero group count. -/
theorem info_init_vid_hdr_offs (peb_size min_io_size subpage_size vid_hdr_offs ubi_ver : Int)
    (image_seq : Nat) (pairing : Option mtd_pairing_scheme) (hsub : 0 < subpage_size) :
    (∀ ui, ubigen_info_init peb_size min_io_size subpage_size vid_hdr_offs ubi_ver image_seq
        pairing = .ok ui →
      (vid_hdr_offs = 0 →
        subpage_size ∣ ui.vid_hdr_offs ∧ UBI_EC_HDR_SIZE ≤ ui.vid_hdr_offs ∧
        ∀ k, subpage_size ∣ k → UBI_EC_HDR_SIZE ≤ k → ui.vid_hdr_offs ≤ k) ∧
      (vid_hdr_offs ≠ 0 → ui.vid_hdr_offs = vid_hdr_offs)) ∧
    (min_io_size ≠ 0 → (∀ p, pairing = some p → p.ngroups ≠ 0) →
      ∃ ui, ubigen_info_init peb_size min_io_size subpage_size vid_hdr_offs ubi_ver image_seq
        pairing = .ok ui) := by
  refine ⟨?_, fun hmio hp => info_init_returns _ _ _ _ _ _ _ (fun _ => ne_of_gt hsub) hmio hp⟩
  intro ui h
  obtain ⟨_, _, hv, _⟩ := info_init_eq_ok _ _ _ _ _ _ _ _ h
  have hx : 0 ≤ UBI_EC_HDR_SIZE + subpage_size - 1 := by
    unfold UBI_EC_HDR_SIZE
    omega
  constructor
  · intro h0
    rw [hv]
    unfold init_vid_hdr_offs
    rw [if_pos h0]
    obtain ⟨h1, h2, _⟩ := round_up_bounds UBI_EC_HDR_SIZE subpage_size hsub hx
    exact ⟨h1, h2, fun k hk hle => round_up_least _ _ _ hsub hx hk hle⟩
  · intro h0
    rw [hv]
    unfold init_vid_hdr_offs
    rw [if_neg h0]

/-- C8 at 512-byte sub-pages: with offset 0 the stored offset is 512, the least
multiple of 512 not below the 64-byte erase-counter header; with offset 4096 the
stored offset is 4096. -/
theorem info_init_vid_hdr_offs_witness :
    (∃ ui, ubigen_info_init 131072 2048 512 0 1 0 none = .ok ui ∧ ui.vid_hdr_offs = 512 ∧
      (512 : Int) ∣ ui.vid_hdr_offs ∧ UBI_EC_HDR_SIZE ≤ ui.vid_hdr_offs) ∧
    (∃ ui, ubigen_info_init 131072 2048 512 4096 1 0 none = .ok ui ∧ ui.vid_hdr_offs = 4096) :=
  ⟨⟨_, rfl, by decide,
      (((info_init_vid_hdr_offs 131072 2048 512 0 1 0 none (by decide)).1 _ rfl).1 rfl).1,
      (((info_init_vid_hdr_offs 131072 2048 512 0 1 0 none (by decide)).1 _ rfl).1 rfl).2.1⟩,
   ⟨_, rfl,
      ((info_init_vid_hdr_offs 131072 2048 512 4096 1 0 none (by decide)).1 _ rfl).2
        (by decide)⟩⟩

/-- C9: for every descriptor `ubigen_info_init` builds with `leb_size >= 0`,
`max_volumes` is the smaller of `leb_size / UBI_VTBL_RECORD_SIZE` and
`UBI_MAX_VOLUMES`, `vtbl_size` is `max_volumes * UBI_VTBL_RECORD_SIZE`, so that
`max_volumes <= UBI_MAX_VOLUMES` and `vtbl_size <= leb_size`. -/
theorem info_init_max_volumes (peb_size min_io_size subpage_size vid_hdr_offs ubi_ver : Int)
    (image_seq : Nat) (pairing : Option mtd_pairing_scheme) (ui : ubigen_info)
    (h : ubigen_info_init peb_size min_io_size subpage_size vid_hdr_offs ubi_ver image_seq
      pairing = .ok ui)
    (hleb : 0 ≤ ui.leb_size) :
    ui.max_volumes = min (ui.leb_size / UBI_VTBL_RECORD_SIZE) UBI_MAX_VOLUMES ∧
    ui.vtbl_size = ui.max_volumes * UBI_VTBL_RECORD_SIZE ∧
    ui.max_volumes ≤ UBI_MAX_VOLUMES ∧ ui.vtbl_size ≤ ui.leb_size := by
  obtain ⟨_, _, _, _, _, _, _, hmax, hsz⟩ := info_init_eq_ok _ _ _ _ _ _ _ _ h
  have hdiv : ui.leb_size.tdiv UBI_VTBL_RECORD_SIZE = ui.leb_size / UBI_VTBL_RECORD_SIZE :=
    Int.tdiv_eq_ediv hleb (by decide)
  rw [hdiv] at hmax
  unfold UBI_VTBL_RECORD_SIZE UBI_MAX_VOLUMES at *
  refine ⟨?_, hsz, ?_, ?_⟩
  · rw [hmax]
    split <;> omega
  · rw [hmax]
    split <;> omega
  · rw [hsz, hmax]
    split <;> omega

/-- C9 at 128 KiB blocks and a 2 KiB I/O unit: `ubigen_info_init` builds
`geometry_128k`, whose `leb_size` 126976 gives 128 volumes and a 22016-byte table. -/
theorem info_init_max_volumes_witness :
    ubigen_info_init 131072 2048 2048 0 1 0 none = .ok geometry_128k ∧
    (0 : Int) ≤ geometry_128k.leb_size ∧
    geometry_128k.max_volumes
      = min (geometry_128k.leb_size / UBI_VTBL_RECORD_SIZE) UBI_MAX_VOLUMES ∧
    geometry_128k.vtbl_size = geometry_128k.max_volumes * UBI_VTBL_RECORD_SIZE ∧
    geometry_128k.max_volumes ≤ UBI_MAX_VOLUMES ∧
    geometry_128k.vtbl_size ≤ geometry_128k.leb_size :=
  ⟨rfl, by decide,
    info_init_max_volumes 131072 2048 2048 0 1 0 none geometry_128k rfl (by decide)⟩

/-- C10, as stated, fails: with `subpage_size = min_io_size = peb_size = 2048`, which
are positive and consistently ordered, `ubigen_info_init` builds a descriptor whose
`leb_size` is `2048 - 4096 = -2048`. -/
theorem info_init_leb_size_not_positive :
    (0 : Int) < 2048 ∧ (2048 : Int) ≤ 2048 ∧
    ∃ ui, ubigen_info_init 2048 2048 2048 0 1 0 none = .ok ui ∧
      ui.leb_size = -2048 ∧ ¬ 0 < ui.leb_size :=
  ⟨by decide, by decide, _, rfl, by decide, by decide⟩

/-- C10, amended: for `0 < subpage_size <= min_io_size <= peb_size` the descriptor
`ubigen_info_init` builds has `leb_size = peb_size - data_offs`, which is positive
exactly when `data_offs < peb_size`; that is the case whenever
`vid_hdr_offs + UBI_VID_HDR_SIZE + min_io_size <= peb_size` for the stored offset
(the offset passed not being negative), and, when the offset is derived, whenever
`UBI_EC_HDR_SIZE + UBI_VID_HDR_SIZE + 2 * min_io_size <= peb_size + 1`. -/
theorem info_init_leb_size (peb_size min_io_size subpage_size vid_hdr_offs ubi_ver : Int)
    (image_seq : Nat) (pairing : Option mtd_pairing_scheme)
    (hsub : 0 < subpage_size) (hsm : subpage_size ≤ min_io_size)
    (_hmp : min_io_size ≤ peb_size) :
    (∀ ui, ubigen_info_init peb_size min_io_size subpage_size vid_hdr_offs ubi_ver image_seq
        pairing = .ok ui →
      ui.leb_size = peb_size - ui.data_offs ∧
      (0 < ui.leb_size ↔ ui.data_offs < peb_size) ∧
      (0 ≤ vid_hdr_offs → ui.vid_hdr_offs + UBI_VID_HDR_SIZE + min_io_size ≤ peb_size →
        0 < ui.leb_size) ∧
      (vid_hdr_offs = 0 → UBI_EC_HDR_SIZE + UBI_VID_HDR_SIZE + 2 * min_io_size ≤ peb_size + 1 →
        0 < ui.leb_size)) ∧
    ((∀ p, pairing = some p → p.ngroups ≠ 0) →
      ∃ ui, ubigen_info_init peb_size min_io_size subpage_size vid_hdr_offs ubi_ver image_seq
        pairing = .ok ui) := by
  have hmio : 0 < min_io_size := by omega
  refine ⟨?_, fun hp => info_init_returns _ _ _ _ _ _ _ (fun _ => ne_of_gt hsub)
    (ne_of_gt hmio) hp⟩
  intro ui h
  obtain ⟨_, _, _, _, _, _, hleb, _⟩ := info_init_eq_ok _ _ _ _ _ _ _ _ h
  refine ⟨hleb, by omega, ?_, ?_⟩
  · intro hv hle
    have := (info_init_data_offs_bounds _ _ _ _ _ _ _ ui hmio hsub hv h).2.2.1
    omega
  · intro h0 hle
    have hd := (info_init_data_offs_bounds _ _ _ _ _ _ _ ui hmio hsub (le_of_eq h0.symm) h).2.2.1
    obtain ⟨_, _, hv, _⟩ := info_init_eq_ok _ _ _ _ _ _ _ _ h
    have hx : 0 ≤ UBI_EC_HDR_SIZE + subpage_size - 1 := by
      unfold UBI_EC_HDR_SIZE
      omega
    have hb := (round_up_bounds UBI_EC_HDR_SIZE subpage_size hsub hx).2.2
    unfold init_vid_hdr_offs at hv
    rw [if_pos h0] at hv
    rw [← hv] at hb
    omega

/-- C10, amended, at 128 KiB blocks with a 2 KiB I/O unit and no sub-pages: the
descriptor built is `geometry_128k`, with `leb_size = 131072 - 4096 > 0`. -/
theorem info_init_leb_size_witness :
    (0 : Int) < 2048 ∧ (2048 : Int) ≤ 2048 ∧ (2048 : Int) ≤ 131072 ∧
    geometry_128k.leb_size = 131072 - geometry_128k.data_offs ∧ 0 < geometry_128k.leb_size :=
  ⟨by decide, by decide, by decide,
    ((info_init_leb_size 131072 2048 2048 0 1 0 none (by decide) (by decide) (by decide)).1
      geometry_128k rfl).1,
    ((info_init_leb_size 131072 2048 2048 0 1 0 none (by decide) (by decide) (by decide)).1
      geometry_128k rfl).2.2.2 rfl (by decide)⟩

/-! ## Volume table construction -/

theorem added_name_getElem (name : List Nat) (n : Nat) (hn : n ≤ name.length) (h127 : n ≤ 127) :
    (((name.take n) ++ ((List.replicate 128 0).drop n)).set n 0).length = 128 ∧
    ∀ j, (((name.take n) ++ ((List.replicate 128 0).drop n)).set n 0)[j]? =
      if j < n then name[j]? else if j < 128 then some 0 else none := by
  have hl1 : (name.take n).length = n := by
    rw [List.length_take]
    omega
  have hlen : ((name.take n) ++ ((List.replicate 128 0).drop n)).length = 128 := by
    rw [List.length_append, hl1, List.drop_replicate, List.length_replicate]
    omega
  refine ⟨by rw [List.length_set]; exact hlen, fun j => ?_⟩
  rw [List.getElem?_set, hlen]
  by_cases hjn : n = j
  · subst hjn
    have h1 : n < 128 := by omega
    simp [h1]
  · rw [if_neg hjn]
    by_cases hlt : j < n
    · rw [if_pos hlt, List.getElem?_append_left (by omega), List.getElem?_take_of_lt hlt]
    · rw [if_neg hlt, List.getElem?_append_right (by omega), hl1, List.drop_replicate,
        List.getElem?_replicate]
      by_cases h128 : j < 128
      · rw [if_pos (by omega), if_pos h128]
      · rw [if_neg (by omega), if_neg h128]

theorem added_record_head_length (ui : ubigen_info) (vi : ubigen_vol_info) (npebs : Int)
    (hn0 : 0 ≤ vi.name_len) (hn1 : vi.name_len ≤ UBI_VOL_NAME_MAX)
    (hn2 : vi.name_len ≤ vi.name.length) :
    ∃ r0 : ubi_vtbl_record, added_vtbl_record ui vi npebs = vtbl_record_set_crc r0 ∧
      r0.head_bytes.length = 168 := by
  refine ⟨_, rfl, ?_⟩
  have hnm := (added_name_getElem vi.name vi.name_len.toNat (by omega)
    (by unfold UBI_VOL_NAME_MAX at hn1; omega)).1
  simp only [ubi_vtbl_record.head_bytes, List.length_append, hnm]
  split <;> split <;> simp [cpu_to_be32, cpu_to_be16]

set_option maxHeartbeats 4000000 in
theorem add_volume_success (helper : Int → Int → Int → Int → Int) (ui : ubigen_info)
    (vi : ubigen_vol_info) (vtbl t1 : List ubi_vtbl_record)
    (h : ubigen_add_volume helper ui vi vtbl = .ok (0, t1)) :
    0 ≤ vi.id ∧ vi.id < ui.max_volumes ∧ vi.id.toNat < vtbl.length ∧
    vi.alignment < ui.leb_size ∧ vi.alignment ≠ 0 ∧ ui.leb_size ≠ 0 ∧
    to_u64 (add_volume_leb_size ui vi) ≠ 0 ∧
    0 ≤ helper ui.max_lebs_per_peb vi.mode vi.slc_ratio (add_volume_nlebs ui vi) ∧
    0 ≤ vi.name_len ∧ vi.name_len ≤ UBI_VOL_NAME_MAX ∧ vi.name_len ≤ vi.name.length ∧
    t1.length = vtbl.length ∧
    t1[vi.id.toNat]? = some (added_vtbl_record ui vi
      (helper ui.max_lebs_per_peb vi.mode vi.slc_ratio (add_volume_nlebs ui vi))) ∧
    ∀ j, j ≠ vi.id.toNat → t1[j]? =
      if vi.mode = UBI_VID_MODE_MLC_SAFE ∧ j = 0
      then (vtbl[j]?).map (fun r => { r with slc_ratio := to_u8 vi.slc_ratio })
      else vtbl[j]? := by
  unfold ubigen_add_volume at h
  split at h
  · simp at h
  split at h
  · simp at h
  rename_i hid hal
  rw [except_bind_eq_ok] at h
  obtain ⟨ta, ha, h⟩ := h
  split at h
  · simp at h
  rename_i hz
  simp only at h
  split at h
  · simp at h
  rename_i hnp
  simp only [except_bind_eq_ok] at h
  obtain ⟨q, hq, tb, hb, tc, hc, td, hd, te, he, tmp, htmp, tf, hf, tg, hg, th, hh, h⟩ := h
  split at h
  · simp at h
  rename_i hname
  simp only [except_bind_eq_ok] at h
  obtain ⟨tj, hj, tk, hk, tl, hl, h⟩ := h
  simp only [pure, Except.pure, Except.ok.injEq, Prod.mk.injEq, true_and] at h
  subst h
  obtain ⟨hid0, r0, hr0, _⟩ := (vtbl_update_eq_ok _ _ _ _).1 ha
  have hlen : vi.id.toNat < vtbl.length := (List.getElem?_eq_some_iff.1 hr0).1
  obtain ⟨hleb0, _⟩ := (c_div_eq_ok _ _ _).1 hq
  obtain ⟨hal0, htmp⟩ := (c_mod_eq_ok _ _ _).1 htmp
  subst htmp
  have hname1 : 0 ≤ vi.name_len ∧ vi.name_len ≤ UBI_VOL_NAME_MAX
      ∧ vi.name_len ≤ vi.name.length := by
    simp only [not_or, not_lt, gt_iff_lt] at hname
    exact hname
  have ga := vtbl_update_get_self _ _ _ _ _ ha hr0
  have gb := vtbl_update_get_self _ _ _ _ _ hb ga
  have gc := vtbl_update_get_self _ _ _ _ _ hc gb
  have gd := vtbl_update_get_self _ _ _ _ _ hd gc
  have ge := vtbl_update_get_self _ _ _ _ _ he gd
  have gf := vtbl_update_get_self _ _ _ _ _ hf ge
  have gg := vtbl_update_get_self _ _ _ _ _ hg gf
  have la := vtbl_update_length _ _ _ _ ha
  have lb := vtbl_update_length _ _ _ _ hb
  have lc := vtbl_update_length _ _ _ _ hc
  have ld := vtbl_update_length _ _ _ _ hd
  have le := vtbl_update_length _ _ _ _ he
  have lf := vtbl_update_length _ _ _ _ hf
  have lg := vtbl_update_length _ _ _ _ hg
  have lj := vtbl_update_length _ _ _ _ hj
  have lk := vtbl_update_length _ _ _ _ hk
  have ll := vtbl_update_length _ _ _ _ hl
  have og : ∀ j, j ≠ vi.id.toNat → tg[j]? = vtbl[j]? := by
    intro j hjne
    rw [vtbl_update_get_other _ _ _ _ j hg (Ne.symm hjne),
      vtbl_update_get_other _ _ _ _ j hf (Ne.symm hjne),
      vtbl_update_get_other _ _ _ _ j he (Ne.symm hjne),
      vtbl_update_get_other _ _ _ _ j hd (Ne.symm hjne),
      vtbl_update_get_other _ _ _ _ j hc (Ne.symm hjne),
      vtbl_update_get_other _ _ _ _ j hb (Ne.symm hjne),
      vtbl_update_get_other _ _ _ _ j ha (Ne.symm hjne)]
  have ol : ∀ j, j ≠ vi.id.toNat → tl[j]? = th[j]? := by
    intro j hjne
    rw [vtbl_update_get_other _ _ _ _ j hl (Ne.symm hjne),
      vtbl_update_get_other _ _ _ _ j hk (Ne.symm hjne),
      vtbl_update_get_other _ _ _ _ j hj (Ne.symm hjne)]
  by_cases hmlc : vi.mode = UBI_VID_MODE_MLC_SAFE
  · rw [if_pos hmlc] at hh
    simp only [except_bind_eq_ok] at hh
    obtain ⟨ts, hs, hh⟩ := hh
    have ls := vtbl_update_length _ _ _ _ hs
    have lh := vtbl_update_length _ _ _ _ hh
    refine ⟨hid0, by omega, hlen, by omega, hal0, hleb0, hz, by omega, hname1.1, hname1.2.1,
      hname1.2.2, by omega, ?_, ?_⟩
    · by_cases h0 : vi.id = 0
      · have e0 : (0 : Int).toNat = vi.id.toNat := by rw [h0]
        have gs := vtbl_update_get_self _ _ _ _ _ hs (by rw [e0]; exact gg)
        rw [e0] at gs
        have gh := vtbl_update_get_self _ _ _ _ _ hh gs
        have gj := vtbl_update_get_self _ _ _ _ _ hj gh
        have gk := vtbl_update_get_self _ _ _ _ _ hk gj
        have gl := vtbl_update_get_self _ _ _ _ _ hl gk
        rw [gl]
        simp only [added_vtbl_record, hmlc, h0, and_self, if_true]
        rfl
      · have hne : (0 : Int).toNat ≠ vi.id.toNat := by
          simp only [Int.toNat_zero]
          omega
        have gs := vtbl_update_get_other _ _ _ _ _ hs hne
        rw [gg] at gs
        have gh := vtbl_update_get_self _ _ _ _ _ hh gs
        have gj := vtbl_update_get_self _ _ _ _ _ hj gh
        have gk := vtbl_update_get_self _ _ _ _ _ hk gj
        have gl := vtbl_update_get_self _ _ _ _ _ hl gk
        rw [gl]
        simp only [added_vtbl_record, hmlc, h0, and_false, if_false, if_true]
        rfl
    · intro j hjne
      rw [ol j hjne, vtbl_update_get_other _ _ _ _ j hh (Ne.symm hjne)]
      by_cases hj0 : j = 0
      · subst hj0
        rw [if_pos ⟨hmlc, rfl⟩]
        obtain ⟨_, r, hr, rfl⟩ := (vtbl_update_eq_ok _ _ _ _).1 hs
        simp only [Int.toNat_zero] at hr ⊢
        have hlt : 0 < tg.length := (List.getElem?_eq_some_iff.1 hr).1
        rw [List.getElem?_set_self hlt, ← og 0 hjne, hr]
        rfl
      · rw [if_neg (by simp [hj0]), vtbl_update_get_other _ _ _ _ j hs
          (by simp only [Int.toNat_zero]; omega), og j hjne]
  · rw [if_neg hmlc] at hh
    simp only [pure, Except.pure, Except.ok.injEq] at hh
    subst hh
    refine ⟨hid0, by omega, hlen, by omega, hal0, hleb0, hz, by omega, hname1.1, hname1.2.1,
      hname1.2.2, by omega, ?_, ?_⟩
    · have gj := vtbl_update_get_self _ _ _ _ _ hj gg
      have gk := vtbl_update_get_self _ _ _ _ _ hk gj
      have gl := vtbl_update_get_self _ _ _ _ _ hl gk
      rw [gl]
      simp only [added_vtbl_record, hmlc, false_and, if_false]
      rfl
    · intro j hjne
      rw [ol j hjne, og j hjne, if_neg (by simp [hmlc])]

theorem except_ok_bind {ε α β : Type} (a : α) (g : α → Except ε β) :
    ((Except.ok a : Except ε α) >>= g) = g a := rfl

theorem vtbl_update_bind_ok {β : Type} {t : List ubi_vtbl_record} {i : Int}
    {f : ubi_vtbl_record → ubi_vtbl_record}
    {g : List ubi_vtbl_record → Except Fault β} {P : β → Prop}
    (h0 : 0 ≤ i) (hlt : i.toNat < t.length)
    (hg : ∀ t1, t1.length = t.length → ∃ b, g t1 = .ok b ∧ P b) :
    ∃ b, (vtbl_update t i f >>= g) = .ok b ∧ P b := by
  have hu : vtbl_update t i f = .ok (t.set i.toNat (f t[i.toNat])) := by
    rw [vtbl_update_eq_ok]
    exact ⟨h0, t[i.toNat], List.getElem?_eq_getElem hlt, rfl⟩
  rw [hu, except_ok_bind]
  exact hg _ (by simp)

theorem add_volume_returns (helper : Int → Int → Int → Int → Int) (ui : ubigen_info)
    (vi : ubigen_vol_info) (vtbl : List ubi_vtbl_record)
    (hid0 : 0 ≤ vi.id) (hid : vi.id < ui.max_volumes) (hlen : vi.id.toNat < vtbl.length)
    (hal : vi.alignment < ui.leb_size) (hal0 : vi.alignment ≠ 0) (hleb0 : ui.leb_size ≠ 0)
    (hz : to_u64 (add_volume_leb_size ui vi) ≠ 0)
    (hnp : 0 ≤ helper ui.max_lebs_per_peb vi.mode vi.slc_ratio (add_volume_nlebs ui vi))
    (hn0 : 0 ≤ vi.name_len) (hn1 : vi.name_len ≤ UBI_VOL_NAME_MAX)
    (hn2 : vi.name_len ≤ vi.name.length) :
    ∃ b, ubigen_add_volume helper ui vi vtbl = .ok b ∧ b.1 = 0 := by
  have hq : c_div (vi.bytes + ui.leb_size - 1) ui.leb_size
      = .ok ((vi.bytes + ui.leb_size - 1).tdiv ui.leb_size) := by
    rw [c_div_eq_ok]
    exact ⟨hleb0, rfl⟩
  have hm : c_mod ui.leb_size vi.alignment = .ok (ui.leb_size.tmod vi.alignment) := by
    rw [c_mod_eq_ok]
    exact ⟨hal0, rfl⟩
  unfold ubigen_add_volume
  rw [if_neg (by omega), if_neg (by omega)]
  refine vtbl_update_bind_ok hid0 hlen (fun ta la => ?_)
  rw [if_neg hz]
  simp only
  rw [if_neg (by omega), hq, except_ok_bind]
  refine vtbl_update_bind_ok hid0 (by omega) (fun tb lb => ?_)
  refine vtbl_update_bind_ok hid0 (by omega) (fun tc lc => ?_)
  refine vtbl_update_bind_ok hid0 (by omega) (fun td ld => ?_)
  refine vtbl_update_bind_ok hid0 (by omega) (fun te le => ?_)
  rw [hm, except_ok_bind]
  refine vtbl_update_bind_ok hid0 (by omega) (fun tf lf => ?_)
  refine vtbl_update_bind_ok hid0 (by omega) (fun tg lg => ?_)
  have hth : ∃ th, (if vi.mode = UBI_VID_MODE_MLC_SAFE then do
        let vtbl ← vtbl_update tg 0 (fun r => { r with slc_ratio := to_u8 vi.slc_ratio })
        vtbl_update vtbl vi.id
          (fun r => { r with reserved_lebs := cpu_to_be32 (to_u32 (add_volume_nlebs ui vi)) })
      else pure tg) = Except.ok th ∧ th.length = tg.length := by
    by_cases hmlc : vi.mode = UBI_VID_MODE_MLC_SAFE
    · rw [if_pos hmlc]
      refine vtbl_update_bind_ok (le_refl 0) (by simp only [Int.toNat_zero]; omega)
        (fun ts ls => ?_)
      have := vtbl_update_bind_ok (g := fun t => Except.ok t) (P := fun t => t.length = ts.length)
        (f := fun r => { r with reserved_lebs := cpu_to_be32 (to_u32 (add_volume_nlebs ui vi)) })
        hid0 (show vi.id.toNat < ts.length by omega) (fun t1 h1 => ⟨t1, rfl, h1⟩)
      obtain ⟨th, hh, lh⟩ := this
      have e : ∀ x : Except Fault (List ubi_vtbl_record), (x >>= fun t => Except.ok t) = x := by
        intro x
        cases x <;> rfl
      rw [e] at hh
      exact ⟨th, hh, by omega⟩
    · rw [if_neg hmlc]
      exact ⟨tg, rfl, rfl⟩
  obtain ⟨th, hh, lh⟩ := hth
  rw [hh, except_ok_bind, if_neg (by omega)]
  refine vtbl_update_bind_ok hid0 (by omega) (fun tj lj => ?_)
  refine vtbl_update_bind_ok hid0 (by omega) (fun tk lk => ?_)
  refine vtbl_update_bind_ok hid0 (by omega) (fun tl ll => ?_)
  exact ⟨_, rfl, rfl⟩

theorem create_empty_vtbl_eq (ui : ubigen_info) (h0 : 0 ≤ ui.max_volumes)
    (hsz : ui.vtbl_size = ui.max_volumes * UBI_VTBL_RECORD_SIZE) :
    ubigen_create_empty_vtbl ui
      = .ok (some (List.replicate ui.max_volumes.toNat (vtbl_record_set_crc zero_vtbl_record))) := by
  have hn : (ui.vtbl_size / UBI_VTBL_RECORD_SIZE).toNat = ui.max_volumes.toNat := by
    rw [hsz]
    unfold UBI_VTBL_RECORD_SIZE
    rw [Int.mul_ediv_cancel _ (by decide)]
  obtain ⟨t1, h1, hl1, hg1⟩ := empty_vtbl_loop_ok ui.max_volumes.toNat 0
    (List.replicate ui.max_volumes.toNat zero_vtbl_record) (by simp)
  have hlen : t1.length = ui.max_volumes.toNat := by simp [hl1]
  have hall : ∀ r ∈ t1, r = vtbl_record_set_crc zero_vtbl_record := by
    intro r hr
    obtain ⟨j, hj, rfl⟩ := List.getElem_of_mem hr
    have := hg1 j
    rw [List.getElem?_eq_getElem hj, if_pos (by omega), List.getElem?_replicate,
      if_pos (by omega)] at this
    simpa using this
  have ht1 : t1 = List.replicate ui.max_volumes.toNat (vtbl_record_set_crc zero_vtbl_record) :=
    List.eq_replicate_iff.2 ⟨hlen, hall⟩
  unfold ubigen_create_empty_vtbl
  rw [if_neg (by rw [hsz]; unfold UBI_VTBL_RECORD_SIZE; omega), hn]
  simp only [h1, ht1]

/-- C5: for a geometry descriptor whose `max_volumes` is not negative and whose
`vtbl_size` is `max_volumes * UBI_VTBL_RECORD_SIZE`, `ubigen_create_empty_vtbl`
returns a table of exactly `max_volumes` records of 172 bytes (`vtbl_size` bytes in
all); every record is the zero record except for its `crc`, which holds the
big-endian CRC-32, started from `UBI_CRC32_INIT`, of the 168 zero bytes that make up
the record's first `UBI_VTBL_RECORD_SIZE_CRC` bytes, so every slot validates and all
slots are identical. -/
theorem create_empty_vtbl_spec (ui : ubigen_info) (h0 : 0 ≤ ui.max_volumes)
    (hsz : ui.vtbl_size = ui.max_volumes * UBI_VTBL_RECORD_SIZE) :
    ∃ vtbl, ubigen_create_empty_vtbl ui = .ok (some vtbl) ∧
      (vtbl.length : Int) = ui.max_volumes ∧
      (vtbl.length : Int) * UBI_VTBL_RECORD_SIZE = ui.vtbl_size ∧
      ∀ r ∈ vtbl,
        r = { zero_vtbl_record with
              crc := cpu_to_be32 (mtd_crc32 UBI_CRC32_INIT (List.replicate 168 0)) } ∧
        r.to_bytes.length = 172 ∧
        r.to_bytes.take UBI_VTBL_RECORD_SIZE_CRC.toNat = List.replicate 168 0 ∧
        vtbl_record_crc_valid r := by
  have hcrc : vtbl_record_set_crc zero_vtbl_record = { zero_vtbl_record with
      crc := cpu_to_be32 (mtd_crc32 UBI_CRC32_INIT (List.replicate 168 0)) } := by
    unfold vtbl_record_set_crc
    rw [take_head_bytes _ zero_head_bytes_length, zero_head_bytes]
  refine ⟨_, create_empty_vtbl_eq ui h0 hsz, ?_, ?_, ?_⟩
  · rw [List.length_replicate]
    exact Int.toNat_of_nonneg h0
  · rw [List.length_replicate, hsz, Int.toNat_of_nonneg h0]
  · intro r hr
    have hr1 := (List.mem_replicate.1 hr).2
    refine ⟨by rw [hr1, hcrc], ?_, ?_, ?_⟩
    · rw [hr1]
      have e : (vtbl_record_set_crc zero_vtbl_record).to_bytes
          = zero_vtbl_record.head_bytes ++ (vtbl_record_set_crc zero_vtbl_record).crc := rfl
      rw [e, List.length_append, zero_head_bytes_length]
      rfl
    · rw [hr1, take_set_crc _ zero_head_bytes_length]
      exact zero_head_bytes
    · rw [hr1]
      exact set_crc_valid _ zero_head_bytes_length

/-- C5 on the 128 KiB geometry: the table has 128 records, 22016 bytes. -/
theorem create_empty_vtbl_spec_witness :
    (0 : Int) ≤ geometry_128k.max_volumes ∧
    geometry_128k.vtbl_size = geometry_128k.max_volumes * UBI_VTBL_RECORD_SIZE ∧
    ∃ vtbl, ubigen_create_empty_vtbl geometry_128k = .ok (some vtbl) ∧
      (vtbl.length : Int) = 128 ∧ ∀ r ∈ vtbl, vtbl_record_crc_valid r :=
  match create_empty_vtbl_spec geometry_128k (by decide) (by decide) with
  | ⟨vtbl, h, hl, _, hr⟩ => ⟨by decide, by decide, vtbl, h, hl, fun r hm => (hr r hm).2.2.2⟩

/-- C4: when `vi.id >= ui.max_volumes`, or when `vi.alignment >= ui.leb_size`,
`ubigen_add_volume` returns -1 and the table it hands back is the table it was
given, every record and so every checksum unchanged. -/
theorem add_volume_rejects (helper : Int → Int → Int → Int → Int) (ui : ubigen_info)
    (vi : ubigen_vol_info) (vtbl : List ubi_vtbl_record)
    (h : vi.id ≥ ui.max_volumes ∨ vi.alignment ≥ ui.leb_size) :
    ubigen_add_volume helper ui vi vtbl = .ok (-1, vtbl) := by
  unfold ubigen_add_volume
  by_cases h1 : vi.id ≥ ui.max_volumes
  · rw [if_pos h1]
  · rw [if_neg h1]
    have h2 : vi.alignment ≥ ui.leb_size := h.resolve_left h1
    rw [if_pos h2]

/-- C4 on the 128 KiB geometry: a volume with `id = max_volumes = 128` is rejected
with -1 and the table is unchanged. -/
theorem add_volume_rejects_witness :
    ((128 : Int) ≥ geometry_128k.max_volumes ∨ (1 : Int) ≥ geometry_128k.leb_size) ∧
    ubigen_add_volume lebs_to_pebs_one_to_one geometry_128k
      { id := 128, type := 1, mode := 0, alignment := 1, data_pad := 0,
        usable_leb_size := 126976, name := [118, 111, 108], name_len := 3, compat := 0,
        used_ebs := 0, bytes := 102400, flags := 0, slc_ratio := 0 }
      (List.replicate 128 (vtbl_record_set_crc zero_vtbl_record))
      = .ok (-1, List.replicate 128 (vtbl_record_set_crc zero_vtbl_record)) :=
  ⟨Or.inl (by decide), add_volume_rejects _ _ _ _ (Or.inl (by decide))⟩

theorem add_volume_runs (helper : Int → Int → Int → Int → Int) (ui : ubigen_info)
    (vi : ubigen_vol_info) (vtbl : List ubi_vtbl_record)
    (hid0 : 0 ≤ vi.id) (hid : vi.id < ui.max_volumes) (hlen : vi.id.toNat < vtbl.length)
    (hal : vi.alignment < ui.leb_size) (hal0 : vi.alignment ≠ 0) (hleb0 : ui.leb_size ≠ 0)
    (hz : to_u64 (add_volume_leb_size ui vi) ≠ 0)
    (hnp : 0 ≤ helper ui.max_lebs_per_peb vi.mode vi.slc_ratio (add_volume_nlebs ui vi))
    (hn0 : 0 ≤ vi.name_len) (hn1 : vi.name_len ≤ UBI_VOL_NAME_MAX)
    (hn2 : vi.name_len ≤ vi.name.length) :
    ∃ t1, ubigen_add_volume helper ui vi vtbl = .ok (0, t1) ∧
      t1[vi.id.toNat]? = some (added_vtbl_record ui vi
        (helper ui.max_lebs_per_peb vi.mode vi.slc_ratio (add_volume_nlebs ui vi))) ∧
      ∀ j, j ≠ vi.id.toNat → t1[j]? =
        if vi.mode = UBI_VID_MODE_MLC_SAFE ∧ j = 0
        then (vtbl[j]?).map (fun r => { r with slc_ratio := to_u8 vi.slc_ratio })
        else vtbl[j]? := by
  obtain ⟨⟨c, t1⟩, h, hc⟩ := add_volume_returns helper ui vi vtbl hid0 hid hlen hal hal0 hleb0 hz
    hnp hn0 hn1 hn2
  simp only at hc
  subst hc
  have hs := add_volume_success helper ui vi vtbl t1 h
  exact ⟨t1, h, hs.2.2.2.2.2.2.2.2.2.2.2.2.1, hs.2.2.2.2.2.2.2.2.2.2.2.2.2⟩

theorem add_volume_helper_fails (helper : Int → Int → Int → Int → Int) (ui : ubigen_info)
    (vi : ubigen_vol_info) (vtbl : List ubi_vtbl_record)
    (hid0 : 0 ≤ vi.id) (hid : vi.id < ui.max_volumes) (hlen : vi.id.toNat < vtbl.length)
    (hal : vi.alignment < ui.leb_size)
    (hz : to_u64 (add_volume_leb_size ui vi) ≠ 0)
    (hnp : helper ui.max_lebs_per_peb vi.mode vi.slc_ratio (add_volume_nlebs ui vi) < 0) :
    ubigen_add_volume helper ui vi vtbl = .ok (-1, vtbl.set vi.id.toNat zero_vtbl_record) := by
  have hu : vtbl_update vtbl vi.id (fun _ => zero_vtbl_record)
      = .ok (vtbl.set vi.id.toNat zero_vtbl_record) := by
    rw [vtbl_update_eq_ok]
    exact ⟨hid0, vtbl[vi.id.toNat], List.getElem?_eq_getElem hlen, rfl⟩
  unfold ubigen_add_volume
  rw [if_neg (by omega), if_neg (by omega), hu, except_ok_bind, if_neg hz]
  simp only
  rw [if_pos hnp]

/-- C3: when `ubigen_add_volume` returns 0 for a volume with `alignment > 0` (the
values being in the range of their C types: `leb_size` and the helper's result at
most `INT_MAX`, type, mode and flags bytes), the record at index `vi.id` of the
resulting table decodes to what was supplied: big-endian `alignment`, `vol_type`,
`vol_mode`, `flags`, big-endian `name_len`, the first `name_len` bytes of the
128-byte `name` followed by a NUL, big-endian `reserved_pebs` equal to the
physical-block count the helper returned for the requested size, big-endian
`data_pad` equal to `leb_size mod alignment`; and the stored `crc` is the CRC-32
of the record's first `UBI_VTBL_RECORD_SIZE_CRC` bytes.  The other conditions
of the claim (`0 <= id < max_volumes`, `alignment < leb_size`, `name_len <= 127`)
hold whenever the call returns 0. -/
theorem add_volume_round_trip (helper : Int → Int → Int → Int → Int) (ui : ubigen_info)
    (vi : ubigen_vol_info) (vtbl t1 : List ubi_vtbl_record)
    (hal : 0 < vi.alignment) (hleb : ui.leb_size ≤ INT_MAX)
    (hty : 0 ≤ vi.type ∧ vi.type < 256) (hmo : 0 ≤ vi.mode ∧ vi.mode < 256)
    (hfl : 0 ≤ vi.flags ∧ vi.flags < 256)
    (hnp : helper ui.max_lebs_per_peb vi.mode vi.slc_ratio (add_volume_nlebs ui vi) ≤ INT_MAX)
    (h : ubigen_add_volume helper ui vi vtbl = .ok (0, t1)) :
    ∃ r, t1[vi.id.toNat]? = some r ∧
      (be32_to_cpu r.alignment : Int) = vi.alignment ∧
      (r.vol_type : Int) = vi.type ∧ (r.vol_mode : Int) = vi.mode ∧
      (r.flags : Int) = vi.flags ∧
      (be16_to_cpu r.name_len : Int) = vi.name_len ∧
      r.name.length = 128 ∧
      (∀ j, j < vi.name_len.toNat → r.name[j]? = vi.name[j]?) ∧
      r.name[vi.name_len.toNat]? = some 0 ∧
      (be32_to_cpu r.reserved_pebs : Int)
        = helper ui.max_lebs_per_peb vi.mode vi.slc_ratio (add_volume_nlebs ui vi) ∧
      (be32_to_cpu r.data_pad : Int) = ui.leb_size % vi.alignment ∧
      vtbl_record_crc_valid r := by
  obtain ⟨_, _, _, hlt, _, _, _, hnp0, hn0, hn1, hn2, _, hrec, _⟩ :=
    add_volume_success helper ui vi vtbl t1 h
  unfold INT_MAX at hleb hnp
  have hn127 : vi.name_len.toNat ≤ 127 := by
    unfold UBI_VOL_NAME_MAX at hn1
    omega
  obtain ⟨hnl, hng⟩ := added_name_getElem vi.name vi.name_len.toNat (by omega) hn127
  obtain ⟨r0, hr0, hlen0⟩ := added_record_head_length ui vi
    (helper ui.max_lebs_per_peb vi.mode vi.slc_ratio (add_volume_nlebs ui vi)) hn0 hn1 hn2
  have hpad : ui.leb_size.tmod vi.alignment = ui.leb_size % vi.alignment :=
    Int.tmod_eq_emod (by omega) (by omega)
  have hpad0 := Int.emod_nonneg ui.leb_size (ne_of_gt hal)
  have hpad1 := Int.emod_lt_of_pos ui.leb_size hal
  refine ⟨_, hrec, ?_, ?_, ?_, ?_, ?_, hnl, ?_, ?_, ?_, ?_, ?_⟩
  · show (be32_to_cpu (cpu_to_be32 (to_u32 vi.alignment)) : Int) = vi.alignment
    obtain ⟨hb, he⟩ := to_u32_of_range vi.alignment (by omega) (by omega)
    rw [be32_roundtrip _ hb, he]
  · exact to_u8_of_range vi.type hty.1 hty.2
  · exact to_u8_of_range vi.mode hmo.1 hmo.2
  · exact to_u8_of_range vi.flags hfl.1 hfl.2
  · show (be16_to_cpu (cpu_to_be16 (to_u16 vi.name_len)) : Int) = vi.name_len
    obtain ⟨hb, he⟩ := to_u16_of_range vi.name_len hn0 (by unfold UBI_VOL_NAME_MAX at hn1; omega)
    rw [be16_roundtrip _ hb, he]
  · intro j hj
    have := hng j
    rw [if_pos hj] at this
    exact this
  · have := hng vi.name_len.toNat
    rw [if_neg (by omega), if_pos (by omega)] at this
    exact this
  · show (be32_to_cpu (cpu_to_be32 (to_u32 _)) : Int) = _
    obtain ⟨hb, he⟩ := to_u32_of_range _ hnp0 (by omega)
    rw [be32_roundtrip _ hb, he]
  · show (be32_to_cpu (cpu_to_be32 (to_u32 (ui.leb_size.tmod vi.alignment))) : Int) = _
    rw [hpad]
    obtain ⟨hb, he⟩ := to_u32_of_range (ui.leb_size % vi.alignment) hpad0 (by omega)
    rw [be32_roundtrip _ hb, he]
  · rw [hr0]
    exact set_crc_valid r0 hlen0

theorem add_volume_nlebs_eq_ceil (ui : ubigen_info) (vi : ubigen_vol_info)
    (hb0 : 0 ≤ vi.bytes) (hb1 : vi.bytes ≤ LLONG_MAX)
    (hl0 : 0 < add_volume_leb_size ui vi) (hl1 : add_volume_leb_size ui vi ≤ INT_MAX)
    (hfit : ⌈(vi.bytes : ℚ) / (add_volume_leb_size ui vi : ℚ)⌉ ≤ INT_MAX) :
    add_volume_nlebs ui vi = ⌈(vi.bytes : ℚ) / (add_volume_leb_size ui vi : ℚ)⌉ := by
  rw [ceil_div_eq _ _ hl0] at hfit ⊢
  unfold add_volume_nlebs
  generalize add_volume_leb_size ui vi = L at *
  unfold LLONG_MAX at hb1
  unfold INT_MAX at hl1 hfit
  have e1 := to_u64_of_range (vi.bytes + L - 1) (by omega) (by omega)
  have e2 := to_u64_of_range L (by omega) (by omega)
  have e3 : ((to_u64 (vi.bytes + L - 1) / to_u64 L : Nat) : Int) = (vi.bytes + L - 1) / L := by
    rw [Int.natCast_div, e1, e2]
  rw [e3]
  have h0 : 0 ≤ (vi.bytes + L - 1) / L := Int.ediv_nonneg (by omega) (by omega)
  exact to_int_of_range _ (by unfold INT_MIN; omega) (by unfold INT_MAX; omega)

theorem add_volume_stored_pebs (helper : Int → Int → Int → Int → Int) (ui : ubigen_info)
    (vi : ubigen_vol_info) (vtbl t1 : List ubi_vtbl_record)
    (h : ubigen_add_volume helper ui vi vtbl = .ok (0, t1))
    (hnp : helper ui.max_lebs_per_peb vi.mode vi.slc_ratio (add_volume_nlebs ui vi) ≤ INT_MAX) :
    ∃ r, t1[vi.id.toNat]? = some r ∧
      (be32_to_cpu r.reserved_pebs : Int)
        = helper ui.max_lebs_per_peb vi.mode vi.slc_ratio (add_volume_nlebs ui vi) := by
  obtain ⟨_, _, _, _, _, _, _, hnp0, _, _, _, _, hrec, _⟩ :=
    add_volume_success helper ui vi vtbl t1 h
  unfold INT_MAX at hnp
  refine ⟨_, hrec, ?_⟩
  show (be32_to_cpu (cpu_to_be32 (to_u32 _)) : Int) = _
  obtain ⟨hb, he⟩ := to_u32_of_range _ hnp0 (by omega)
  rw [be32_roundtrip _ hb, he]

theorem ediv_eq_one_of_le (a b : Int) (ha : 0 < a) (hab : a ≤ b) : (a + b - 1) / b = 1 := by
  have := (Int.ediv_emod_unique (a := a + b - 1) (b := b) (r := a - 1) (q := 1)
    (by omega)).2 ⟨by ring, by omega, by omega⟩
  exact this.1

theorem empty_vtbl_128_length : empty_vtbl_128.length = 128 := List.length_replicate _ _

/-- C6, as stated, fails: for `volume_huge` on `geometry_128k`, a request of `2^32`
logical blocks, `ubigen_add_volume` returns 0 and stores the count 0 (the block
count is narrowed to `int` before the helper sees it), whereas the helper applied
to the ceiling of the requested bytes over the logical-block size gives `2^32`. -/
theorem add_volume_block_count_narrowed :
    ∃ t1 r, ubigen_add_volume lebs_to_pebs_one_to_one geometry_128k volume_huge empty_vtbl_128
        = .ok (0, t1) ∧
      t1[0]? = some r ∧ be32_to_cpu r.reserved_pebs = 0 ∧
      lebs_to_pebs_one_to_one geometry_128k.max_lebs_per_peb volume_huge.mode
        volume_huge.slc_ratio
        ⌈(volume_huge.bytes : ℚ) / (add_volume_leb_size geometry_128k volume_huge : ℚ)⌉
        = 4294967296 := by
  obtain ⟨t1, h, hrec, _⟩ := add_volume_runs lebs_to_pebs_one_to_one geometry_128k volume_huge
    empty_vtbl_128 (by decide) (by decide) (by rw [empty_vtbl_128_length]; decide) (by decide)
    (by decide) (by decide) (by decide) (by decide) (by decide) (by decide) (by decide)
  refine ⟨t1, _, h, hrec, by decide, ?_⟩
  rw [ceil_div_eq _ _ (by decide)]
  decide

theorem lebs_to_pebs_one_to_one_eq (a b c n : Int) : lebs_to_pebs_one_to_one a b c n = n := rfl

theorem add_volume_scenario_128k (subpage_size : Int) (hs0 : 0 < subpage_size)
    (hs1 : subpage_size ≤ 2048) :
    ∃ ui vtbl t1 r,
      ubigen_info_init 131072 2048 subpage_size 0 1 0 none = .ok ui ∧
      ui.leb_size = 131072 - ui.data_offs ∧
      ubigen_create_empty_vtbl ui = .ok (some vtbl) ∧
      ubigen_add_volume lebs_to_pebs_one_to_one ui volume_100k vtbl = .ok (0, t1) ∧
      t1[0]? = some r ∧
      (be32_to_cpu r.reserved_pebs : Int) = ⌈(102400 : ℚ) / (ui.leb_size : ℚ)⌉ ∧
      be32_to_cpu r.reserved_pebs = 1 := by
  obtain ⟨ui, hui⟩ := info_init_returns 131072 2048 subpage_size 0 1 0 none
    (fun _ => ne_of_gt hs0) (by decide) (fun _ hp => nomatch hp)
  obtain ⟨_, _, hv, _, _, _, hleb, hmax, hsz⟩ := info_init_eq_ok _ _ _ _ _ _ _ _ hui
  obtain ⟨_, hd0, hd1, _⟩ := info_init_data_offs_bounds _ _ _ _ _ _ _ ui (by decide) hs0
    (le_refl 0) hui
  have hx : 0 ≤ UBI_EC_HDR_SIZE + subpage_size - 1 := by
    unfold UBI_EC_HDR_SIZE
    omega
  have hvb := (round_up_bounds UBI_EC_HDR_SIZE subpage_size hs0 hx).2.2
  unfold init_vid_hdr_offs at hv
  rw [if_pos rfl] at hv
  rw [← hv] at hvb
  unfold UBI_EC_HDR_SIZE at hvb
  unfold UBI_VID_HDR_SIZE at hd0 hd1
  have hlb : 126848 < ui.leb_size := by omega
  have hub : ui.leb_size ≤ 131072 := by
    have := info_init_vid_hdr_offs_nonneg _ _ _ _ _ _ _ ui hs0 (le_refl 0) hui
    omega
  have hdiv : ui.leb_size.tdiv UBI_VTBL_RECORD_SIZE = ui.leb_size / UBI_VTBL_RECORD_SIZE :=
    Int.tdiv_eq_ediv (by omega) (by decide)
  have hmv : ui.max_volumes = 128 := by
    rw [hmax, hdiv]
    unfold UBI_VTBL_RECORD_SIZE UBI_MAX_VOLUMES
    rw [if_pos (by omega)]
  have hml : ui.max_lebs_per_peb = 1 := by
    unfold ubigen_info_init at hui
    simp only [except_bind_eq_ok, pure, Except.pure, Except.ok.injEq] at hui
    obtain ⟨_, _, _, _, hui⟩ := hui
    rw [← hui]
  have hL : add_volume_leb_size ui volume_100k = ui.leb_size := by
    unfold add_volume_leb_size
    rw [if_neg (by decide)]
  have hvt := create_empty_vtbl_eq ui (by omega) hsz
  have hz : to_u64 (add_volume_leb_size ui volume_100k) ≠ 0 := by
    rw [hL]
    unfold to_u64
    omega
  have hceil : ⌈((102400 : Int) : ℚ) / (ui.leb_size : ℚ)⌉ = 1 := by
    rw [ceil_div_eq _ _ (by omega)]
    exact ediv_eq_one_of_le _ _ (by decide) (by omega)
  have hbytes : volume_100k.bytes = 102400 := rfl
  have hnl : add_volume_nlebs ui volume_100k = 1 := by
    have hc : ⌈(volume_100k.bytes : ℚ) / (add_volume_leb_size ui volume_100k : ℚ)⌉ = 1 := by
      rw [hL, hbytes]
      exact hceil
    rw [add_volume_nlebs_eq_ceil ui volume_100k (by decide) (by decide) (by rw [hL]; omega)
      (by rw [hL]; unfold INT_MAX; omega) (by rw [hc]; decide)]
    exact hc
  obtain ⟨t1, h, _, _⟩ := add_volume_runs lebs_to_pebs_one_to_one ui volume_100k
    (List.replicate ui.max_volumes.toNat (vtbl_record_set_crc zero_vtbl_record))
    (by decide) (by rw [hmv]; decide) (by rw [List.length_replicate, hmv]; decide)
    (by have e : volume_100k.alignment = 1 := rfl
        rw [e]; omega) (by decide) (by omega) hz
    (by rw [lebs_to_pebs_one_to_one_eq, hnl]; decide)
    (by decide) (by decide) (by decide)
  obtain ⟨r, hr, hp⟩ := add_volume_stored_pebs lebs_to_pebs_one_to_one ui volume_100k _ t1 h
    (by rw [lebs_to_pebs_one_to_one_eq, hnl]; decide)
  have hp1 : (be32_to_cpu r.reserved_pebs : Int) = 1 := by
    rw [hp, lebs_to_pebs_one_to_one_eq]
    exact hnl
  refine ⟨ui, _, t1, r, hui, hleb, hvt, h, hr, ?_, by exact_mod_cast hp1⟩
  rw [hp1]
  have := hceil
  push_cast at this
  exact this.symm

/-- C6, amended: when `ubigen_add_volume` returns 0, the requested size is between 0
and `LLONG_MAX`, the effective logical-block size `L` (`slc_leb_size` in the
SLC-emulated and MLC-safe modes, `leb_size` otherwise) is positive and the ceiling
of bytes over `L`, like the helper's result, fits a C `int`, then the stored
big-endian `reserved_pebs` is the helper applied to that ceiling.  In particular,
for 128 KiB blocks, a 2 KiB I/O unit, any sub-page size up to it, no pairing
scheme, the one-to-one helper and `volume_100k` on the empty table, the call
returns 0 and the stored count is the ceiling of 100 KiB over `leb_size`, which
is 1. -/
theorem add_volume_reserved_pebs :
    (∀ (helper : Int → Int → Int → Int → Int) (ui : ubigen_info) (vi : ubigen_vol_info)
        (vtbl t1 : List ubi_vtbl_record) (L : Int),
      L = (if vi.mode = UBI_VID_MODE_SLC ∨ vi.mode = UBI_VID_MODE_MLC_SAFE
        then ui.slc_leb_size else ui.leb_size) →
      ubigen_add_volume helper ui vi vtbl = .ok (0, t1) →
      0 ≤ vi.bytes → vi.bytes ≤ LLONG_MAX → 0 < L → L ≤ INT_MAX →
      ⌈(vi.bytes : ℚ) / (L : ℚ)⌉ ≤ INT_MAX →
      helper ui.max_lebs_per_peb vi.mode vi.slc_ratio ⌈(vi.bytes : ℚ) / (L : ℚ)⌉ ≤ INT_MAX →
      ∃ r, t1[vi.id.toNat]? = some r ∧
        (be32_to_cpu r.reserved_pebs : Int)
          = helper ui.max_lebs_per_peb vi.mode vi.slc_ratio ⌈(vi.bytes : ℚ) / (L : ℚ)⌉) ∧
    (∀ subpage_size : Int, 0 < subpage_size → subpage_size ≤ 2048 →
      ∃ ui vtbl t1 r,
        ubigen_info_init 131072 2048 subpage_size 0 1 0 none = .ok ui ∧
        ui.leb_size = 131072 - ui.data_offs ∧
        ubigen_create_empty_vtbl ui = .ok (some vtbl) ∧
        ubigen_add_volume lebs_to_pebs_one_to_one ui volume_100k vtbl = .ok (0, t1) ∧
        t1[0]? = some r ∧
        (be32_to_cpu r.reserved_pebs : Int) = ⌈(102400 : ℚ) / (ui.leb_size : ℚ)⌉ ∧
        be32_to_cpu r.reserved_pebs = 1) := by
  refine ⟨?_, add_volume_scenario_128k⟩
  intro helper ui vi vtbl t1 L hL h hb0 hb1 hl0 hl1 hfit hnp
  have hLe : add_volume_leb_size ui vi = L := hL.symm
  have hnl := add_volume_nlebs_eq_ceil ui vi hb0 hb1 (by rw [hLe]; exact hl0)
    (by rw [hLe]; exact hl1) (by rw [hLe]; exact hfit)
  rw [hLe] at hnl
  have := add_volume_stored_pebs helper ui vi vtbl t1 h (by rw [hnl]; exact hnp)
  rw [hnl] at this
  exact this

theorem empty_vtbl_128_head : empty_vtbl_128[0]? = some (vtbl_record_set_crc zero_vtbl_record) := by
  unfold empty_vtbl_128
  rw [List.getElem?_replicate, if_pos (by decide)]

theorem add_volume_mlc_safe_slot_zero :
    ∃ t1, ubigen_add_volume lebs_to_pebs_one_to_one geometry_128k volume_mlc_safe empty_vtbl_128
        = .ok (0, t1) ∧
      t1[0]? = some { vtbl_record_set_crc zero_vtbl_record with slc_ratio := 3 } := by
  obtain ⟨t1, h, _, hother⟩ := add_volume_runs lebs_to_pebs_one_to_one geometry_128k
    volume_mlc_safe empty_vtbl_128 (by decide) (by decide)
    (by rw [empty_vtbl_128_length]; decide) (by decide)
    (by decide) (by decide) (by decide) (by decide) (by decide) (by decide) (by decide)
  refine ⟨t1, h, ?_⟩
  rw [hother 0 (by decide), if_pos ⟨rfl, rfl⟩, empty_vtbl_128_head]
  rfl

/-- C1 fails on the code: adding the MLC-safe volume `volume_mlc_safe`, whose id is
1, to the empty table of `geometry_128k` returns 0 and leaves in slot 0 the empty
record with `slc_ratio` 3 in place of 0, so a slot other than `vi.id` has
changed. -/
theorem add_volume_mlc_safe_rewrites_slot_zero :
    ∃ t1, ubigen_add_volume lebs_to_pebs_one_to_one geometry_128k volume_mlc_safe empty_vtbl_128
        = .ok (0, t1) ∧
      volume_mlc_safe.id = 1 ∧
      empty_vtbl_128[0]? = some (vtbl_record_set_crc zero_vtbl_record) ∧
      t1[0]? = some { vtbl_record_set_crc zero_vtbl_record with slc_ratio := 3 } ∧
      t1[0]? ≠ empty_vtbl_128[0]? := by
  obtain ⟨t1, h, h0⟩ := add_volume_mlc_safe_slot_zero
  refine ⟨t1, h, rfl, empty_vtbl_128_head, h0, ?_⟩
  rw [h0, empty_vtbl_128_head]
  intro he
  have := congrArg (Option.map ubi_vtbl_record.slc_ratio) he
  exact absurd this (by decide)

/-- C2 fails on the code: every record of the empty table of `geometry_128k`
validates, yet (first) after the successful call for `volume_mlc_safe` record 0
holds a checksum that does not validate, and (second) after the call for
`volume_100k` that returns -1 because the helper reports an error, record 0 is
the zero record, whose zero checksum does not validate. -/
theorem add_volume_breaks_crc_validity :
    (∀ r ∈ empty_vtbl_128, vtbl_record_crc_valid r) ∧
    (∃ t1 r, ubigen_add_volume lebs_to_pebs_one_to_one geometry_128k volume_mlc_safe
        empty_vtbl_128 = .ok (0, t1) ∧
      t1[0]? = some r ∧ ¬ vtbl_record_crc_valid r) ∧
    (∃ t2 r, ubigen_add_volume lebs_to_pebs_error geometry_128k volume_100k
        empty_vtbl_128 = .ok (-1, t2) ∧
      t2[0]? = some r ∧ ¬ vtbl_record_crc_valid r) := by
  refine ⟨?_, ?_, ?_⟩
  · intro r hr
    rw [(List.mem_replicate.1 hr).2]
    exact set_crc_valid _ zero_head_bytes_length
  · obtain ⟨t1, h, h0⟩ := add_volume_mlc_safe_slot_zero
    exact ⟨t1, _, h, h0, by decide!⟩
  · refine ⟨_, zero_vtbl_record, add_volume_helper_fails lebs_to_pebs_error geometry_128k
      volume_100k empty_vtbl_128 (by decide) (by decide)
      (by rw [empty_vtbl_128_length]; decide) (by decide) (by decide) (by decide), ?_, by decide!⟩
    exact List.getElem?_set_self (by rw [empty_vtbl_128_length]; decide)

theorem add_volume_100k_runs :
    ∃ t1, ubigen_add_volume lebs_to_pebs_one_to_one geometry_128k volume_100k empty_vtbl_128
      = .ok (0, t1) := by
  obtain ⟨t1, h, _, _⟩ := add_volume_runs lebs_to_pebs_one_to_one geometry_128k
    volume_100k empty_vtbl_128 (by decide) (by decide)
    (by rw [empty_vtbl_128_length]; decide) (by decide)
    (by decide) (by decide) (by decide) (by decide) (by decide) (by decide) (by decide)
  exact ⟨t1, h⟩

/-- C3 on `geometry_128k`, the empty table and `volume_100k`: the call returns 0 and
record 0 decodes to alignment 1, the dynamic type, the plain mode, name length 3
and data padding 0, with a checksum that validates. -/
theorem add_volume_round_trip_witness :
    ∃ t1 r, ubigen_add_volume lebs_to_pebs_one_to_one geometry_128k volume_100k empty_vtbl_128
        = .ok (0, t1) ∧
      t1[0]? = some r ∧
      (be32_to_cpu r.alignment : Int) = 1 ∧ (r.vol_type : Int) = UBI_VID_DYNAMIC ∧
      (r.vol_mode : Int) = UBI_VID_MODE_NORMAL ∧ (be16_to_cpu r.name_len : Int) = 3 ∧
      (be32_to_cpu r.data_pad : Int) = 0 ∧ vtbl_record_crc_valid r :=
  match add_volume_100k_runs with
  | ⟨t1, h⟩ =>
    match add_volume_round_trip lebs_to_pebs_one_to_one geometry_128k volume_100k
      empty_vtbl_128 t1 (by decide) (by decide) (by decide) (by decide) (by decide)
      (by decide) h with
    | ⟨r, hr, h1, h2, h3, _, h5, _, _, _, _, h10, h11⟩ => ⟨t1, r, h, hr, h1, h2, h3, h5, h10, h11⟩

/-- C6, amended, on `geometry_128k`, the empty table and `volume_100k`: the stored
count is the helper applied to the ceiling of 102400 / 126976. -/
theorem add_volume_reserved_pebs_witness :
    ∃ t1 r, ubigen_add_volume lebs_to_pebs_one_to_one geometry_128k volume_100k empty_vtbl_128
        = .ok (0, t1) ∧
      t1[0]? = some r ∧
      (be32_to_cpu r.reserved_pebs : Int)
        = lebs_to_pebs_one_to_one 1 0 0 ⌈(volume_100k.bytes : ℚ) / ((126976 : Int) : ℚ)⌉ :=
  match add_volume_100k_runs with
  | ⟨t1, h⟩ =>
    have hc : ⌈(volume_100k.bytes : ℚ) / ((126976 : Int) : ℚ)⌉ = 1 := by
      rw [ceil_div_eq _ _ (by decide)]
      decide
    match add_volume_reserved_pebs.1 lebs_to_pebs_one_to_one geometry_128k volume_100k
      empty_vtbl_128 t1 126976 (by decide) h (by decide) (by decide) (by decide) (by decide)
      (by rw [hc]; decide) (by rw [hc]; decide) with
    | ⟨r, hr, hp⟩ => ⟨t1, r, h, hr, hp⟩

/-! ## On-flash header construction -/

theorem be64_roundtrip (x : Nat) (h : x < 18446744073709551616) :
    be64_to_cpu (cpu_to_be64 x) = x := by
  unfold cpu_to_be64 be64_to_cpu
  simp only
  omega

theorem to_u32_lt (x : Int) : to_u32 x < 4294967296 := by
  unfold to_u32
  omega

theorem to_u64_lt (x : Int) : to_u64 x < 18446744073709551616 := by
  unfold to_u64
  omega

theorem to_u8_cast (x : Int) : (to_u8 x : Int) = x % 256 := by
  unfold to_u8
  omega

theorem to_int_to_u32 (x : Int) (h0 : INT_MIN ≤ x) (h1 : x ≤ INT_MAX) :
    to_int (to_u32 x) = x := by
  unfold to_int to_u32
  unfold INT_MIN at h0
  unfold INT_MAX at h1
  omega

theorem to_int64_to_u64 (x : Int) (h0 : LLONG_MIN ≤ x) (h1 : x ≤ LLONG_MAX) :
    to_int64 (to_u64 x) = x := by
  unfold to_int64 to_u64
  unfold LLONG_MIN at h0
  unfold LLONG_MAX at h1
  omega

theorem be32_to_u32 (x : Int) : be32_to_cpu (cpu_to_be32 (to_u32 x)) = to_u32 x :=
  be32_roundtrip _ (to_u32_lt x)

theorem be64_to_u64 (x : Int) : be64_to_cpu (cpu_to_be64 (to_u64 x)) = to_u64 x :=
  be64_roundtrip _ (to_u64_lt x)

theorem ec_take_head_bytes (h : ubi_ec_hdr) (hl : h.head_bytes.length = 60) :
    h.to_bytes.take UBI_EC_HDR_SIZE_CRC.toNat = h.head_bytes := by
  have e2 : UBI_EC_HDR_SIZE_CRC.toNat = h.head_bytes.length := by rw [hl]; rfl
  unfold ubi_ec_hdr.to_bytes
  rw [e2, List.take_left']
  rfl

theorem ec_set_crc_head_bytes (h : ubi_ec_hdr) :
    (ec_hdr_set_crc h).head_bytes = h.head_bytes := rfl

theorem ec_set_crc_valid (h : ubi_ec_hdr) (hl : h.head_bytes.length = 60) :
    ec_hdr_crc_valid (ec_hdr_set_crc h) := by
  unfold ec_hdr_crc_valid
  rw [ec_take_head_bytes _ (by rw [ec_set_crc_head_bytes]; exact hl), ec_set_crc_head_bytes,
    ← ec_take_head_bytes h hl]
  rfl

theorem vid_take_head_bytes (h : ubi_vid_hdr) (hl : h.head_bytes.length = 60) :
    h.to_bytes.take UBI_VID_HDR_SIZE_CRC.toNat = h.head_bytes := by
  have e2 : UBI_VID_HDR_SIZE_CRC.toNat = h.head_bytes.length := by rw [hl]; rfl
  unfold ubi_vid_hdr.to_bytes
  rw [e2, List.take_left']
  rfl

theorem vid_set_crc_head_bytes (h : ubi_vid_hdr) :
    (vid_hdr_set_crc h).head_bytes = h.head_bytes := rfl

theorem vid_set_crc_valid (h : ubi_vid_hdr) (hl : h.head_bytes.length = 60) :
    vid_hdr_crc_valid (vid_hdr_set_crc h) := by
  unfold vid_hdr_crc_valid
  rw [vid_take_head_bytes _ (by rw [vid_set_crc_head_bytes]; exact hl), vid_set_crc_head_bytes,
    ← vid_take_head_bytes h hl]
  rfl

theorem init_ec_hdr_eq (ui : ubigen_info) (prev : ubi_ec_hdr) (ec : Int) :
    ubigen_init_ec_hdr ui prev ec = ec_hdr_set_crc (ec_hdr_fields ui ec) := rfl

theorem ec_hdr_fields_head_length (ui : ubigen_info) (ec : Int) :
    (ec_hdr_fields ui ec).head_bytes.length = 60 := by
  simp [ubi_ec_hdr.head_bytes, ec_hdr_fields, cpu_to_be32, cpu_to_be64]

theorem init_vid_hdr_eq (ui : ubigen_info) (vi : ubigen_vol_info) (prev : ubi_vid_hdr)
    (lnum lpos : Int) (data : List Nat) (data_size : Int)
    (hd : vi.type = UBI_VID_STATIC → 0 ≤ data_size ∧ data_size ≤ data.length) :
    ubigen_init_vid_hdr ui vi prev lnum lpos data data_size
      = .ok (vid_hdr_set_crc (vid_hdr_fields ui vi lnum lpos data data_size)) := by
  unfold ubigen_init_vid_hdr vid_hdr_fields
  by_cases hs : vi.type = UBI_VID_STATIC
  · have hd' : ¬ (data_size < 0 ∨ (data.length : Int) < data_size) := by
      have := hd hs
      omega
    by_cases hm : vi.mode = UBI_VID_MODE_MLC_SAFE
    · simp only [hs, hm, hd', if_true, if_false]
      rfl
    · simp only [hs, hm, hd', if_true, if_false]
      rfl
  · by_cases hm : vi.mode = UBI_VID_MODE_MLC_SAFE
    · simp only [hs, hm, if_true, if_false]
      rfl
    · simp only [hs, hm, if_true, if_false]
      rfl

theorem init_vid_hdr_fault (ui : ubigen_info) (vi : ubigen_vol_info) (prev : ubi_vid_hdr)
    (lnum lpos : Int) (data : List Nat) (data_size : Int)
    (hs : vi.type = UBI_VID_STATIC) (hd : data_size < 0 ∨ (data.length : Int) < data_size) :
    ubigen_init_vid_hdr ui vi prev lnum lpos data data_size = .error .out_of_bounds := by
  unfold ubigen_init_vid_hdr
  simp only [hs, hd, if_true]
  rfl

theorem init_vid_hdr_ok_iff (ui : ubigen_info) (vi : ubigen_vol_info) (prev : ubi_vid_hdr)
    (lnum lpos : Int) (data : List Nat) (data_size : Int) (h : ubi_vid_hdr) :
    ubigen_init_vid_hdr ui vi prev lnum lpos data data_size = .ok h ↔
      (vi.type = UBI_VID_STATIC → 0 ≤ data_size ∧ data_size ≤ data.length) ∧
      h = vid_hdr_set_crc (vid_hdr_fields ui vi lnum lpos data data_size) := by
  constructor
  · intro hok
    by_cases hd : vi.type = UBI_VID_STATIC → 0 ≤ data_size ∧ data_size ≤ data.length
    · rw [init_vid_hdr_eq ui vi prev lnum lpos data data_size hd] at hok
      cases hok
      exact ⟨hd, rfl⟩
    · have hs : vi.type = UBI_VID_STATIC := by
        by_contra hn
        exact hd (fun h1 => absurd h1 hn)
      have hb : data_size < 0 ∨ (data.length : Int) < data_size := by
        by_contra hn
        exact hd (fun _ => by omega)
      rw [init_vid_hdr_fault ui vi prev lnum lpos data data_size hs hb] at hok
      cases hok
  · rintro ⟨hd, rfl⟩
    exact init_vid_hdr_eq ui vi prev lnum lpos data data_size hd

theorem init_dummy_vid_hdr_eq (ui : ubigen_info) (vi : ubigen_vol_info) (prev : ubi_vid_hdr) :
    ubigen_init_dummy_vid_hdr ui vi prev = vid_hdr_set_crc (dummy_vid_hdr_fields ui vi) := rfl

theorem vid_hdr_fields_head_length (ui : ubigen_info) (vi : ubigen_vol_info) (lnum lpos : Int)
    (data : List Nat) (data_size : Int) :
    (vid_hdr_fields ui vi lnum lpos data data_size).head_bytes.length = 60 := by
  by_cases hs : vi.type = UBI_VID_STATIC <;>
    simp [ubi_vid_hdr.head_bytes, vid_hdr_fields, hs, cpu_to_be32]

theorem dummy_vid_hdr_fields_head_length (ui : ubigen_info) (vi : ubigen_vol_info) :
    (dummy_vid_hdr_fields ui vi).head_bytes.length = 60 := by
  simp [ubi_vid_hdr.head_bytes, dummy_vid_hdr_fields, zero_vid_hdr, cpu_to_be32]

theorem vid_set_crc_to_bytes_length (h : ubi_vid_hdr) (hl : h.head_bytes.length = 60) :
    (vid_hdr_set_crc h).to_bytes.length = 64 := by
  show (h.head_bytes ++ (vid_hdr_set_crc h).hdr_crc).length = 64
  rw [List.length_append, hl]
  rfl

theorem ec_set_crc_to_bytes_length (h : ubi_ec_hdr) (hl : h.head_bytes.length = 60) :
    (ec_hdr_set_crc h).to_bytes.length = 64 := by
  show (h.head_bytes ++ (ec_hdr_set_crc h).hdr_crc).length = 64
  rw [List.length_append, hl]
  rfl

theorem crc32_shift_lt (v : Nat) (h : v < 4294967296) : crc32_shift v < 4294967296 := by
  unfold crc32_shift
  split
  · exact Nat.xor_lt_two_pow (n := 32) (by omega) (by decide)
  · omega

theorem mtd_crc32_table_lt (n : Nat) (h : n < 4294967296) : mtd_crc32_table n < 4294967296 := by
  unfold mtd_crc32_table
  exact crc32_shift_lt _ (crc32_shift_lt _ (crc32_shift_lt _ (crc32_shift_lt _
    (crc32_shift_lt _ (crc32_shift_lt _ (crc32_shift_lt _ (crc32_shift_lt _ h)))))))

theorem mtd_crc32_lt (buf : List Nat) : ∀ val, val < 4294967296 →
    mtd_crc32 val buf < 4294967296 := by
  induction buf with
  | nil => intro val h; exact h
  | cons b bs ih =>
    intro val h
    show mtd_crc32 (mtd_crc32_table ((val ^^^ b) % 256) ^^^ (val / 256)) bs < 4294967296
    apply ih
    exact Nat.xor_lt_two_pow (n := 32) (mtd_crc32_table_lt _ (by omega)) (by omega)

theorem be32_crc (buf : List Nat) :
    be32_to_cpu (cpu_to_be32 (mtd_crc32 UBI_CRC32_INIT buf)) = mtd_crc32 UBI_CRC32_INIT buf :=
  be32_roundtrip _ (mtd_crc32_lt buf _ (by decide))

/-- C11: for every geometry and every erase count `ec` (a `long long`; the offsets are
`int`s and the image sequence a `uint32_t`), `ubigen_init_ec_hdr` produces a header
of `UBI_EC_HDR_SIZE` = 64 bytes whose fields decode, big-endian, to the magic
`UBI_EC_HDR_MAGIC`, the version `ubi_ver` (as the one byte the field holds), `ec`,
`vid_hdr_offs`, `data_offs` and `image_seq`; the bytes of the header are exactly these
fields with zero bytes in between (3 after the version, 32 before the checksum); the
final `hdr_crc` is the CRC-32 of the first `UBI_EC_HDR_SIZE_CRC` bytes; and the result
is the same for every previous contents of the header buffer. -/
theorem init_ec_hdr_spec (ui : ubigen_info) (prev other : ubi_ec_hdr) (ec : Int)
    (hec : LLONG_MIN ≤ ec ∧ ec ≤ LLONG_MAX)
    (hvid : INT_MIN ≤ ui.vid_hdr_offs ∧ ui.vid_hdr_offs ≤ INT_MAX)
    (hdat : INT_MIN ≤ ui.data_offs ∧ ui.data_offs ≤ INT_MAX)
    (hseq : ui.image_seq < 4294967296) :
    ∃ h, ubigen_init_ec_hdr ui prev ec = h ∧
      (h.to_bytes.length : Int) = UBI_EC_HDR_SIZE ∧
      be32_to_cpu h.magic = UBI_EC_HDR_MAGIC ∧
      (h.version : Int) = ui.ubi_ver % 256 ∧
      (0 ≤ ui.ubi_ver ∧ ui.ubi_ver < 256 → (h.version : Int) = ui.ubi_ver) ∧
      to_int64 (be64_to_cpu h.ec) = ec ∧ (0 ≤ ec → (be64_to_cpu h.ec : Int) = ec) ∧
      to_int (be32_to_cpu h.vid_hdr_offset) = ui.vid_hdr_offs ∧
      (0 ≤ ui.vid_hdr_offs → (be32_to_cpu h.vid_hdr_offset : Int) = ui.vid_hdr_offs) ∧
      to_int (be32_to_cpu h.data_offset) = ui.data_offs ∧
      (0 ≤ ui.data_offs → (be32_to_cpu h.data_offset : Int) = ui.data_offs) ∧
      be32_to_cpu h.image_seq = ui.image_seq ∧
      h.to_bytes = h.magic ++ [h.version] ++ [0, 0, 0] ++ h.ec ++ h.vid_hdr_offset ++
        h.data_offset ++ h.image_seq ++ List.replicate 32 0 ++ h.hdr_crc ∧
      h.magic.length = 4 ∧ h.ec.length = 8 ∧ h.vid_hdr_offset.length = 4 ∧
      h.data_offset.length = 4 ∧ h.image_seq.length = 4 ∧ h.hdr_crc.length = 4 ∧
      h.hdr_crc = cpu_to_be32 (mtd_crc32 UBI_CRC32_INIT
        (h.to_bytes.take UBI_EC_HDR_SIZE_CRC.toNat)) ∧
      ubigen_init_ec_hdr ui other ec = h := by
  refine ⟨_, init_ec_hdr_eq ui prev ec, ?_, ?_, to_u8_cast _, ?_, ?_, ?_, ?_, ?_, ?_, ?_, ?_,
    rfl, rfl, rfl, rfl, rfl, rfl, rfl, ec_set_crc_valid _ (ec_hdr_fields_head_length ui ec),
    init_ec_hdr_eq ui other ec⟩
  · rw [ec_set_crc_to_bytes_length _ (ec_hdr_fields_head_length ui ec)]
    rfl
  · show be32_to_cpu (cpu_to_be32 (to_u32 UBI_EC_HDR_MAGIC)) = UBI_EC_HDR_MAGIC
    rw [be32_to_u32]
    decide
  · intro hver
    exact to_u8_of_range _ hver.1 hver.2
  · show to_int64 (be64_to_cpu (cpu_to_be64 (to_u64 ec))) = ec
    rw [be64_to_u64]
    exact to_int64_to_u64 ec hec.1 hec.2
  · intro h0
    show (be64_to_cpu (cpu_to_be64 (to_u64 ec)) : Int) = ec
    rw [be64_to_u64]
    exact to_u64_of_range ec h0 (by unfold LLONG_MAX at hec; omega)
  · show to_int (be32_to_cpu (cpu_to_be32 (to_u32 ui.vid_hdr_offs))) = ui.vid_hdr_offs
    rw [be32_to_u32]
    exact to_int_to_u32 _ hvid.1 hvid.2
  · intro h0
    show (be32_to_cpu (cpu_to_be32 (to_u32 ui.vid_hdr_offs)) : Int) = ui.vid_hdr_offs
    rw [be32_to_u32]
    exact (to_u32_of_range _ h0 (by unfold INT_MAX at hvid; omega)).2
  · show to_int (be32_to_cpu (cpu_to_be32 (to_u32 ui.data_offs))) = ui.data_offs
    rw [be32_to_u32]
    exact to_int_to_u32 _ hdat.1 hdat.2
  · intro h0
    show (be32_to_cpu (cpu_to_be32 (to_u32 ui.data_offs)) : Int) = ui.data_offs
    rw [be32_to_u32]
    exact (to_u32_of_range _ h0 (by unfold INT_MAX at hdat; omega)).2
  · show be32_to_cpu (cpu_to_be32 (to_u32 ui.image_seq)) = ui.image_seq
    rw [be32_to_u32]
    unfold to_u32
    omega

/-- C11 on `geometry_128k` with erase count 5: whatever the header buffer held, the
header decodes to the magic, version 1, erase count 5, offsets 2048 and 4096 and
image sequence 0, and its checksum validates. -/
theorem init_ec_hdr_spec_witness :
    ∃ h, ubigen_init_ec_hdr geometry_128k zero_ec_hdr 5 = h ∧
      be32_to_cpu h.magic = UBI_EC_HDR_MAGIC ∧ (h.version : Int) = 1 ∧
      (be64_to_cpu h.ec : Int) = 5 ∧ (be32_to_cpu h.vid_hdr_offset : Int) = 2048 ∧
      (be32_to_cpu h.data_offset : Int) = 4096 ∧ be32_to_cpu h.image_seq = 0 ∧
      h.hdr_crc = cpu_to_be32 (mtd_crc32 UBI_CRC32_INIT
        (h.to_bytes.take UBI_EC_HDR_SIZE_CRC.toNat)) :=
  match init_ec_hdr_spec geometry_128k zero_ec_hdr zero_ec_hdr 5 (by decide) (by decide)
    (by decide) (by decide) with
  | ⟨h, he, _, h2, _, h4, _, h6, _, h8, _, h10, h11, _, _, _, _, _, _, _, h19, _⟩ =>
    ⟨h, he, h2, h4 (by decide), h6 (by decide), h8 (by decide), h10 (by decide), h11, h19⟩

/-- C12: for every geometry, volume descriptor, `lnum` and `lpos` (the identifier,
`lnum` and `data_pad` being `int`s, and the payload readable for a static volume),
`ubigen_init_vid_hdr` builds a 64-byte header that stores the type, mode and
compatibility each in its one-byte field (so exactly as supplied when they are byte
values), and the volume id, `lnum` and `data_pad` as supplied; it stores `lpos`
when the mode is MLC-safe and leaves the `lpos` field 0, whatever `lpos` is passed, in
every other mode; and its `hdr_crc` is the CRC-32 of the first
`UBI_VID_HDR_SIZE_CRC` bytes of the header. -/
theorem init_vid_hdr_spec (ui : ubigen_info) (vi : ubigen_vol_info) (prev : ubi_vid_hdr)
    (lnum lpos : Int) (data : List Nat) (data_size : Int)
    (hd : vi.type = UBI_VID_STATIC → 0 ≤ data_size ∧ data_size ≤ data.length)
    (hid : INT_MIN ≤ vi.id ∧ vi.id ≤ INT_MAX) (hln : INT_MIN ≤ lnum ∧ lnum ≤ INT_MAX)
    (hdp : INT_MIN ≤ vi.data_pad ∧ vi.data_pad ≤ INT_MAX) :
    ∃ h, ubigen_init_vid_hdr ui vi prev lnum lpos data data_size = .ok h ∧
      (h.to_bytes.length : Int) = UBI_VID_HDR_SIZE ∧
      be32_to_cpu h.magic = UBI_VID_HDR_MAGIC ∧
      (h.vol_type : Int) = vi.type % 256 ∧ (h.vol_mode : Int) = vi.mode % 256 ∧
      (h.compat : Int) = vi.compat % 256 ∧
      (0 ≤ vi.type ∧ vi.type < 256 → (h.vol_type : Int) = vi.type) ∧
      (0 ≤ vi.mode ∧ vi.mode < 256 → (h.vol_mode : Int) = vi.mode) ∧
      (0 ≤ vi.compat ∧ vi.compat < 256 → (h.compat : Int) = vi.compat) ∧
      to_int (be32_to_cpu h.vol_id) = vi.id ∧
      (0 ≤ vi.id → (be32_to_cpu h.vol_id : Int) = vi.id) ∧
      to_int (be32_to_cpu h.lnum) = lnum ∧
      (0 ≤ lnum → (be32_to_cpu h.lnum : Int) = lnum) ∧
      to_int (be32_to_cpu h.data_pad) = vi.data_pad ∧
      (0 ≤ vi.data_pad → (be32_to_cpu h.data_pad : Int) = vi.data_pad) ∧
      (vi.mode = UBI_VID_MODE_MLC_SAFE → (h.lpos : Int) = lpos % 256) ∧
      (vi.mode = UBI_VID_MODE_MLC_SAFE → 0 ≤ lpos ∧ lpos < 256 → (h.lpos : Int) = lpos) ∧
      (vi.mode ≠ UBI_VID_MODE_MLC_SAFE → h.lpos = 0) ∧
      h.hdr_crc = cpu_to_be32 (mtd_crc32 UBI_CRC32_INIT
        (h.to_bytes.take UBI_VID_HDR_SIZE_CRC.toNat)) := by
  refine ⟨_, init_vid_hdr_eq ui vi prev lnum lpos data data_size hd, ?_, ?_,
    to_u8_cast _, to_u8_cast _, to_u8_cast _, fun h => to_u8_of_range _ h.1 h.2,
    fun h => to_u8_of_range _ h.1 h.2, fun h => to_u8_of_range _ h.1 h.2,
    ?_, ?_, ?_, ?_, ?_, ?_, ?_, ?_, ?_, vid_set_crc_valid _ (vid_hdr_fields_head_length ..)⟩
  · rw [vid_set_crc_to_bytes_length _ (vid_hdr_fields_head_length ..)]
    rfl
  · show be32_to_cpu (cpu_to_be32 (to_u32 UBI_VID_HDR_MAGIC)) = UBI_VID_HDR_MAGIC
    rw [be32_to_u32]
    decide
  · show to_int (be32_to_cpu (cpu_to_be32 (to_u32 vi.id))) = vi.id
    rw [be32_to_u32]
    exact to_int_to_u32 _ hid.1 hid.2
  · intro h0
    show (be32_to_cpu (cpu_to_be32 (to_u32 vi.id)) : Int) = vi.id
    rw [be32_to_u32]
    exact (to_u32_of_range _ h0 (by unfold INT_MAX at hid; omega)).2
  · show to_int (be32_to_cpu (cpu_to_be32 (to_u32 lnum))) = lnum
    rw [be32_to_u32]
    exact to_int_to_u32 _ hln.1 hln.2
  · intro h0
    show (be32_to_cpu (cpu_to_be32 (to_u32 lnum)) : Int) = lnum
    rw [be32_to_u32]
    exact (to_u32_of_range _ h0 (by unfold INT_MAX at hln; omega)).2
  · show to_int (be32_to_cpu (cpu_to_be32 (to_u32 vi.data_pad))) = vi.data_pad
    rw [be32_to_u32]
    exact to_int_to_u32 _ hdp.1 hdp.2
  · intro h0
    show (be32_to_cpu (cpu_to_be32 (to_u32 vi.data_pad)) : Int) = vi.data_pad
    rw [be32_to_u32]
    exact (to_u32_of_range _ h0 (by unfold INT_MAX at hdp; omega)).2
  · intro hm
    show ((if vi.mode = UBI_VID_MODE_MLC_SAFE then to_u8 lpos else 0 : Nat) : Int) = lpos % 256
    rw [if_pos hm]
    exact to_u8_cast _
  · intro hm hlp
    show ((if vi.mode = UBI_VID_MODE_MLC_SAFE then to_u8 lpos else 0 : Nat) : Int) = lpos
    rw [if_pos hm]
    exact to_u8_of_range _ hlp.1 hlp.2
  · intro hm
    show (if vi.mode = UBI_VID_MODE_MLC_SAFE then to_u8 lpos else 0 : Nat) = 0
    rw [if_neg hm]

/-- C12 on `geometry_128k`: for the MLC-safe volume `volume_mlc_safe`, block 3 and
replica position 1 the header stores position 1; for the plain-mode volume
`volume_100k` and the same arguments the position field is 0.  Both store the dynamic
type, their mode, their identifier and block 3. -/
theorem init_vid_hdr_spec_witness :
    (∃ h, ubigen_init_vid_hdr geometry_128k volume_mlc_safe zero_vid_hdr 3 1 [] 0 = .ok h ∧
      (h.vol_type : Int) = UBI_VID_DYNAMIC ∧ (h.vol_mode : Int) = UBI_VID_MODE_MLC_SAFE ∧
      (be32_to_cpu h.vol_id : Int) = 1 ∧ (be32_to_cpu h.lnum : Int) = 3 ∧
      (h.lpos : Int) = 1) ∧
    (∃ h, ubigen_init_vid_hdr geometry_128k volume_100k zero_vid_hdr 3 1 [] 0 = .ok h ∧
      (h.vol_type : Int) = UBI_VID_DYNAMIC ∧ (h.vol_mode : Int) = UBI_VID_MODE_NORMAL ∧
      (be32_to_cpu h.vol_id : Int) = 0 ∧ (be32_to_cpu h.lnum : Int) = 3 ∧ h.lpos = 0) :=
  ⟨match init_vid_hdr_spec geometry_128k volume_mlc_safe zero_vid_hdr 3 1 [] 0
      (fun h => absurd h (by decide)) (by decide) (by decide) (by decide) with
    | ⟨h, he, _, _, _, _, _, h6, h7, _, _, h10, _, h12, _, _, _, h16, _, _⟩ =>
      ⟨h, he, h6 (by decide), h7 (by decide), h10 (by decide), h12 (by decide),
        h16 (by decide) (by decide)⟩,
   match init_vid_hdr_spec geometry_128k volume_100k zero_vid_hdr 3 1 [] 0
      (fun h => absurd h (by decide)) (by decide) (by decide) (by decide) with
    | ⟨h, he, _, _, _, _, _, h6, h7, _, _, h10, _, h12, _, _, _, _, h17, _⟩ =>
      ⟨h, he, h6 (by decide), h7 (by decide), h10 (by decide), h12 (by decide),
        h17 (by decide)⟩⟩

/-- C13: for every call of `ubigen_init_vid_hdr` that can read its payload (the
length and `used_ebs` being `int`s): when the volume type is static the header's
`data_size` is the given payload length, `used_ebs` is `vi.used_ebs` and `data_crc`
is the CRC-32 of exactly the first `data_size` bytes of the given payload; when the
type is not static, so in particular when it is dynamic, `data_size`, `used_ebs` and
`data_crc` are all zero whatever payload and length are passed. -/
theorem init_vid_hdr_payload_fields (ui : ubigen_info) (vi : ubigen_vol_info)
    (prev : ubi_vid_hdr) (lnum lpos : Int) (data : List Nat) (data_size : Int)
    (hd : vi.type = UBI_VID_STATIC → 0 ≤ data_size ∧ data_size ≤ data.length)
    (hsz : INT_MIN ≤ data_size ∧ data_size ≤ INT_MAX)
    (hue : INT_MIN ≤ vi.used_ebs ∧ vi.used_ebs ≤ INT_MAX) :
    ∃ h, ubigen_init_vid_hdr ui vi prev lnum lpos data data_size = .ok h ∧
      (vi.type = UBI_VID_STATIC →
        (be32_to_cpu h.data_size : Int) = data_size ∧
        to_int (be32_to_cpu h.used_ebs) = vi.used_ebs ∧
        (0 ≤ vi.used_ebs → (be32_to_cpu h.used_ebs : Int) = vi.used_ebs) ∧
        be32_to_cpu h.data_crc = mtd_crc32 UBI_CRC32_INIT (data.take data_size.toNat)) ∧
      (vi.type ≠ UBI_VID_STATIC →
        h.data_size = [0, 0, 0, 0] ∧ h.used_ebs = [0, 0, 0, 0] ∧ h.data_crc = [0, 0, 0, 0] ∧
        be32_to_cpu h.data_size = 0 ∧ be32_to_cpu h.used_ebs = 0 ∧
        be32_to_cpu h.data_crc = 0) ∧
      UBI_VID_DYNAMIC ≠ UBI_VID_STATIC := by
  refine ⟨_, init_vid_hdr_eq ui vi prev lnum lpos data data_size hd, ?_, ?_, by decide⟩
  · intro hs
    have e1 : (vid_hdr_set_crc (vid_hdr_fields ui vi lnum lpos data data_size)).data_size
        = cpu_to_be32 (to_u32 data_size) := by
      show (if vi.type = UBI_VID_STATIC then cpu_to_be32 (to_u32 data_size) else [0, 0, 0, 0])
        = _
      rw [if_pos hs]
    have e2 : (vid_hdr_set_crc (vid_hdr_fields ui vi lnum lpos data data_size)).used_ebs
        = cpu_to_be32 (to_u32 vi.used_ebs) := by
      show (if vi.type = UBI_VID_STATIC then cpu_to_be32 (to_u32 vi.used_ebs)
        else [0, 0, 0, 0]) = _
      rw [if_pos hs]
    have e3 : (vid_hdr_set_crc (vid_hdr_fields ui vi lnum lpos data data_size)).data_crc
        = cpu_to_be32 (mtd_crc32 UBI_CRC32_INIT (data.take data_size.toNat)) := by
      show (if vi.type = UBI_VID_STATIC
        then cpu_to_be32 (mtd_crc32 UBI_CRC32_INIT (data.take data_size.toNat))
        else [0, 0, 0, 0]) = _
      rw [if_pos hs]
    rw [e1, e2, e3, be32_to_u32, be32_to_u32, be32_crc]
    refine ⟨?_, to_int_to_u32 _ hue.1 hue.2, fun h0 => ?_, rfl⟩
    · exact (to_u32_of_range _ (hd hs).1 (by unfold INT_MAX at hsz; omega)).2
    · exact (to_u32_of_range _ h0 (by unfold INT_MAX at hue; omega)).2
  · intro hs
    have e1 : (vid_hdr_set_crc (vid_hdr_fields ui vi lnum lpos data data_size)).data_size
        = [0, 0, 0, 0] := by
      show (if vi.type = UBI_VID_STATIC then cpu_to_be32 (to_u32 data_size) else [0, 0, 0, 0])
        = _
      rw [if_neg hs]
    have e2 : (vid_hdr_set_crc (vid_hdr_fields ui vi lnum lpos data data_size)).used_ebs
        = [0, 0, 0, 0] := by
      show (if vi.type = UBI_VID_STATIC then cpu_to_be32 (to_u32 vi.used_ebs)
        else [0, 0, 0, 0]) = _
      rw [if_neg hs]
    have e3 : (vid_hdr_set_crc (vid_hdr_fields ui vi lnum lpos data data_size)).data_crc
        = [0, 0, 0, 0] := by
      show (if vi.type = UBI_VID_STATIC
        then cpu_to_be32 (mtd_crc32 UBI_CRC32_INIT (data.take data_size.toNat))
        else [0, 0, 0, 0]) = _
      rw [if_neg hs]
    rw [e1, e2, e3]
    exact ⟨rfl, rfl, rfl, rfl, rfl, rfl⟩

/-- C13 on `geometry_128k`: for the static volume `volume_static`, the payload bytes
1, 2, 3, 4, 5 and length 4 the header stores length 4, three used blocks and the
CRC-32 of the bytes 1, 2, 3, 4; for the dynamic volume `volume_100k` and the same
payload the three fields are zero. -/
theorem init_vid_hdr_payload_fields_witness :
    (∃ h, ubigen_init_vid_hdr geometry_128k volume_static zero_vid_hdr 0 0 [1, 2, 3, 4, 5] 4
        = .ok h ∧
      (be32_to_cpu h.data_size : Int) = 4 ∧ (be32_to_cpu h.used_ebs : Int) = 3 ∧
      be32_to_cpu h.data_crc = mtd_crc32 UBI_CRC32_INIT [1, 2, 3, 4]) ∧
    (∃ h, ubigen_init_vid_hdr geometry_128k volume_100k zero_vid_hdr 0 0 [1, 2, 3, 4, 5] 4
        = .ok h ∧
      be32_to_cpu h.data_size = 0 ∧ be32_to_cpu h.used_ebs = 0 ∧ be32_to_cpu h.data_crc = 0) :=
  ⟨match init_vid_hdr_payload_fields geometry_128k volume_static zero_vid_hdr 0 0
      [1, 2, 3, 4, 5] 4 (fun _ => by decide) (by decide) (by decide) with
    | ⟨h, he, hs, _, _⟩ =>
      ⟨h, he, (hs (by decide)).1, (hs (by decide)).2.2.1 (by decide), (hs (by decide)).2.2.2⟩,
   match init_vid_hdr_payload_fields geometry_128k volume_100k zero_vid_hdr 0 0
      [1, 2, 3, 4, 5] 4 (fun h => absurd h (by decide)) (by decide) (by decide) with
    | ⟨h, he, _, hn, _⟩ =>
      ⟨h, he, (hn (by decide)).2.2.2.1, (hn (by decide)).2.2.2.2.1,
        (hn (by decide)).2.2.2.2.2⟩⟩

/-! ## Block buffers and layout steps -/

theorem buf_write_eq_ok (buf : List Nat) (off : Int) (bs out : List Nat) :
    buf_write buf off bs = .ok out ↔
      0 ≤ off ∧ off + bs.length ≤ buf.length ∧
      out = buf.take off.toNat ++ bs ++ buf.drop (off.toNat + bs.length) := by
  unfold buf_write
  by_cases h : off < 0 ∨ (buf.length : Int) < off + bs.length
  · rw [if_pos h]
    constructor
    · intro h1
      cases h1
    · rintro ⟨h1, h2, _⟩
      omega
  · rw [if_neg h]
    constructor
    · intro h1
      cases h1
      exact ⟨by omega, by omega, rfl⟩
    · rintro ⟨_, _, h3⟩
      rw [h3]

theorem buf_write_length (buf : List Nat) (off : Int) (bs out : List Nat)
    (h : buf_write buf off bs = .ok out) : out.length = buf.length := by
  obtain ⟨h0, h1, rfl⟩ := (buf_write_eq_ok _ _ _ _).1 h
  simp only [List.length_append, List.length_take, List.length_drop]
  omega

theorem buf_write_get (buf : List Nat) (off : Int) (bs out : List Nat)
    (h : buf_write buf off bs = .ok out) (i : Nat) :
    out[i]? = if off.toNat ≤ i ∧ i < off.toNat + bs.length then bs[i - off.toNat]?
      else buf[i]? := by
  obtain ⟨h0, h1, rfl⟩ := (buf_write_eq_ok _ _ _ _).1 h
  have hl : (buf.take off.toNat).length = off.toNat := by
    rw [List.length_take]
    omega
  by_cases hi : i < off.toNat
  · rw [if_neg (by omega), List.append_assoc, List.getElem?_append_left (by omega),
      List.getElem?_take_of_lt hi]
  · by_cases hj : i < off.toNat + bs.length
    · rw [if_pos ⟨by omega, hj⟩, List.append_assoc, List.getElem?_append_right (by omega), hl,
        List.getElem?_append_left (by omega)]
    · rw [if_neg (by omega), List.getElem?_append_right (by simp only [List.length_append]; omega),
        List.getElem?_drop]
      congr 1
      simp only [List.length_append, hl]
      omega

theorem buf_memset_eq_ok (buf : List Nat) (off : Int) (c : Nat) (n : Int) (out : List Nat) :
    buf_memset buf off c n = .ok out ↔
      0 ≤ n ∧ buf_write buf off (List.replicate n.toNat c) = .ok out := by
  unfold buf_memset
  by_cases h : n < 0
  · rw [if_pos h]
    constructor
    · intro h1
      cases h1
    · rintro ⟨h1, _⟩
      omega
  · rw [if_neg h]
    exact ⟨fun h1 => ⟨by omega, h1⟩, fun h1 => h1.2⟩

theorem buf_memset_get (buf : List Nat) (off : Int) (c : Nat) (n : Int) (out : List Nat)
    (h : buf_memset buf off c n = .ok out) (i : Nat) :
    out[i]? = if off.toNat ≤ i ∧ i < off.toNat + n.toNat then some c else buf[i]? := by
  obtain ⟨_, hw⟩ := (buf_memset_eq_ok _ _ _ _ _).1 h
  rw [buf_write_get _ _ _ _ hw i, List.length_replicate]
  by_cases hi : off.toNat ≤ i ∧ i < off.toNat + n.toNat
  · rw [if_pos hi, if_pos hi, List.getElem?_replicate, if_pos (by omega)]
  · rw [if_neg hi, if_neg hi]

theorem buf_memset_bounds (buf : List Nat) (off : Int) (c : Nat) (n : Int) (out : List Nat)
    (h : buf_memset buf off c n = .ok out) :
    0 ≤ off ∧ 0 ≤ n ∧ off + n ≤ buf.length ∧ out.length = buf.length := by
  obtain ⟨hn, hw⟩ := (buf_memset_eq_ok _ _ _ _ _).1 h
  have hl := buf_write_length _ _ _ _ hw
  obtain ⟨h0, h1, _⟩ := (buf_write_eq_ok _ _ _ _).1 hw
  rw [List.length_replicate] at h1
  exact ⟨h0, hn, by omega, hl⟩

theorem buf_memcpy_eq_ok (buf : List Nat) (off : Int) (src : List Nat) (n : Int)
    (out : List Nat) :
    buf_memcpy buf off src n = .ok out ↔
      0 ≤ n ∧ n ≤ src.length ∧ buf_write buf off (src.take n.toNat) = .ok out := by
  unfold buf_memcpy
  by_cases h : n < 0 ∨ (src.length : Int) < n
  · rw [if_pos h]
    constructor
    · intro h1
      cases h1
    · rintro ⟨h1, h2, _⟩
      omega
  · rw [if_neg h]
    exact ⟨fun h1 => ⟨by omega, by omega, h1⟩, fun h1 => h1.2.2⟩

theorem buf_memcpy_bounds (buf : List Nat) (off : Int) (src : List Nat) (n : Int)
    (out : List Nat) (h : buf_memcpy buf off src n = .ok out) :
    0 ≤ off ∧ 0 ≤ n ∧ n ≤ src.length ∧ off + n ≤ buf.length ∧ out.length = buf.length := by
  obtain ⟨hn, hs, hw⟩ := (buf_memcpy_eq_ok _ _ _ _ _).1 h
  have hl := buf_write_length _ _ _ _ hw
  obtain ⟨h0, h1, _⟩ := (buf_write_eq_ok _ _ _ _).1 hw
  rw [List.length_take] at h1
  exact ⟨h0, hn, hs, by omega, hl⟩

theorem buf_memcpy_get (buf : List Nat) (off : Int) (src : List Nat) (n : Int) (out : List Nat)
    (h : buf_memcpy buf off src n = .ok out) (i : Nat) :
    out[i]? = if off.toNat ≤ i ∧ i < off.toNat + n.toNat then src[i - off.toNat]?
      else buf[i]? := by
  obtain ⟨hn, hs, hw⟩ := (buf_memcpy_eq_ok _ _ _ _ _).1 h
  have hl : (src.take n.toNat).length = n.toNat := by
    rw [List.length_take]
    omega
  rw [buf_write_get _ _ _ _ hw i, hl]
  by_cases hi : off.toNat ≤ i ∧ i < off.toNat + n.toNat
  · rw [if_pos hi, if_pos hi, List.getElem?_take_of_lt (by omega)]
  · rw [if_neg hi, if_neg hi]

theorem buf_slice_get (buf : List Nat) (off : Int) (n i : Nat) :
    (buf_slice buf off n)[i]? = if i < n then buf[off.toNat + i]? else none := by
  unfold buf_slice
  by_cases hi : i < n
  · rw [if_pos hi, List.getElem?_take_of_lt hi, List.getElem?_drop]
  · rw [if_neg hi, List.getElem?_take_eq_none (by omega)]

theorem buf_slice_length (buf : List Nat) (off : Int) (n : Nat)
    (h : off.toNat + n ≤ buf.length) : (buf_slice buf off n).length = n := by
  unfold buf_slice
  rw [List.length_take, List.length_drop]
  omega

theorem buf_slice_congr (a b : List Nat) (off : Int) (n : Nat)
    (h : ∀ i, off.toNat ≤ i → i < off.toNat + n → a[i]? = b[i]?) :
    buf_slice a off n = buf_slice b off n := by
  apply List.ext_getElem?
  intro i
  rw [buf_slice_get, buf_slice_get]
  by_cases hi : i < n
  · rw [if_pos hi, if_pos hi]
    exact h _ (by omega) (by omega)
  · rw [if_neg hi, if_neg hi]

theorem buf_slice_of_get (buf : List Nat) (off : Int) (bs : List Nat)
    (h : ∀ i, i < bs.length → buf[off.toNat + i]? = bs[i]?) :
    buf_slice buf off bs.length = bs := by
  apply List.ext_getElem?
  intro i
  rw [buf_slice_get]
  by_cases hi : i < bs.length
  · rw [if_pos hi]
    exact h i hi
  · rw [if_neg hi, List.getElem?_eq_none (by omega)]

theorem buf_write_below (buf : List Nat) (off : Int) (bs out : List Nat)
    (h : buf_write buf off bs = .ok out) (i : Nat) (hi : (i : Int) < off) :
    out[i]? = buf[i]? := by
  rw [buf_write_get _ _ _ _ h i, if_neg (by omega)]

theorem buf_write_above (buf : List Nat) (off : Int) (bs out : List Nat)
    (h : buf_write buf off bs = .ok out) (i : Nat) (hi : off + bs.length ≤ (i : Int)) :
    out[i]? = buf[i]? := by
  have h0 := ((buf_write_eq_ok _ _ _ _).1 h).1
  rw [buf_write_get _ _ _ _ h i, if_neg (by omega)]

theorem buf_write_at (buf : List Nat) (off : Int) (bs out : List Nat)
    (h : buf_write buf off bs = .ok out) (j : Nat) (hj : j < bs.length) :
    out[off.toNat + j]? = bs[j]? := by
  rw [buf_write_get _ _ _ _ h, if_pos (by omega)]
  congr 1
  omega

theorem buf_write_slice (buf : List Nat) (off : Int) (bs out : List Nat)
    (h : buf_write buf off bs = .ok out) : buf_slice out off bs.length = bs :=
  buf_slice_of_get _ _ _ (fun j hj => buf_write_at _ _ _ _ h j hj)

theorem buf_init_vid_hdr_eq_ok (ui : ubigen_info) (vi : ubigen_vol_info) (buf : List Nat)
    (off lnum lpos : Int) (data : List Nat) (data_size : Int) (out : List Nat) :
    buf_init_vid_hdr ui vi buf off lnum lpos data data_size = .ok out ↔
      (vi.type = UBI_VID_STATIC → 0 ≤ data_size ∧ data_size ≤ data.length) ∧
      buf_write buf off (vid_hdr_set_crc (vid_hdr_fields ui vi lnum lpos data data_size)).to_bytes
        = .ok out := by
  unfold buf_init_vid_hdr
  rw [except_bind_eq_ok]
  constructor
  · rintro ⟨h, h1, h2⟩
    obtain ⟨hd, rfl⟩ := (init_vid_hdr_ok_iff ..).1 h1
    exact ⟨hd, h2⟩
  · rintro ⟨hd, h2⟩
    exact ⟨_, init_vid_hdr_eq _ _ _ _ _ _ _ hd, h2⟩

theorem buf_init_dummy_vid_hdr_eq (ui : ubigen_info) (vi : ubigen_vol_info) (buf : List Nat)
    (off : Int) :
    buf_init_dummy_vid_hdr ui vi buf off
      = buf_write buf off (vid_hdr_set_crc (dummy_vid_hdr_fields ui vi)).to_bytes := rfl

theorem vid_hdr_bytes_length (ui : ubigen_info) (vi : ubigen_vol_info) (lnum lpos : Int)
    (data : List Nat) (data_size : Int) :
    (vid_hdr_set_crc (vid_hdr_fields ui vi lnum lpos data data_size)).to_bytes.length = 64 :=
  vid_set_crc_to_bytes_length _ (vid_hdr_fields_head_length ..)

theorem dummy_vid_hdr_bytes_length (ui : ubigen_info) (vi : ubigen_vol_info) :
    (vid_hdr_set_crc (dummy_vid_hdr_fields ui vi)).to_bytes.length = 64 :=
  vid_set_crc_to_bytes_length _ (dummy_vid_hdr_fields_head_length ..)

theorem except_pure_eq_ok {ε α : Type} (a b : α) :
    (pure a : Except ε α) = .ok b ↔ a = b := by
  constructor
  · intro h
    exact Except.ok.inj h
  · intro h
    rw [h]
    rfl

/-- The steps of `ubigen_layout_vid_and_data` for a volume whose mode is not MLC-safe
and that does not take the pair-by-pair copy. -/
theorem layout_plain_eq_ok (ui : ubigen_info) (vi : ubigen_vol_info) (lnum : Int)
    (inbuf outbuf : List Nat) (len : Int) (out : List Nat)
    (hm : vi.mode ≠ UBI_VID_MODE_MLC_SAFE)
    (hs : ¬ (vi.mode = UBI_VID_MODE_SLC ∧ ui.max_lebs_per_peb > 1)) :
    ubigen_layout_vid_and_data ui vi lnum inbuf outbuf len = .ok out ↔
      ∃ b1 b2 b3,
        buf_memset outbuf ui.vid_hdr_offs 0 (ui.data_offs - ui.vid_hdr_offs) = .ok b1 ∧
        buf_init_vid_hdr ui vi b1 ui.vid_hdr_offs lnum 0 inbuf len = .ok b2 ∧
        buf_memset b2 ui.data_offs 255 (ui.peb_size - ui.data_offs) = .ok b3 ∧
        buf_memcpy b3 ui.data_offs inbuf len = .ok out := by
  unfold ubigen_layout_vid_and_data
  simp only [if_neg hm, if_neg hs, if_pos hm, except_bind_eq_ok, except_pure_eq_ok]
  constructor
  · rintro ⟨b1, h1, b2, h2, b3, h3, c, ⟨b4, h4, rfl⟩, rfl⟩
    exact ⟨b1, b2, b3, h1, h2, h3, h4⟩
  · rintro ⟨b1, b2, b3, h1, h2, h3, h4⟩
    exact ⟨b1, h1, b2, h2, b3, h3, _, ⟨out, h4, rfl⟩, rfl⟩

/-- The steps of `ubigen_layout_vid_and_data` for an SLC-emulated volume that takes
the pair-by-pair copy. -/
theorem layout_slc_eq_ok (ui : ubigen_info) (vi : ubigen_vol_info) (lnum : Int)
    (inbuf outbuf : List Nat) (len : Int) (out : List Nat)
    (hs : vi.mode = UBI_VID_MODE_SLC ∧ ui.max_lebs_per_peb > 1) :
    ubigen_layout_vid_and_data ui vi lnum inbuf outbuf len = .ok out ↔
      ∃ b1 b2 b3 res,
        buf_memset outbuf ui.vid_hdr_offs 0 (ui.data_offs - ui.vid_hdr_offs) = .ok b1 ∧
        buf_init_vid_hdr ui vi b1 ui.vid_hdr_offs lnum 0 inbuf len = .ok b2 ∧
        buf_memset b2 ui.data_offs 255 (ui.peb_size - ui.data_offs) = .ok b3 ∧
        ui.min_io_size ≠ 0 ∧ mtd_pairing_groups ui.mtd ≠ 0 ∧
        slc_copy_loop ui ((ui.peb_size.tdiv ui.min_io_size).tdiv (mtd_pairing_groups ui.mtd))
          ((ui.peb_size.tdiv ui.min_io_size).tdiv (mtd_pairing_groups ui.mtd)
            - (ui.data_offs + ui.min_io_size - 1).tdiv ui.min_io_size).toNat
          ((ui.data_offs + ui.min_io_size - 1).tdiv ui.min_io_size) b3 inbuf len = .ok res ∧
        out = res.1 := by
  have hm : vi.mode ≠ UBI_VID_MODE_MLC_SAFE := by
    rw [hs.1]
    decide
  unfold ubigen_layout_vid_and_data
  simp only [if_neg hm, if_pos hs, if_pos hm, except_bind_eq_ok, except_pure_eq_ok,
    c_div_eq_ok]
  constructor
  · rintro ⟨b1, h1, b2, h2, b3, h3, c, ⟨_, ⟨hz, rfl⟩, _, ⟨hg, rfl⟩, _, ⟨_, rfl⟩, h4⟩, rfl⟩
    exact ⟨b1, b2, b3, c, h1, h2, h3, hz, hg, h4, rfl⟩
  · rintro ⟨b1, b2, b3, res, h1, h2, h3, hz, hg, h4, rfl⟩
    exact ⟨b1, h1, b2, h2, b3, h3, res, ⟨_, ⟨hz, rfl⟩, _, ⟨hg, rfl⟩, _, ⟨hz, rfl⟩, h4⟩, rfl⟩

/-- The steps of `ubigen_layout_vid_and_data` for an MLC-safe volume. -/
theorem layout_mlc_eq_ok (ui : ubigen_info) (vi : ubigen_vol_info) (lnum : Int)
    (inbuf outbuf : List Nat) (len : Int) (out : List Nat)
    (hm : vi.mode = UBI_VID_MODE_MLC_SAFE) :
    ubigen_layout_vid_and_data ui vi lnum inbuf outbuf len = .ok out ↔
      ∃ b1 b2 b3 b4 b5 b6,
        buf_memset outbuf ui.vid_hdr_offs 0 (ui.data_offs - ui.vid_hdr_offs) = .ok b1 ∧
        buf_write b1 ui.vid_hdr_offs (vid_hdr_set_crc (dummy_vid_hdr_fields ui vi)).to_bytes
          = .ok b2 ∧
        buf_memset b2 ui.data_offs 255 (ui.peb_size - ui.data_offs) = .ok b3 ∧
        buf_memcpy b3 ui.data_offs inbuf len = .ok b4 ∧
        buf_memset b4 (ui.data_offs + ui.slc_leb_size * ui.max_lebs_per_peb) 0
          (ui.peb_size - (ui.data_offs + ui.slc_leb_size * ui.max_lebs_per_peb)) = .ok b5 ∧
        ui.slc_leb_size ≠ 0 ∧
        mlc_real_hdr_loop ui vi (ui.peb_size - ui.min_io_size) lnum inbuf len
          ((len + ui.slc_leb_size - 1).tdiv ui.slc_leb_size).toNat 0 b5 = .ok b6 ∧
        mlc_invalid_hdr_loop ui vi (ui.peb_size - ui.min_io_size) inbuf len
          (ui.max_lebs_per_peb -
            (if (len + ui.slc_leb_size - 1).tdiv ui.slc_leb_size > 0
              then (len + ui.slc_leb_size - 1).tdiv ui.slc_leb_size else 0)).toNat b6
          = .ok out := by
  have hs : ¬ (vi.mode = UBI_VID_MODE_SLC ∧ ui.max_lebs_per_peb > 1) := by
    rw [hm]
    intro h
    exact absurd h.1 (by decide)
  have hm' : ¬ (vi.mode ≠ UBI_VID_MODE_MLC_SAFE) := fun h => h hm
  unfold ubigen_layout_vid_and_data
  simp only [if_pos hm, if_neg hs, if_neg hm', except_bind_eq_ok, c_div_eq_ok,
    except_pure_eq_ok, buf_init_dummy_vid_hdr_eq]
  constructor
  · rintro ⟨b1, h1, b2, h2, b3, h3, c, ⟨b4, h4, rfl⟩, b5, h5, _, ⟨hz, rfl⟩, b6, h6, h7⟩
    exact ⟨b1, b2, b3, b4, b5, b6, h1, h2, h3, h4, h5, hz, h6, h7⟩
  · rintro ⟨b1, b2, b3, b4, b5, b6, h1, h2, h3, h4, h5, hz, h6, h7⟩
    exact ⟨b1, h1, b2, h2, b3, h3, _, ⟨b4, h4, rfl⟩, b5, h5, _, ⟨hz, rfl⟩, b6, h6, h7⟩

theorem slc_copy_loop_succ (ui : ubigen_info) (npairs : Int) (n : Nat) (pair : Int)
    (out inb : List Nat) (len : Int) (res : List Nat × List Nat × Int) :
    slc_copy_loop ui npairs (n + 1) pair out inb len = .ok res ↔
      (pair < npairs ∧ len ≠ 0 ∧ ∃ out1,
        buf_memcpy out (mtd_pairing_info_to_wunit ui.mtd { pair := pair, group := 0 }
            * ui.min_io_size) inb (if ui.min_io_size > len then len else ui.min_io_size)
          = .ok out1 ∧
        slc_copy_loop ui npairs n (pair + 1) out1
          (inb.drop (if ui.min_io_size > len then len else ui.min_io_size).toNat)
          (len - (if ui.min_io_size > len then len else ui.min_io_size)) = .ok res) ∨
      (¬ (pair < npairs ∧ len ≠ 0) ∧ res = (out, inb, len)) := by
  rw [slc_copy_loop]
  by_cases hc : pair < npairs ∧ len ≠ 0
  · rw [if_pos hc]
    simp only
    constructor
    · intro h
      left
      refine ⟨hc.1, hc.2, ?_⟩
      split at h
      · cases h
      · rename_i out1 h1
        exact ⟨out1, h1, h⟩
    · rintro (⟨_, _, out1, h1, h2⟩ | ⟨hn, _⟩)
      · rw [h1]
        exact h2
      · exact absurd hc hn
  · rw [if_neg hc]
    constructor
    · intro h
      right
      exact ⟨hc, (Except.ok.inj h).symm⟩
    · rintro (⟨h1, h2, _⟩ | ⟨_, rfl⟩)
      · exact absurd ⟨h1, h2⟩ hc
      · rfl

/-- The pair-by-pair copy keeps the length of the block buffer and changes no byte
outside the write-units of the pairs it visits. -/
theorem slc_copy_loop_frame (ui : ubigen_info) (npairs : Int) : ∀ (n : Nat) (pair : Int)
    (out inb : List Nat) (len : Int) (res : List Nat × List Nat × Int),
    slc_copy_loop ui npairs n pair out inb len = .ok res →
    res.1.length = out.length ∧
    ∀ i : Nat, (∀ q : Int, pair ≤ q → q < pair + n → q < npairs →
        ¬ (mtd_pairing_info_to_wunit ui.mtd { pair := q, group := 0 } * ui.min_io_size ≤ i ∧
          (i : Int) < mtd_pairing_info_to_wunit ui.mtd { pair := q, group := 0 }
            * ui.min_io_size + ui.min_io_size)) →
      res.1[i]? = out[i]? := by
  intro n
  induction n with
  | zero =>
    intro pair out inb len res h
    rw [slc_copy_loop] at h
    cases h
    exact ⟨rfl, fun i _ => rfl⟩
  | succ n ih =>
    intro pair out inb len res h
    rcases (slc_copy_loop_succ ..).1 h with ⟨hp, hl, out1, h1, h2⟩ | ⟨_, rfl⟩
    · obtain ⟨e1, f1⟩ := ih _ _ _ _ _ h2
      obtain ⟨b0, bn, bs, bl, blen⟩ := buf_memcpy_bounds _ _ _ _ _ h1
      refine ⟨by rw [e1, blen], fun i hi => ?_⟩
      rw [f1 i (fun q hq1 hq2 hq3 => hi q (by omega) (by push_cast; omega) hq3),
        buf_memcpy_get _ _ _ _ _ h1 i]
      have := hi pair (le_refl _) (by push_cast; omega) hp
      rw [if_neg]
      intro hh
      apply this
      constructor
      · omega
      · have hw : (if ui.min_io_size > len then len else ui.min_io_size) ≤ ui.min_io_size := by
          split <;> omega
        omega
    · exact ⟨rfl, fun i _ => rfl⟩

theorem mlc_real_hdr_loop_frame (ui : ubigen_info) (vi : ubigen_vol_info) (vid_hdr lnum : Int)
    (inbuf : List Nat) (len : Int) : ∀ (n : Nat) (i : Int) (out res : List Nat),
    mlc_real_hdr_loop ui vi vid_hdr lnum inbuf len n i out = .ok res →
    res.length = out.length ∧
    ∀ k : Nat, ((k : Int) < vid_hdr ∨ vid_hdr + 64 ≤ k) → res[k]? = out[k]? := by
  intro n
  induction n with
  | zero =>
    intro i out res h
    rw [mlc_real_hdr_loop] at h
    cases h
    exact ⟨rfl, fun k _ => rfl⟩
  | succ n ih =>
    intro i out res h
    rw [mlc_real_hdr_loop] at h
    split at h
    · cases h
    · rename_i out1 h1
      obtain ⟨e1, f1⟩ := ih _ _ _ h
      obtain ⟨_, hw⟩ := (buf_init_vid_hdr_eq_ok ..).1 h1
      refine ⟨by rw [e1, buf_write_length _ _ _ _ hw], fun k hk => ?_⟩
      rw [f1 k hk]
      rcases hk with hk | hk
      · exact buf_write_below _ _ _ _ hw k hk
      · exact buf_write_above _ _ _ _ hw k (by rw [vid_hdr_bytes_length]; exact hk)

theorem mlc_invalid_hdr_loop_frame (ui : ubigen_info) (vi : ubigen_vol_info) (vid_hdr : Int)
    (inbuf : List Nat) (len : Int) : ∀ (n : Nat) (out res : List Nat),
    mlc_invalid_hdr_loop ui vi vid_hdr inbuf len n out = .ok res →
    res.length = out.length ∧
    ∀ k : Nat, ((k : Int) < vid_hdr ∨ vid_hdr + 64 ≤ k) → res[k]? = out[k]? := by
  intro n
  induction n with
  | zero =>
    intro out res h
    rw [mlc_invalid_hdr_loop] at h
    cases h
    exact ⟨rfl, fun k _ => rfl⟩
  | succ n ih =>
    intro out res h
    rw [mlc_invalid_hdr_loop] at h
    split at h
    · cases h
    · rename_i out1 h1
      obtain ⟨e1, f1⟩ := ih _ _ h
      obtain ⟨_, hw⟩ := (buf_init_vid_hdr_eq_ok ..).1 h1
      refine ⟨by rw [e1, buf_write_length _ _ _ _ hw], fun k hk => ?_⟩
      rw [f1 k hk]
      rcases hk with hk | hk
      · exact buf_write_below _ _ _ _ hw k hk
      · exact buf_write_above _ _ _ _ hw k (by rw [vid_hdr_bytes_length]; exact hk)

theorem layout_gap_hdr_length (ui : ubigen_info) (vi : ubigen_vol_info) (lnum : Int)
    (inbuf : List Nat) (len : Int) : (layout_gap_hdr ui vi lnum inbuf len).to_bytes.length = 64 := by
  unfold layout_gap_hdr
  split
  · exact dummy_vid_hdr_bytes_length ui vi
  · exact vid_hdr_bytes_length ..

/-- What `ubigen_layout_vid_and_data` leaves below an offset `B` that no later step
reaches: the block buffer after the gap was zeroed and the identifier header
stored. -/
theorem layout_below (ui : ubigen_info) (vi : ubigen_vol_info) (lnum : Int)
    (inbuf outbuf : List Nat) (len : Int) (out : List Nat)
    (h : ubigen_layout_vid_and_data ui vi lnum inbuf outbuf len = .ok out)
    (B : Int) (hB : B ≤ ui.data_offs)
    (hslc : vi.mode = UBI_VID_MODE_SLC → ui.max_lebs_per_peb > 1 →
      ∀ q : Int, slc_first_pair ui ≤ q → q < slc_npairs ui →
        B ≤ mtd_pairing_info_to_wunit ui.mtd { pair := q, group := 0 } * ui.min_io_size)
    (hmlc : vi.mode = UBI_VID_MODE_MLC_SAFE →
      B ≤ ui.data_offs + ui.slc_leb_size * ui.max_lebs_per_peb ∧
      B ≤ ui.peb_size - ui.min_io_size) :
    out.length = outbuf.length ∧
    ∃ b1 b2, buf_memset outbuf ui.vid_hdr_offs 0 (ui.data_offs - ui.vid_hdr_offs) = .ok b1 ∧
      buf_write b1 ui.vid_hdr_offs (layout_gap_hdr ui vi lnum inbuf len).to_bytes = .ok b2 ∧
      ∀ i : Nat, (i : Int) < B → out[i]? = b2[i]? := by
  by_cases hm : vi.mode = UBI_VID_MODE_MLC_SAFE
  · obtain ⟨b1, b2, b3, b4, b5, b6, h1, h2, h3, h4, h5, _, h6, h7⟩ :=
      (layout_mlc_eq_ok ui vi lnum inbuf outbuf len out hm).1 h
    obtain ⟨e7, f7⟩ := mlc_invalid_hdr_loop_frame _ _ _ _ _ _ _ _ h7
    obtain ⟨e6, f6⟩ := mlc_real_hdr_loop_frame _ _ _ _ _ _ _ _ _ _ h6
    obtain ⟨_, _, _, e5⟩ := buf_memset_bounds _ _ _ _ _ h5
    obtain ⟨_, _, _, _, e4⟩ := buf_memcpy_bounds _ _ _ _ _ h4
    obtain ⟨_, _, _, e3⟩ := buf_memset_bounds _ _ _ _ _ h3
    have e2 := buf_write_length _ _ _ _ h2
    obtain ⟨_, _, _, e1⟩ := buf_memset_bounds _ _ _ _ _ h1
    refine ⟨by omega, b1, b2, h1, ?_, fun i hi => ?_⟩
    · unfold layout_gap_hdr
      rw [if_pos hm]
      exact h2
    · have hb := hmlc hm
      rw [f7 i (Or.inl (by omega)), f6 i (Or.inl (by omega)),
        buf_write_below _ _ _ _ ((buf_memset_eq_ok _ _ _ _ _).1 h5).2 i (by omega),
        buf_write_below _ _ _ _ ((buf_memcpy_eq_ok _ _ _ _ _).1 h4).2.2 i (by omega),
        buf_write_below _ _ _ _ ((buf_memset_eq_ok _ _ _ _ _).1 h3).2 i (by omega)]
  · by_cases hs : vi.mode = UBI_VID_MODE_SLC ∧ ui.max_lebs_per_peb > 1
    · obtain ⟨b1, b2, b3, res, h1, h2, h3, _, _, h4, rfl⟩ :=
        (layout_slc_eq_ok ui vi lnum inbuf outbuf len out hs).1 h
      obtain ⟨e4, f4⟩ := slc_copy_loop_frame _ _ _ _ _ _ _ _ h4
      obtain ⟨_, _, _, e3⟩ := buf_memset_bounds _ _ _ _ _ h3
      obtain ⟨_, hw2⟩ := (buf_init_vid_hdr_eq_ok ..).1 h2
      have e2 := buf_write_length _ _ _ _ hw2
      obtain ⟨_, _, _, e1⟩ := buf_memset_bounds _ _ _ _ _ h1
      refine ⟨by omega, b1, b2, h1, ?_, fun i hi => ?_⟩
      · unfold layout_gap_hdr
        rw [if_neg hm]
        exact hw2
      · rw [f4 i (fun q hq1 _ hq3 hh => by
            have := hslc hs.1 hs.2 q hq1 hq3
            omega),
          buf_write_below _ _ _ _ ((buf_memset_eq_ok _ _ _ _ _).1 h3).2 i (by omega)]
    · obtain ⟨b1, b2, b3, h1, h2, h3, h4⟩ :=
        (layout_plain_eq_ok ui vi lnum inbuf outbuf len out hm hs).1 h
      obtain ⟨_, _, _, _, e4⟩ := buf_memcpy_bounds _ _ _ _ _ h4
      obtain ⟨_, _, _, e3⟩ := buf_memset_bounds _ _ _ _ _ h3
      obtain ⟨_, hw2⟩ := (buf_init_vid_hdr_eq_ok ..).1 h2
      have e2 := buf_write_length _ _ _ _ hw2
      obtain ⟨_, _, _, e1⟩ := buf_memset_bounds _ _ _ _ _ h1
      refine ⟨by omega, b1, b2, h1, ?_, fun i hi => ?_⟩
      · unfold layout_gap_hdr
        rw [if_neg hm]
        exact hw2
      · rw [buf_write_below _ _ _ _ ((buf_memcpy_eq_ok _ _ _ _ _).1 h4).2.2 i (by omega),
          buf_write_below _ _ _ _ ((buf_memset_eq_ok _ _ _ _ _).1 h3).2 i (by omega)]

theorem buf_memset_below (buf : List Nat) (off : Int) (c : Nat) (n : Int) (out : List Nat)
    (h : buf_memset buf off c n = .ok out) (i : Nat) (hi : (i : Int) < off) :
    out[i]? = buf[i]? :=
  buf_write_below _ _ _ _ ((buf_memset_eq_ok _ _ _ _ _).1 h).2 i hi

theorem buf_memset_in (buf : List Nat) (off : Int) (c : Nat) (n : Int) (out : List Nat)
    (h : buf_memset buf off c n = .ok out) (i : Nat) (h0 : off ≤ i) (h1 : (i : Int) < off + n) :
    out[i]? = some c := by
  obtain ⟨hoff, hn, _, _⟩ := buf_memset_bounds _ _ _ _ _ h
  rw [buf_memset_get _ _ _ _ _ h i, if_pos (by omega)]

/-- After `ubigen_layout_vid_and_data` the bytes `[vid_hdr_offs, data_offs)` are the
64 bytes of the header stored at `vid_hdr_offs` followed by zeros, when no later
step reaches below `data_offs`. -/
theorem layout_gap_slice (ui : ubigen_info) (vi : ubigen_vol_info) (lnum : Int)
    (inbuf outbuf : List Nat) (len : Int) (out : List Nat)
    (h : ubigen_layout_vid_and_data ui vi lnum inbuf outbuf len = .ok out)
    (hgap : ui.vid_hdr_offs + UBI_VID_HDR_SIZE ≤ ui.data_offs)
    (hslc : vi.mode = UBI_VID_MODE_SLC → ui.max_lebs_per_peb > 1 →
      ∀ q : Int, slc_first_pair ui ≤ q → q < slc_npairs ui →
        ui.data_offs ≤ mtd_pairing_info_to_wunit ui.mtd { pair := q, group := 0 }
          * ui.min_io_size)
    (hmlc : vi.mode = UBI_VID_MODE_MLC_SAFE →
      ui.data_offs ≤ ui.data_offs + ui.slc_leb_size * ui.max_lebs_per_peb ∧
      ui.data_offs ≤ ui.peb_size - ui.min_io_size) :
    buf_slice out ui.vid_hdr_offs (ui.data_offs - ui.vid_hdr_offs).toNat
      = (layout_gap_hdr ui vi lnum inbuf len).to_bytes
        ++ List.replicate (ui.data_offs - ui.vid_hdr_offs - UBI_VID_HDR_SIZE).toNat 0 := by
  obtain ⟨_, b1, b2, h1, h2, hf⟩ :=
    layout_below ui vi lnum inbuf outbuf len out h ui.data_offs (le_refl _) hslc hmlc
  have hL := layout_gap_hdr_length ui vi lnum inbuf len
  obtain ⟨hv0, _, _, _⟩ := buf_memset_bounds _ _ _ _ _ h1
  have hsz : UBI_VID_HDR_SIZE = 64 := rfl
  rw [hsz] at hgap ⊢
  apply List.ext_getElem?
  intro i
  rw [buf_slice_get]
  by_cases hi : i < (ui.data_offs - ui.vid_hdr_offs).toNat
  · rw [if_pos hi, hf _ (by omega)]
    by_cases hj : i < 64
    · rw [List.getElem?_append_left (by omega), buf_write_at _ _ _ _ h2 i (by omega)]
    · rw [List.getElem?_append_right (by omega), hL, List.getElem?_replicate,
        if_pos (by omega), buf_write_above _ _ _ _ h2 _ (by omega),
        buf_memset_in _ _ _ _ _ h1 _ (by omega) (by omega)]
  · rw [if_neg hi, List.getElem?_eq_none]
    rw [List.length_append, hL, List.length_replicate]
    omega

theorem buf_write_ok (buf : List Nat) (off : Int) (bs : List Nat) (h0 : 0 ≤ off)
    (h1 : off + bs.length ≤ buf.length) :
    ∃ out, buf_write buf off bs = .ok out ∧ out.length = buf.length := by
  have h : buf_write buf off bs
      = .ok (buf.take off.toNat ++ bs ++ buf.drop (off.toNat + bs.length)) :=
    (buf_write_eq_ok _ _ _ _).2 ⟨h0, h1, rfl⟩
  exact ⟨_, h, buf_write_length _ _ _ _ h⟩

theorem buf_memset_ok (buf : List Nat) (off : Int) (c : Nat) (n : Int) (h0 : 0 ≤ off)
    (hn : 0 ≤ n) (h1 : off + n ≤ buf.length) :
    ∃ out, buf_memset buf off c n = .ok out ∧ out.length = buf.length := by
  obtain ⟨out, h, hl⟩ := buf_write_ok buf off (List.replicate n.toNat c) h0
    (by rw [List.length_replicate]; omega)
  exact ⟨out, (buf_memset_eq_ok _ _ _ _ _).2 ⟨hn, h⟩, hl⟩

theorem buf_memcpy_ok (buf : List Nat) (off : Int) (src : List Nat) (n : Int) (h0 : 0 ≤ off)
    (hn : 0 ≤ n) (hs : n ≤ src.length) (h1 : off + n ≤ buf.length) :
    ∃ out, buf_memcpy buf off src n = .ok out ∧ out.length = buf.length := by
  obtain ⟨out, h, hl⟩ := buf_write_ok buf off (src.take n.toNat) h0
    (by rw [List.length_take]; omega)
  exact ⟨out, (buf_memcpy_eq_ok _ _ _ _ _).2 ⟨hn, hs, h⟩, hl⟩

theorem buf_init_vid_hdr_ok (ui : ubigen_info) (vi : ubigen_vol_info) (buf : List Nat)
    (off lnum lpos : Int) (data : List Nat) (data_size : Int)
    (hd : vi.type = UBI_VID_STATIC → 0 ≤ data_size ∧ data_size ≤ data.length)
    (h0 : 0 ≤ off) (h1 : off + 64 ≤ buf.length) :
    ∃ out, buf_init_vid_hdr ui vi buf off lnum lpos data data_size = .ok out ∧
      out.length = buf.length := by
  obtain ⟨out, h, hl⟩ := buf_write_ok buf off
    (vid_hdr_set_crc (vid_hdr_fields ui vi lnum lpos data data_size)).to_bytes h0
    (by rw [vid_hdr_bytes_length]; exact h1)
  exact ⟨out, (buf_init_vid_hdr_eq_ok ..).2 ⟨hd, h⟩, hl⟩

/-- The pair-by-pair copy completes when the payload is readable and every
write-unit it visits lies inside the block buffer. -/
theorem slc_copy_loop_ok (ui : ubigen_info) (npairs : Int) (hmio : 0 < ui.min_io_size) :
    ∀ (n : Nat) (pair : Int) (out inb : List Nat) (len : Int),
    0 ≤ len → len ≤ inb.length →
    (∀ q : Int, pair ≤ q → q < pair + n → q < npairs →
      0 ≤ mtd_pairing_info_to_wunit ui.mtd { pair := q, group := 0 } * ui.min_io_size ∧
      mtd_pairing_info_to_wunit ui.mtd { pair := q, group := 0 } * ui.min_io_size
        + ui.min_io_size ≤ out.length) →
    ∃ res, slc_copy_loop ui npairs n pair out inb len = .ok res := by
  intro n
  induction n with
  | zero =>
    intro pair out inb len _ _ _
    exact ⟨_, by rw [slc_copy_loop]⟩
  | succ n ih =>
    intro pair out inb len h0 hl hq
    by_cases hc : pair < npairs ∧ len ≠ 0
    · have hb := hq pair (le_refl _) (by push_cast; omega) hc.1
      have hw0 : 0 ≤ (if ui.min_io_size > len then len else ui.min_io_size) := by
        split <;> omega
      have hw1 : (if ui.min_io_size > len then len else ui.min_io_size) ≤ len := by
        split <;> omega
      have hw2 : (if ui.min_io_size > len then len else ui.min_io_size) ≤ ui.min_io_size := by
        split <;> omega
      obtain ⟨out1, h1, e1⟩ := buf_memcpy_ok out
        (mtd_pairing_info_to_wunit ui.mtd { pair := pair, group := 0 } * ui.min_io_size) inb
        (if ui.min_io_size > len then len else ui.min_io_size) hb.1 hw0 (by omega) (by omega)
      obtain ⟨res, h2⟩ := ih (pair + 1) out1
        (inb.drop (if ui.min_io_size > len then len else ui.min_io_size).toNat)
        (len - (if ui.min_io_size > len then len else ui.min_io_size)) (by omega)
        (by rw [List.length_drop]; omega)
        (fun q hq1 hq2 hq3 => by
          rw [e1]
          exact hq q (by omega) (by push_cast; omega) hq3)
      exact ⟨res, (slc_copy_loop_succ ..).2 (Or.inl ⟨hc.1, hc.2, out1, h1, h2⟩)⟩
    · exact ⟨_, (slc_copy_loop_succ ..).2 (Or.inr ⟨hc, rfl⟩)⟩

theorem mlc_real_hdr_loop_ok (ui : ubigen_info) (vi : ubigen_vol_info) (vid_hdr lnum : Int)
    (inbuf : List Nat) (len : Int)
    (hd : vi.type = UBI_VID_STATIC → 0 ≤ len ∧ len ≤ inbuf.length) (h0 : 0 ≤ vid_hdr) :
    ∀ (n : Nat) (i : Int) (out : List Nat), vid_hdr + 64 ≤ out.length →
    ∃ res, mlc_real_hdr_loop ui vi vid_hdr lnum inbuf len n i out = .ok res := by
  intro n
  induction n with
  | zero =>
    intro i out _
    exact ⟨_, by rw [mlc_real_hdr_loop]⟩
  | succ n ih =>
    intro i out h1
    obtain ⟨out1, hw, e1⟩ := buf_init_vid_hdr_ok ui vi out vid_hdr lnum i inbuf len hd h0 h1
    obtain ⟨res, hr⟩ := ih (i + 1) out1 (by rw [e1]; exact h1)
    refine ⟨res, ?_⟩
    rw [mlc_real_hdr_loop, hw]
    exact hr

theorem mlc_invalid_hdr_loop_ok (ui : ubigen_info) (vi : ubigen_vol_info) (vid_hdr : Int)
    (inbuf : List Nat) (len : Int)
    (hd : vi.type = UBI_VID_STATIC → 0 ≤ len ∧ len ≤ inbuf.length) (h0 : 0 ≤ vid_hdr) :
    ∀ (n : Nat) (out : List Nat), vid_hdr + 64 ≤ out.length →
    ∃ res, mlc_invalid_hdr_loop ui vi vid_hdr inbuf len n out = .ok res := by
  intro n
  induction n with
  | zero =>
    intro out _
    exact ⟨_, by rw [mlc_invalid_hdr_loop]⟩
  | succ n ih =>
    intro out h1
    obtain ⟨out1, hw, e1⟩ := buf_init_vid_hdr_ok ui vi out vid_hdr 0 UBI_VID_LPOS_INVALID
      inbuf len hd h0 h1
    obtain ⟨res, hr⟩ := ih out1 (by rw [e1]; exact h1)
    refine ⟨res, ?_⟩
    rw [mlc_invalid_hdr_loop, hw]
    exact hr

/-- The block layout completes, in every mode, when the regions it writes lie inside
the block buffer and the payload is readable. -/
theorem layout_ok (ui : ubigen_info) (vi : ubigen_vol_info) (lnum : Int)
    (inbuf outbuf : List Nat) (len : Int)
    (hv0 : 0 ≤ ui.vid_hdr_offs) (hgap : ui.vid_hdr_offs + UBI_VID_HDR_SIZE ≤ ui.data_offs)
    (hdo : ui.data_offs ≤ ui.peb_size) (hpeb : ui.peb_size ≤ outbuf.length)
    (hl0 : 0 ≤ len) (hl1 : len ≤ inbuf.length)
    (hfit : ¬ (vi.mode = UBI_VID_MODE_SLC ∧ ui.max_lebs_per_peb > 1) →
      ui.data_offs + len ≤ ui.peb_size)
    (hslc : vi.mode = UBI_VID_MODE_SLC → ui.max_lebs_per_peb > 1 →
      0 < ui.min_io_size ∧ mtd_pairing_groups ui.mtd ≠ 0 ∧
      ∀ q : Int, slc_first_pair ui ≤ q → q < slc_npairs ui →
        0 ≤ mtd_pairing_info_to_wunit ui.mtd { pair := q, group := 0 } * ui.min_io_size ∧
        mtd_pairing_info_to_wunit ui.mtd { pair := q, group := 0 } * ui.min_io_size
          + ui.min_io_size ≤ ui.peb_size)
    (hmlc : vi.mode = UBI_VID_MODE_MLC_SAFE →
      0 ≤ ui.slc_leb_size * ui.max_lebs_per_peb ∧
      ui.data_offs + ui.slc_leb_size * ui.max_lebs_per_peb ≤ ui.peb_size ∧
      ui.slc_leb_size ≠ 0 ∧ 0 ≤ ui.peb_size - ui.min_io_size ∧ 64 ≤ ui.min_io_size) :
    ∃ out, ubigen_layout_vid_and_data ui vi lnum inbuf outbuf len = .ok out := by
  have hsz : UBI_VID_HDR_SIZE = 64 := rfl
  rw [hsz] at hgap
  obtain ⟨b1, h1, e1⟩ := buf_memset_ok outbuf ui.vid_hdr_offs 0
    (ui.data_offs - ui.vid_hdr_offs) hv0 (by omega) (by omega)
  by_cases hm : vi.mode = UBI_VID_MODE_MLC_SAFE
  · obtain ⟨hp0, hp1, hz, hq0, hq1⟩ := hmlc hm
    have hns : ¬ (vi.mode = UBI_VID_MODE_SLC ∧ ui.max_lebs_per_peb > 1) := by
      rw [hm]
      intro h
      exact absurd h.1 (by decide)
    have hf := hfit hns
    obtain ⟨b2, h2, e2⟩ := buf_write_ok b1 ui.vid_hdr_offs
      (vid_hdr_set_crc (dummy_vid_hdr_fields ui vi)).to_bytes hv0
      (by rw [dummy_vid_hdr_bytes_length]; omega)
    obtain ⟨b3, h3, e3⟩ := buf_memset_ok b2 ui.data_offs 255 (ui.peb_size - ui.data_offs)
      (by omega) (by omega) (by omega)
    obtain ⟨b4, h4, e4⟩ := buf_memcpy_ok b3 ui.data_offs inbuf len (by omega) hl0 hl1
      (by omega)
    obtain ⟨b5, h5, e5⟩ := buf_memset_ok b4
      (ui.data_offs + ui.slc_leb_size * ui.max_lebs_per_peb) 0
      (ui.peb_size - (ui.data_offs + ui.slc_leb_size * ui.max_lebs_per_peb))
      (by omega) (by omega) (by omega)
    obtain ⟨b6, h6⟩ := mlc_real_hdr_loop_ok ui vi (ui.peb_size - ui.min_io_size) lnum inbuf len
      (fun _ => ⟨hl0, hl1⟩) hq0 ((len + ui.slc_leb_size - 1).tdiv ui.slc_leb_size).toNat 0 b5
      (by omega)
    have e6 := (mlc_real_hdr_loop_frame _ _ _ _ _ _ _ _ _ _ h6).1
    obtain ⟨b7, h7⟩ := mlc_invalid_hdr_loop_ok ui vi (ui.peb_size - ui.min_io_size) inbuf len
      (fun _ => ⟨hl0, hl1⟩) hq0
      (ui.max_lebs_per_peb -
        (if (len + ui.slc_leb_size - 1).tdiv ui.slc_leb_size > 0
          then (len + ui.slc_leb_size - 1).tdiv ui.slc_leb_size else 0)).toNat b6
      (by omega)
    exact ⟨b7, (layout_mlc_eq_ok ui vi lnum inbuf outbuf len b7 hm).2
      ⟨b1, b2, b3, b4, b5, b6, h1, h2, h3, h4, h5, hz, h6, h7⟩⟩
  · obtain ⟨b2, h2, e2⟩ := buf_init_vid_hdr_ok ui vi b1 ui.vid_hdr_offs lnum 0 inbuf len
      (fun _ => ⟨hl0, hl1⟩) hv0 (by omega)
    obtain ⟨b3, h3, e3⟩ := buf_memset_ok b2 ui.data_offs 255 (ui.peb_size - ui.data_offs)
      (by omega) (by omega) (by omega)
    by_cases hs : vi.mode = UBI_VID_MODE_SLC ∧ ui.max_lebs_per_peb > 1
    · obtain ⟨hmio, hg, hu⟩ := hslc hs.1 hs.2
      obtain ⟨res, h4⟩ := slc_copy_loop_ok ui (slc_npairs ui) hmio
        (slc_npairs ui - slc_first_pair ui).toNat (slc_first_pair ui) b3 inbuf len hl0 hl1
        (fun q hq1 _ hq3 => by
          have := hu q hq1 hq3
          omega)
      exact ⟨res.1, (layout_slc_eq_ok ui vi lnum inbuf outbuf len res.1 hs).2
        ⟨b1, b2, b3, res, h1, h2, h3, ne_of_gt hmio, hg, h4, rfl⟩⟩
    · have hf := hfit hs
      obtain ⟨b4, h4, _⟩ := buf_memcpy_ok b3 ui.data_offs inbuf len (by omega) hl0 hl1
        (by omega)
      exact ⟨b4, (layout_plain_eq_ok ui vi lnum inbuf outbuf len b4 hm hs).2
        ⟨b1, b2, b3, h1, h2, h3, h4⟩⟩

/-! ## Physical block layout: the headers and the payload -/

theorem geometry_paired_derived :
    ubigen_info_init 1024 64 64 0 1 7 (some pairing_two_groups) = .ok geometry_paired := rfl

theorem layout_hdr_readable (ui : ubigen_info) (vi : ubigen_vol_info) (lnum : Int)
    (inbuf outbuf : List Nat) (len : Int) (out : List Nat)
    (h : ubigen_layout_vid_and_data ui vi lnum inbuf outbuf len = .ok out)
    (hm : vi.mode ≠ UBI_VID_MODE_MLC_SAFE) :
    vi.type = UBI_VID_STATIC → 0 ≤ len ∧ len ≤ inbuf.length := by
  by_cases hs : vi.mode = UBI_VID_MODE_SLC ∧ ui.max_lebs_per_peb > 1
  · obtain ⟨b1, b2, b3, res, _, h2, _⟩ :=
      (layout_slc_eq_ok ui vi lnum inbuf outbuf len out hs).1 h
    exact ((buf_init_vid_hdr_eq_ok ..).1 h2).1
  · obtain ⟨b1, b2, b3, _, h2, _⟩ :=
      (layout_plain_eq_ok ui vi lnum inbuf outbuf len out hm hs).1 h
    exact ((buf_init_vid_hdr_eq_ok ..).1 h2).1

theorem dummy_vid_hdr_crc_valid (ui : ubigen_info) (vi : ubigen_vol_info) :
    vid_hdr_crc_valid (vid_hdr_set_crc (dummy_vid_hdr_fields ui vi)) :=
  vid_set_crc_valid _ (dummy_vid_hdr_fields_head_length ui vi)

/-- C14: for every geometry, volume and payload whose block regions do not overlap
(the gap holds a header, no write-unit of the pair-by-pair copy and no part of the
MLC-safe tail starts below `data_offs`), after `ubigen_layout_vid_and_data` the bytes
`[vid_hdr_offs, data_offs)` of the block are one header of `UBI_VID_HDR_SIZE` bytes
followed only by zero bytes.  In MLC-safe mode the header is the one
`ubigen_init_dummy_vid_hdr` builds: type and mode of the volume, `lpos` =
`UBI_VID_LPOS_CONSOLIDATED`, volume id, `lnum`, `data_size`, `used_ebs` and
`data_crc` zero, `hdr_crc` valid.  In every other mode it is the header
`ubigen_init_vid_hdr` builds for `lnum`, replica position 0, the payload and its
length.  The call completes whenever the regions lie inside the block buffer and the
payload is readable. -/
theorem layout_gap_region (ui : ubigen_info) (vi : ubigen_vol_info) (lnum : Int)
    (inbuf outbuf : List Nat) (len : Int) (prev : ubi_vid_hdr)
    (hgap : ui.vid_hdr_offs + UBI_VID_HDR_SIZE ≤ ui.data_offs)
    (hslc : vi.mode = UBI_VID_MODE_SLC → ui.max_lebs_per_peb > 1 →
      ∀ q : Int, slc_first_pair ui ≤ q → q < slc_npairs ui →
        ui.data_offs ≤ mtd_pairing_info_to_wunit ui.mtd { pair := q, group := 0 }
          * ui.min_io_size)
    (hmlc : vi.mode = UBI_VID_MODE_MLC_SAFE →
      ui.data_offs ≤ ui.data_offs + ui.slc_leb_size * ui.max_lebs_per_peb ∧
      ui.data_offs ≤ ui.peb_size - ui.min_io_size) :
    (∀ out, ubigen_layout_vid_and_data ui vi lnum inbuf outbuf len = .ok out →
      ∃ hdr : ubi_vid_hdr,
        buf_slice out ui.vid_hdr_offs (ui.data_offs - ui.vid_hdr_offs).toNat
          = hdr.to_bytes
            ++ List.replicate (ui.data_offs - ui.vid_hdr_offs - UBI_VID_HDR_SIZE).toNat 0 ∧
        (hdr.to_bytes.length : Int) = UBI_VID_HDR_SIZE ∧
        (vi.mode = UBI_VID_MODE_MLC_SAFE →
          hdr = ubigen_init_dummy_vid_hdr ui vi prev ∧
          be32_to_cpu hdr.magic = UBI_VID_HDR_MAGIC ∧
          (hdr.vol_type : Int) = vi.type % 256 ∧ (hdr.vol_mode : Int) = vi.mode % 256 ∧
          (hdr.lpos : Int) = UBI_VID_LPOS_CONSOLIDATED ∧
          be32_to_cpu hdr.vol_id = 0 ∧ be32_to_cpu hdr.lnum = 0 ∧
          be32_to_cpu hdr.data_size = 0 ∧ be32_to_cpu hdr.used_ebs = 0 ∧
          be32_to_cpu hdr.data_crc = 0 ∧
          hdr.hdr_crc = cpu_to_be32 (mtd_crc32 UBI_CRC32_INIT
            (hdr.to_bytes.take UBI_VID_HDR_SIZE_CRC.toNat))) ∧
        (vi.mode ≠ UBI_VID_MODE_MLC_SAFE →
          ubigen_init_vid_hdr ui vi prev lnum 0 inbuf len = .ok hdr)) ∧
    (0 ≤ ui.vid_hdr_offs → ui.data_offs ≤ ui.peb_size → ui.peb_size ≤ outbuf.length →
      0 ≤ len → len ≤ inbuf.length →
      (¬ (vi.mode = UBI_VID_MODE_SLC ∧ ui.max_lebs_per_peb > 1) →
        ui.data_offs + len ≤ ui.peb_size) →
      (vi.mode = UBI_VID_MODE_SLC → ui.max_lebs_per_peb > 1 →
        0 < ui.min_io_size ∧ mtd_pairing_groups ui.mtd ≠ 0 ∧
        ∀ q : Int, slc_first_pair ui ≤ q → q < slc_npairs ui →
          mtd_pairing_info_to_wunit ui.mtd { pair := q, group := 0 } * ui.min_io_size
            + ui.min_io_size ≤ ui.peb_size) →
      (vi.mode = UBI_VID_MODE_MLC_SAFE →
        ui.data_offs + ui.slc_leb_size * ui.max_lebs_per_peb ≤ ui.peb_size ∧
        ui.slc_leb_size ≠ 0 ∧ 64 ≤ ui.min_io_size) →
      ∃ out, ubigen_layout_vid_and_data ui vi lnum inbuf outbuf len = .ok out) := by
  constructor
  · intro out h
    refine ⟨layout_gap_hdr ui vi lnum inbuf len,
      layout_gap_slice ui vi lnum inbuf outbuf len out h hgap hslc hmlc, ?_, ?_, ?_⟩
    · rw [layout_gap_hdr_length]
      rfl
    · intro hm
      have e : layout_gap_hdr ui vi lnum inbuf len
          = vid_hdr_set_crc (dummy_vid_hdr_fields ui vi) := by
        unfold layout_gap_hdr
        rw [if_pos hm]
      rw [e]
      refine ⟨rfl, ?_, to_u8_cast _, to_u8_cast _, ?_, rfl, rfl, rfl, rfl, rfl,
        dummy_vid_hdr_crc_valid ui vi⟩
      · show be32_to_cpu (cpu_to_be32 (to_u32 UBI_VID_HDR_MAGIC)) = UBI_VID_HDR_MAGIC
        rw [be32_to_u32]
        decide
      · show ((to_u8 UBI_VID_LPOS_CONSOLIDATED : Nat) : Int) = UBI_VID_LPOS_CONSOLIDATED
        decide
    · intro hm
      have e : layout_gap_hdr ui vi lnum inbuf len
          = vid_hdr_set_crc (vid_hdr_fields ui vi lnum 0 inbuf len) := by
        unfold layout_gap_hdr
        rw [if_neg hm]
      rw [e]
      exact init_vid_hdr_eq ui vi prev lnum 0 inbuf len
        (layout_hdr_readable ui vi lnum inbuf outbuf len out h hm)
  · intro hv0 hdo hpeb hl0 hl1 hfit hs hm
    have hsz : UBI_VID_HDR_SIZE = 64 := rfl
    refine layout_ok ui vi lnum inbuf outbuf len hv0 hgap hdo hpeb hl0 hl1 hfit ?_ ?_
    · intro h1 h2
      obtain ⟨a, b, c⟩ := hs h1 h2
      refine ⟨a, b, fun q hq1 hq2 => ⟨?_, c q hq1 hq2⟩⟩
      have := hslc h1 h2 q hq1 hq2
      rw [hsz] at hgap
      omega
    · intro h1
      obtain ⟨a, b, c⟩ := hm h1
      have := hmlc h1
      rw [hsz] at hgap
      exact ⟨by omega, a, b, by omega, c⟩

theorem sample_payload_length (n : Nat) : (sample_payload n).length = n := by
  simp [sample_payload]

/-- C14 on `geometry_paired`, block 5 and a 384-byte payload: for the MLC-safe volume
the 64 bytes at offset 64 are the dummy header, with the consolidated replica
position; for the plain-mode volume they are the header `ubigen_init_vid_hdr` builds
for block 5, position 0 and the payload. -/
theorem layout_gap_region_witness :
    (∃ out hdr, ubigen_layout_vid_and_data geometry_paired
        (volume_paired UBI_VID_MODE_MLC_SAFE UBI_VID_DYNAMIC) 5 (sample_payload 384)
        (List.replicate 1024 9) 384 = .ok out ∧
      buf_slice out 64 64 = hdr.to_bytes ++ [] ∧
      hdr = ubigen_init_dummy_vid_hdr geometry_paired
        (volume_paired UBI_VID_MODE_MLC_SAFE UBI_VID_DYNAMIC) zero_vid_hdr ∧
      (hdr.lpos : Int) = UBI_VID_LPOS_CONSOLIDATED) ∧
    (∃ out hdr, ubigen_layout_vid_and_data geometry_paired
        (volume_paired UBI_VID_MODE_NORMAL UBI_VID_STATIC) 5 (sample_payload 384)
        (List.replicate 1024 9) 384 = .ok out ∧
      buf_slice out 64 64 = hdr.to_bytes ++ [] ∧
      ubigen_init_vid_hdr geometry_paired (volume_paired UBI_VID_MODE_NORMAL UBI_VID_STATIC)
        zero_vid_hdr 5 0 (sample_payload 384) 384 = .ok hdr) :=
  have hlen : (sample_payload 384).length = 384 := sample_payload_length 384
  have hrep : (List.replicate 1024 9).length = 1024 := List.length_replicate _ _
  ⟨match (layout_gap_region geometry_paired (volume_paired UBI_VID_MODE_MLC_SAFE
        UBI_VID_DYNAMIC) 5 (sample_payload 384) (List.replicate 1024 9) 384 zero_vid_hdr
        (by decide) (fun h => absurd h (by decide)) (fun _ => by decide)).2
        (by decide) (by decide) (by rw [hrep]; decide) (by decide) (by rw [hlen]; decide)
        (fun _ => by decide) (fun h => absurd h (by decide)) (fun _ => by decide) with
    | ⟨out, h⟩ =>
      match (layout_gap_region geometry_paired (volume_paired UBI_VID_MODE_MLC_SAFE
        UBI_VID_DYNAMIC) 5 (sample_payload 384) (List.replicate 1024 9) 384 zero_vid_hdr
        (by decide) (fun h => absurd h (by decide)) (fun _ => by decide)).1 out h with
      | ⟨hdr, h1, _, h3, _⟩ => ⟨out, hdr, h, h1, (h3 rfl).1, (h3 rfl).2.2.2.2.1⟩,
   match (layout_gap_region geometry_paired (volume_paired UBI_VID_MODE_NORMAL
        UBI_VID_STATIC) 5 (sample_payload 384) (List.replicate 1024 9) 384 zero_vid_hdr
        (by decide) (fun h => absurd h (by decide)) (fun h => absurd h (by decide))).2
        (by decide) (by decide) (by rw [hrep]; decide) (by decide) (by rw [hlen]; decide)
        (fun _ => by decide) (fun h => absurd h (by decide))
        (fun h => absurd h (by decide)) with
    | ⟨out, h⟩ =>
      match (layout_gap_region geometry_paired (volume_paired UBI_VID_MODE_NORMAL
        UBI_VID_STATIC) 5 (sample_payload 384) (List.replicate 1024 9) 384 zero_vid_hdr
        (by decide) (fun h => absurd h (by decide)) (fun h => absurd h (by decide))).1 out h
        with
      | ⟨hdr, h1, _, _, h4⟩ => ⟨out, hdr, h, h1, h4 (by decide)⟩⟩

/-- C15: for every geometry, every plain-mode volume and every payload of length
`0 <= len <= leb_size` (the logical block being the part of the physical block after
`data_offs`), after `ubigen_layout_vid_and_data` the bytes
`[data_offs, data_offs + len)` of the block are the payload, byte for byte, and every
byte in `[data_offs + len, peb_size)` is 0xFF.  The call completes whenever the gap
holds the identifier header, the block buffer has `peb_size` bytes and the payload
is readable. -/
theorem layout_plain_payload (ui : ubigen_info) (vi : ubigen_vol_info) (lnum : Int)
    (inbuf outbuf : List Nat) (len : Int)
    (hmode : vi.mode = UBI_VID_MODE_NORMAL)
    (hl0 : 0 ≤ len) (hl1 : len ≤ ui.leb_size)
    (hleb : ui.leb_size ≤ ui.peb_size - ui.data_offs) :
    (∀ out, ubigen_layout_vid_and_data ui vi lnum inbuf outbuf len = .ok out →
      buf_slice out ui.data_offs len.toNat = inbuf.take len.toNat ∧
      (inbuf.take len.toNat).length = len.toNat ∧
      ∀ i : Nat, ui.data_offs + len ≤ i → (i : Int) < ui.peb_size → out[i]? = some 255) ∧
    (0 ≤ ui.vid_hdr_offs → ui.vid_hdr_offs + UBI_VID_HDR_SIZE ≤ ui.data_offs →
      ui.peb_size ≤ outbuf.length → len ≤ inbuf.length →
      ∃ out, ubigen_layout_vid_and_data ui vi lnum inbuf outbuf len = .ok out) := by
  have hm : vi.mode ≠ UBI_VID_MODE_MLC_SAFE := by
    rw [hmode]
    decide
  have hs : ¬ (vi.mode = UBI_VID_MODE_SLC ∧ ui.max_lebs_per_peb > 1) := by
    rw [hmode]
    intro h
    exact absurd h.1 (by decide)
  constructor
  · intro out h
    obtain ⟨b1, b2, b3, h1, h2, h3, h4⟩ :=
      (layout_plain_eq_ok ui vi lnum inbuf outbuf len out hm hs).1 h
    obtain ⟨hd0, _, hsrc, _, _⟩ := buf_memcpy_bounds _ _ _ _ _ h4
    obtain ⟨_, _, hw⟩ := (buf_memcpy_eq_ok _ _ _ _ _).1 h4
    have htl : (inbuf.take len.toNat).length = len.toNat := by
      rw [List.length_take]
      omega
    refine ⟨?_, htl, fun i hi0 hi1 => ?_⟩
    · have := buf_write_slice _ _ _ _ hw
      rw [htl] at this
      exact this
    · rw [buf_write_above _ _ _ _ hw i (by rw [htl]; omega),
        buf_memset_in _ _ _ _ _ h3 i (by omega) (by omega)]
  · intro hv0 hgap hpeb hin
    exact layout_ok ui vi lnum inbuf outbuf len hv0 hgap (by omega) hpeb hl0 hin
      (fun _ => by omega) (fun h1 h2 => absurd ⟨h1, h2⟩ hs) (fun h1 => absurd h1 hm)

/-- C15 on `geometry_128k` and `volume_100k`: a payload of 300 bytes is laid out at
offset 4096 of a 131072-byte block buffer, followed by 0xFF up to the end of the
block. -/
theorem layout_plain_payload_witness :
    ∃ out, ubigen_layout_vid_and_data geometry_128k volume_100k 0 (sample_payload 300)
        (List.replicate 131072 0) 300 = .ok out ∧
      buf_slice out 4096 300 = (sample_payload 300).take 300 ∧
      ∀ i : Nat, (4096 : Int) + 300 ≤ i → (i : Int) < 131072 → out[i]? = some 255 :=
  have hlen : (sample_payload 300).length = 300 := sample_payload_length 300
  have hrep : (List.replicate 131072 0).length = 131072 := List.length_replicate _ _
  match (layout_plain_payload geometry_128k volume_100k 0 (sample_payload 300)
      (List.replicate 131072 0) 300 rfl (by decide) (by decide) (by decide)).2
      (by decide) (by decide) (by rw [hrep]; decide) (by rw [hlen]; decide) with
  | ⟨out, h⟩ =>
    match (layout_plain_payload geometry_128k volume_100k 0 (sample_payload 300)
      (List.replicate 131072 0) 300 rfl (by decide) (by decide) (by decide)).1 out h with
    | ⟨h1, _, h3⟩ => ⟨out, h, h1, h3⟩

theorem wunit_of_offset (w m : Int) (i : Nat) (hm : 0 < m) (h0 : w * m ≤ i)
    (h1 : (i : Int) < w * m + m) : (i : Int) / m = w := by
  have e : (i : Int) = ((i : Int) - w * m) + w * m := by ring
  rw [e, Int.add_mul_ediv_right _ _ (ne_of_gt hm), Int.ediv_eq_zero_of_lt (by omega) (by omega)]
  omega

/-- C16: for every geometry whose pairing translations are mutually inverse on the
group-0 coordinates, whose logical-blocks-per-block count is the group count (as
`ubigen_info_init` sets it) and whose groups are numbered from 0 below the group
count, every SLC-emulated volume and every payload: after
`ubigen_layout_vid_and_data` every byte of the payload region `[data_offs, peb_size)`
that lies in a write-unit whose pairing group is not 0 is 0xFF. -/
theorem layout_slc_other_groups_erased (ui : ubigen_info) (vi : ubigen_vol_info) (lnum : Int)
    (inbuf outbuf : List Nat) (len : Int) (out : List Nat)
    (hmode : vi.mode = UBI_VID_MODE_SLC)
    (h : ubigen_layout_vid_and_data ui vi lnum inbuf outbuf len = .ok out)
    (hmio : 0 < ui.min_io_size)
    (hinv : ∀ pair : Int, mtd_wunit_to_pairing_info ui.mtd
      (mtd_pairing_info_to_wunit ui.mtd { pair := pair, group := 0 })
        = { pair := pair, group := 0 })
    (hgeo : ui.max_lebs_per_peb = mtd_pairing_groups ui.mtd)
    (hgrp : ∀ w : Int, 0 ≤ (mtd_wunit_to_pairing_info ui.mtd w).group ∧
      (mtd_wunit_to_pairing_info ui.mtd w).group < mtd_pairing_groups ui.mtd) :
    ∀ i : Nat, ui.data_offs ≤ i → (i : Int) < ui.peb_size →
      (mtd_wunit_to_pairing_info ui.mtd ((i : Int) / ui.min_io_size)).group ≠ 0 →
      out[i]? = some 255 := by
  intro i hi0 hi1 hg
  by_cases hs : ui.max_lebs_per_peb > 1
  · obtain ⟨b1, b2, b3, res, h1, h2, h3, _, _, h4, rfl⟩ :=
      (layout_slc_eq_ok ui vi lnum inbuf outbuf len out ⟨hmode, hs⟩).1 h
    rw [(slc_copy_loop_frame _ _ _ _ _ _ _ _ h4).2 i (fun q _ _ _ hh => by
        apply hg
        rw [wunit_of_offset _ _ i hmio hh.1 hh.2, hinv q]),
      buf_memset_in _ _ _ _ _ h3 i hi0 (by omega)]
  · exfalso
    apply hg
    have := hgrp ((i : Int) / ui.min_io_size)
    omega

/-- C16 on `geometry_paired`, whose scheme has two groups: after the layout of a
300-byte payload of the SLC-emulated static volume, every byte from offset 128 on
that lies in an odd write-unit is 0xFF. -/
theorem layout_slc_other_groups_erased_witness :
    ∃ out, ubigen_layout_vid_and_data geometry_paired
        (volume_paired UBI_VID_MODE_SLC UBI_VID_STATIC) 5 (sample_payload 300)
        (List.replicate 1024 9) 300 = .ok out ∧
      ∀ i : Nat, (128 : Int) ≤ i → (i : Int) < 1024 → (i : Int) / 64 % 2 ≠ 0 →
        out[i]? = some 255 :=
  have hlen : (sample_payload 300).length = 300 := sample_payload_length 300
  have hrep : (List.replicate 1024 9).length = 1024 := List.length_replicate _ _
  match layout_ok geometry_paired (volume_paired UBI_VID_MODE_SLC UBI_VID_STATIC) 5
      (sample_payload 300) (List.replicate 1024 9) 300 (by decide) (by decide) (by decide)
      (by rw [hrep]; decide) (by decide) (by rw [hlen]; decide)
      (fun h => absurd ⟨rfl, by decide⟩ h)
      (fun _ _ => ⟨by decide, by decide, fun q hq1 hq2 => by
        have e1 : slc_first_pair geometry_paired = 2 := by decide
        have e2 : slc_npairs geometry_paired = 8 := by decide
        rw [e1] at hq1
        rw [e2] at hq2
        show 0 ≤ (q * 2 + 0) * 64 ∧ (q * 2 + 0) * 64 + 64 ≤ 1024
        omega⟩)
      (fun h => absurd h (by decide)) with
  | ⟨out, h⟩ =>
    ⟨out, h, layout_slc_other_groups_erased geometry_paired
      (volume_paired UBI_VID_MODE_SLC UBI_VID_STATIC) 5 (sample_payload 300)
      (List.replicate 1024 9) 300 out rfl h (by decide)
      (fun pair => by
        show ({ pair := (pair * 2 + 0) / 2, group := (pair * 2 + 0) % 2 } : mtd_pairing_info)
          = { pair := pair, group := 0 }
        have e1 : (pair * 2 + 0) / 2 = pair := by omega
        have e2 : (pair * 2 + 0) % 2 = 0 := by omega
        rw [e1, e2])
      rfl
      (fun w => by
        show 0 ≤ w % 2 ∧ w % 2 < 2
        omega)⟩

/-! ## Physical block layout: replicas and payload length -/

theorem except_map_eq_ok {ε α β : Type} (x : Except ε α) (f : α → β) (b : β)
    (h : x.map f = .ok b) : ∃ a, x = .ok a ∧ f a = b := by
  cases x with
  | error e => cases h
  | ok a => exact ⟨a, rfl, Except.ok.inj h⟩

/-- The pair-by-pair copy places payload byte `j` at offset `j % min_io_size` of the
group-0 write-unit of pair `pair + j / min_io_size`, for every `j` below the length
and below the capacity of the pairs it visits. -/
theorem slc_copy_loop_content (ui : ubigen_info) (npairs : Int) (hmio : 0 < ui.min_io_size)
    (hinj : ∀ q q' : Int,
      mtd_pairing_info_to_wunit ui.mtd { pair := q, group := 0 }
        = mtd_pairing_info_to_wunit ui.mtd { pair := q', group := 0 } → q = q') :
    ∀ (n : Nat) (pair : Int) (out inb : List Nat) (len : Int)
      (res : List Nat × List Nat × Int),
    slc_copy_loop ui npairs n pair out inb len = .ok res → pair + n ≤ npairs →
    ∀ j : Nat, (j : Int) < len → j < n * ui.min_io_size.toNat →
      res.1[(mtd_pairing_info_to_wunit ui.mtd
          { pair := pair + (j / ui.min_io_size.toNat : Nat), group := 0 }
        * ui.min_io_size).toNat + j % ui.min_io_size.toNat]? = inb[j]? := by
  have hm : 0 < ui.min_io_size.toNat := by omega
  have hmc : (ui.min_io_size.toNat : Int) = ui.min_io_size := by omega
  intro n
  induction n with
  | zero =>
    intro pair out inb len res _ _ j _ hj
    omega
  | succ n ih =>
    intro pair out inb len res h hp j hj1 hj2
    rcases (slc_copy_loop_succ ..).1 h with ⟨_, hl, out1, h1, h2⟩ | ⟨hc, _⟩
    · obtain ⟨b0, bn, bs, bl, blen⟩ := buf_memcpy_bounds _ _ _ _ _ h1
      by_cases hjm : j < ui.min_io_size.toNat
      · have e1 : j / ui.min_io_size.toNat = 0 := Nat.div_eq_of_lt hjm
        have e2 : j % ui.min_io_size.toNat = j := Nat.mod_eq_of_lt hjm
        rw [e1, e2]
        have e3 : pair + ((0 : Nat) : Int) = pair := by simp
        rw [e3]
        have hw : (j : Int) < (if ui.min_io_size > len then len else ui.min_io_size) := by
          split <;> omega
        rw [(slc_copy_loop_frame _ _ _ _ _ _ _ _ h2).2 _ (fun q hq1 _ _ hh => by
            have := wunit_of_offset _ _ _ hmio hh.1 hh.2
            have e4 := wunit_of_offset
              (mtd_pairing_info_to_wunit ui.mtd { pair := pair, group := 0 })
              ui.min_io_size
              ((mtd_pairing_info_to_wunit ui.mtd { pair := pair, group := 0 }
                * ui.min_io_size).toNat + j) hmio (by omega) (by omega)
            rw [e4] at this
            have := hinj _ _ this
            omega),
          buf_memcpy_get _ _ _ _ _ h1, if_pos (by omega)]
        congr 1
        omega
      · have hw : (if ui.min_io_size > len then len else ui.min_io_size) = ui.min_io_size := by
          split <;> omega
        rw [hw] at h2
        have hjj : j = (j - ui.min_io_size.toNat) + ui.min_io_size.toNat := by omega
        have := ih (pair + 1) out1 (inb.drop ui.min_io_size.toNat) (len - ui.min_io_size) res
          h2 (by push_cast at hp; omega) (j - ui.min_io_size.toNat) (by omega)
          (by
            have : (n + 1) * ui.min_io_size.toNat
                = n * ui.min_io_size.toNat + ui.min_io_size.toNat := by ring
            omega)
        rw [List.getElem?_drop] at this
        have e1 : j / ui.min_io_size.toNat
            = (j - ui.min_io_size.toNat) / ui.min_io_size.toNat + 1 := by
          conv_lhs => rw [hjj]
          exact Nat.add_div_right _ hm
        have e2 : j % ui.min_io_size.toNat
            = (j - ui.min_io_size.toNat) % ui.min_io_size.toNat := by
          conv_lhs => rw [hjj]
          exact Nat.add_mod_right _ _
        have e3 : pair + ((((j - ui.min_io_size.toNat) / ui.min_io_size.toNat + 1 : Nat)) : Int)
            = pair + 1 + (((j - ui.min_io_size.toNat) / ui.min_io_size.toNat : Nat) : Int) := by
          push_cast
          ring
        rw [e1, e2, e3, this]
        congr 1
        omega
    · exfalso
      apply hc
      constructor
      · push_cast at hp
        omega
      · omega

theorem slc_gather_length (ui : ubigen_info) (out : List Nat) :
    (slc_gather ui out).length = slc_capacity ui := by
  simp [slc_gather]

theorem pairing_inverse_injective (ui : ubigen_info)
    (hinv : ∀ pair : Int, mtd_wunit_to_pairing_info ui.mtd
      (mtd_pairing_info_to_wunit ui.mtd { pair := pair, group := 0 })
        = { pair := pair, group := 0 }) (q q' : Int)
    (h : mtd_pairing_info_to_wunit ui.mtd { pair := q, group := 0 }
      = mtd_pairing_info_to_wunit ui.mtd { pair := q', group := 0 }) : q = q' := by
  have h1 := hinv q
  rw [h, hinv q'] at h1
  exact (mtd_pairing_info.mk.inj h1).1.symm

/-- After the pair-by-pair copy the gathered payload region starts with the first
`min len capacity` bytes of the payload. -/
theorem layout_slc_gather (ui : ubigen_info) (vi : ubigen_vol_info) (lnum : Int)
    (inbuf outbuf : List Nat) (len : Int) (out : List Nat)
    (hs : vi.mode = UBI_VID_MODE_SLC ∧ ui.max_lebs_per_peb > 1)
    (h : ubigen_layout_vid_and_data ui vi lnum inbuf outbuf len = .ok out)
    (hmio : 0 < ui.min_io_size)
    (hinv : ∀ pair : Int, mtd_wunit_to_pairing_info ui.mtd
      (mtd_pairing_info_to_wunit ui.mtd { pair := pair, group := 0 })
        = { pair := pair, group := 0 })
    (hl1 : len ≤ inbuf.length) :
    (slc_gather ui out).take len.toNat = inbuf.take (min len.toNat (slc_capacity ui)) := by
  obtain ⟨b1, b2, b3, res, _, _, _, _, _, h4, rfl⟩ :=
    (layout_slc_eq_ok ui vi lnum inbuf outbuf len out hs).1 h
  apply List.ext_getElem?
  intro j
  by_cases hj : j < min len.toNat (slc_capacity ui)
  · have hj1 : j < len.toNat := lt_of_lt_of_le hj (min_le_left _ _)
    have hj2 : j < slc_capacity ui := lt_of_lt_of_le hj (min_le_right _ _)
    have hn : 0 < (slc_npairs ui - slc_first_pair ui).toNat := by
      unfold slc_capacity at hj2
      by_contra hz
      have : (slc_npairs ui - slc_first_pair ui).toNat = 0 := by omega
      rw [this] at hj2
      omega
    have hc := slc_copy_loop_content ui _ hmio (pairing_inverse_injective ui hinv) _ _ _ _ _ _
      h4 (by
        show slc_first_pair ui + ((slc_npairs ui - slc_first_pair ui).toNat : Int)
          ≤ slc_npairs ui
        omega) j (by omega) hj2
    have hin : j < inbuf.length := by omega
    rw [List.getElem?_take_of_lt hj1, List.getElem?_take_of_lt hj, slc_gather,
      List.getElem?_map, List.getElem?_range hj2, Option.map_some',
      List.getD_eq_getElem?_getD]
    have hc' : res.1[(mtd_pairing_info_to_wunit ui.mtd
          { pair := slc_first_pair ui + (j / ui.min_io_size.toNat : Nat), group := 0 }
        * ui.min_io_size).toNat + j % ui.min_io_size.toNat]? = inbuf[j]? := hc
    rw [hc', List.getElem?_eq_getElem hin]
    rfl
  · have hlen1 : (List.take len.toNat (slc_gather ui res.1)).length ≤ j := by
      rw [List.length_take, slc_gather_length]
      exact not_lt.1 hj
    have hlen2 : (List.take (min len.toNat (slc_capacity ui)) inbuf).length ≤ j := by
      rw [List.length_take]
      exact le_trans (min_le_left _ _) (not_lt.1 hj)
    rw [List.getElem?_eq_none hlen1, List.getElem?_eq_none hlen2]

theorem except_ok_of_decide {ε α : Type} (x : Except ε α) (P : α → Prop) [DecidablePred P]
    (h : x.map (fun a => decide (P a)) = .ok true) : ∃ a, x = .ok a ∧ P a := by
  obtain ⟨a, h1, h2⟩ := except_map_eq_ok _ _ _ h
  exact ⟨a, h1, of_decide_eq_true h2⟩

theorem vid_hdr_static_decode (ui : ubigen_info) (vi : ubigen_vol_info) (lnum lpos : Int)
    (data : List Nat) (data_size : Int) (hs : vi.type = UBI_VID_STATIC) :
    (ubi_vid_hdr.of_bytes
        (vid_hdr_set_crc (vid_hdr_fields ui vi lnum lpos data data_size)).to_bytes).data_size
      = cpu_to_be32 (to_u32 data_size) ∧
    (ubi_vid_hdr.of_bytes
        (vid_hdr_set_crc (vid_hdr_fields ui vi lnum lpos data data_size)).to_bytes).data_crc
      = cpu_to_be32 (mtd_crc32 UBI_CRC32_INIT (data.take data_size.toNat)) := by
  simp only [ubi_vid_hdr.of_bytes, ubi_vid_hdr.to_bytes, ubi_vid_hdr.head_bytes,
    vid_hdr_set_crc, vid_hdr_fields, if_pos hs, cpu_to_be32]
  exact ⟨rfl, rfl⟩

/-- After a layout that takes the plain copy, the bytes at `data_offs` are the
payload. -/
theorem layout_copy_slice (ui : ubigen_info) (vi : ubigen_vol_info) (lnum : Int)
    (inbuf outbuf : List Nat) (len : Int) (out : List Nat)
    (hm : vi.mode ≠ UBI_VID_MODE_MLC_SAFE)
    (hs : ¬ (vi.mode = UBI_VID_MODE_SLC ∧ ui.max_lebs_per_peb > 1))
    (h : ubigen_layout_vid_and_data ui vi lnum inbuf outbuf len = .ok out) :
    buf_slice out ui.data_offs len.toNat = inbuf.take len.toNat := by
  obtain ⟨b1, b2, b3, _, _, _, h4⟩ :=
    (layout_plain_eq_ok ui vi lnum inbuf outbuf len out hm hs).1 h
  obtain ⟨_, _, hsrc, _, _⟩ := buf_memcpy_bounds _ _ _ _ _ h4
  obtain ⟨_, _, hw⟩ := (buf_memcpy_eq_ok _ _ _ _ _).1 h4
  have htl : (inbuf.take len.toNat).length = len.toNat := by
    rw [List.length_take]
    omega
  have := buf_write_slice _ _ _ _ hw
  rw [htl] at this
  exact this

/-- After the layout the 64 bytes at `vid_hdr_offs` are the header stored there, when
no later step reaches below `data_offs`. -/
theorem layout_hdr_slice (ui : ubigen_info) (vi : ubigen_vol_info) (lnum : Int)
    (inbuf outbuf : List Nat) (len : Int) (out : List Nat)
    (h : ubigen_layout_vid_and_data ui vi lnum inbuf outbuf len = .ok out)
    (hgap : ui.vid_hdr_offs + UBI_VID_HDR_SIZE ≤ ui.data_offs)
    (hslc : vi.mode = UBI_VID_MODE_SLC → ui.max_lebs_per_peb > 1 →
      ∀ q : Int, slc_first_pair ui ≤ q → q < slc_npairs ui →
        ui.data_offs ≤ mtd_pairing_info_to_wunit ui.mtd { pair := q, group := 0 }
          * ui.min_io_size)
    (hmlc : vi.mode = UBI_VID_MODE_MLC_SAFE →
      ui.data_offs ≤ ui.data_offs + ui.slc_leb_size * ui.max_lebs_per_peb ∧
      ui.data_offs ≤ ui.peb_size - ui.min_io_size) :
    buf_slice out ui.vid_hdr_offs 64 = (layout_gap_hdr ui vi lnum inbuf len).to_bytes := by
  obtain ⟨_, b1, b2, h1, h2, hf⟩ :=
    layout_below ui vi lnum inbuf outbuf len out h ui.data_offs (le_refl _) hslc hmlc
  have hL := layout_gap_hdr_length ui vi lnum inbuf len
  obtain ⟨hv0, _, _, _⟩ := buf_memset_bounds _ _ _ _ _ h1
  have hsz : UBI_VID_HDR_SIZE = 64 := rfl
  rw [hsz] at hgap
  have e := buf_write_slice _ _ _ _ h2
  rw [hL] at e
  rw [← e]
  exact buf_slice_congr _ _ _ _ (fun i _ hi1 => hf i (by omega))

/-- C17, evaluated on `geometry_paired` (two logical blocks per physical block, 64-byte
write-units, the tail region at `[896, 1024)`) for the MLC-safe dynamic volume and
block number 5.  With a 768-byte payload, which packs k = 2 logical blocks, the tail
of the block is 64 zero bytes followed by a single header, the one for block 5 and
replica position 1: the replica for position 0 is gone and no header carries another
block number.  With a 384-byte payload, k = 1, the tail is 64 zero bytes followed by
the header with the sentinel `UBI_VID_LPOS_INVALID`: no real replica is left. -/
theorem layout_mlc_safe_tail_keeps_one_header :
    (∃ out, ubigen_layout_vid_and_data geometry_paired
        (volume_paired UBI_VID_MODE_MLC_SAFE UBI_VID_DYNAMIC) 5 (sample_payload 768)
        (List.replicate 1024 9) 768 = .ok out ∧
      buf_slice out 896 128 = List.replicate 64 0 ++
        (vid_hdr_set_crc (vid_hdr_fields geometry_paired
          (volume_paired UBI_VID_MODE_MLC_SAFE UBI_VID_DYNAMIC) 5 1 (sample_payload 768)
          768)).to_bytes) ∧
    (∃ out, ubigen_layout_vid_and_data geometry_paired
        (volume_paired UBI_VID_MODE_MLC_SAFE UBI_VID_DYNAMIC) 5 (sample_payload 384)
        (List.replicate 1024 9) 384 = .ok out ∧
      buf_slice out 896 128 = List.replicate 64 0 ++
        (vid_hdr_set_crc (vid_hdr_fields geometry_paired
          (volume_paired UBI_VID_MODE_MLC_SAFE UBI_VID_DYNAMIC) 0 UBI_VID_LPOS_INVALID
          (sample_payload 384) 384)).to_bytes) :=
  ⟨except_map_eq_ok _ (fun b => buf_slice b 896 128) _ (by decide!),
   except_map_eq_ok _ (fun b => buf_slice b 896 128) _ (by decide!)⟩

/-- C18 fails on `geometry_paired`, whose group-0 pairs hold 384 payload bytes: for
the SLC-emulated volume and a payload of 500 bytes `ubigen_layout_vid_and_data`
completes and returns a block whose payload region holds exactly the first 384 bytes
of the payload. -/
theorem layout_slc_oversize_truncated :
    slc_capacity geometry_paired = 384 ∧
    ∃ out, ubigen_layout_vid_and_data geometry_paired
        (volume_paired UBI_VID_MODE_SLC UBI_VID_DYNAMIC) 5 (sample_payload 500)
        (List.replicate 1024 9) 500 = .ok out ∧
      slc_gather geometry_paired out = (sample_payload 500).take 384 :=
  ⟨by decide, except_map_eq_ok _ (slc_gather geometry_paired) _ (by decide!)⟩

/-- C18, amended: `ubigen_layout_vid_and_data` checks no length and reports nothing.
For a readable payload of `len >= 0` bytes: in SLC-emulated mode with the pair-by-pair
copy (translations inverse on group-0 coordinates, `min_io_size > 0`) a completed call
leaves the first `min len capacity` payload bytes in the group-0 write-units, in pair
order, so a payload longer than the capacity is cut to its first `capacity` bytes; and
the call does complete whenever the header gap and the group-0 write-units lie inside
the block buffer, whatever `len` is.  In plain mode, with a block buffer of exactly
`peb_size` bytes, a payload longer than `peb_size - data_offs` makes the copy run past
the buffer: no block is produced. -/
theorem layout_oversize_not_rejected (ui : ubigen_info) (vi : ubigen_vol_info) (lnum : Int)
    (inbuf outbuf : List Nat) (len : Int) (hl0 : 0 ≤ len) (hl1 : len ≤ inbuf.length) :
    (vi.mode = UBI_VID_MODE_SLC → ui.max_lebs_per_peb > 1 → 0 < ui.min_io_size →
      (∀ pair : Int, mtd_wunit_to_pairing_info ui.mtd
        (mtd_pairing_info_to_wunit ui.mtd { pair := pair, group := 0 })
          = { pair := pair, group := 0 }) →
      (∀ out, ubigen_layout_vid_and_data ui vi lnum inbuf outbuf len = .ok out →
        (slc_gather ui out).take len.toNat = inbuf.take (min len.toNat (slc_capacity ui)) ∧
        ((slc_capacity ui : Int) < len → slc_gather ui out = inbuf.take (slc_capacity ui))) ∧
      (0 ≤ ui.vid_hdr_offs → ui.vid_hdr_offs + UBI_VID_HDR_SIZE ≤ ui.data_offs →
        ui.data_offs ≤ ui.peb_size → ui.peb_size ≤ outbuf.length →
        mtd_pairing_groups ui.mtd ≠ 0 →
        (∀ q : Int, slc_first_pair ui ≤ q → q < slc_npairs ui →
          0 ≤ mtd_pairing_info_to_wunit ui.mtd { pair := q, group := 0 } * ui.min_io_size ∧
          mtd_pairing_info_to_wunit ui.mtd { pair := q, group := 0 } * ui.min_io_size
            + ui.min_io_size ≤ ui.peb_size) →
        ∃ out, ubigen_layout_vid_and_data ui vi lnum inbuf outbuf len = .ok out)) ∧
    (vi.mode = UBI_VID_MODE_NORMAL → (outbuf.length : Int) = ui.peb_size →
      ui.peb_size - ui.data_offs < len →
      ∀ out, ubigen_layout_vid_and_data ui vi lnum inbuf outbuf len ≠ .ok out) := by
  constructor
  · intro hmode hs hmio hinv
    constructor
    · intro out h
      have hg := layout_slc_gather ui vi lnum inbuf outbuf len out ⟨hmode, hs⟩ h hmio hinv hl1
      refine ⟨hg, fun hc => ?_⟩
      have hle : slc_capacity ui ≤ len.toNat := by omega
      rw [min_eq_right hle, List.take_of_length_le (by rw [slc_gather_length]; exact hle)] at hg
      exact hg
    · intro hv0 hgap hdo hpeb hgr hu
      exact layout_ok ui vi lnum inbuf outbuf len hv0 hgap hdo hpeb hl0 hl1
        (fun hn => absurd ⟨hmode, hs⟩ hn) (fun _ _ => ⟨hmio, hgr, hu⟩)
        (fun hm => by
          rw [hmode] at hm
          exact absurd hm (by decide))
  · intro hmode hlen hover out h
    have hm : vi.mode ≠ UBI_VID_MODE_MLC_SAFE := by
      rw [hmode]
      decide
    have hs : ¬ (vi.mode = UBI_VID_MODE_SLC ∧ ui.max_lebs_per_peb > 1) := by
      rw [hmode]
      intro h
      exact absurd h.1 (by decide)
    obtain ⟨b1, b2, b3, h1, h2, h3, h4⟩ :=
      (layout_plain_eq_ok ui vi lnum inbuf outbuf len out hm hs).1 h
    obtain ⟨_, _, _, hb, _⟩ := buf_memcpy_bounds _ _ _ _ _ h4
    obtain ⟨_, _, _, e3⟩ := buf_memset_bounds _ _ _ _ _ h3
    have e2 := buf_write_length _ _ _ _ ((buf_init_vid_hdr_eq_ok ..).1 h2).2
    obtain ⟨_, _, _, e1⟩ := buf_memset_bounds _ _ _ _ _ h1
    omega

theorem geometry_paired_inverse (pair : Int) :
    mtd_wunit_to_pairing_info geometry_paired.mtd
      (mtd_pairing_info_to_wunit geometry_paired.mtd { pair := pair, group := 0 })
        = { pair := pair, group := 0 } := by
  show ({ pair := (pair * 2 + 0) / 2, group := (pair * 2 + 0) % 2 } : mtd_pairing_info)
    = { pair := pair, group := 0 }
  have e1 : (pair * 2 + 0) / 2 = pair := by omega
  have e2 : (pair * 2 + 0) % 2 = 0 := by omega
  rw [e1, e2]

theorem geometry_paired_units (q : Int) (hq1 : slc_first_pair geometry_paired ≤ q)
    (hq2 : q < slc_npairs geometry_paired) :
    geometry_paired.data_offs ≤ mtd_pairing_info_to_wunit geometry_paired.mtd
        { pair := q, group := 0 } * geometry_paired.min_io_size ∧
    0 ≤ mtd_pairing_info_to_wunit geometry_paired.mtd { pair := q, group := 0 }
        * geometry_paired.min_io_size ∧
    mtd_pairing_info_to_wunit geometry_paired.mtd { pair := q, group := 0 }
        * geometry_paired.min_io_size + geometry_paired.min_io_size
      ≤ geometry_paired.peb_size := by
  have e1 : slc_first_pair geometry_paired = 2 := by decide
  have e2 : slc_npairs geometry_paired = 8 := by decide
  rw [e1] at hq1
  rw [e2] at hq2
  show (128 : Int) ≤ (q * 2 + 0) * 64 ∧ 0 ≤ (q * 2 + 0) * 64 ∧ (q * 2 + 0) * 64 + 64 ≤ 1024
  omega

/-- C18, amended, on `geometry_paired`: the layout of a 500-byte payload of the
SLC-emulated volume completes, and the payload region of the block it returns is the
first `slc_capacity geometry_paired` = 384 bytes of the payload. -/
theorem layout_oversize_not_rejected_witness :
    ∃ out, ubigen_layout_vid_and_data geometry_paired
        (volume_paired UBI_VID_MODE_SLC UBI_VID_DYNAMIC) 5 (sample_payload 500)
        (List.replicate 1024 9) 500 = .ok out ∧
      slc_gather geometry_paired out
        = (sample_payload 500).take (slc_capacity geometry_paired) :=
  have hlen : (sample_payload 500).length = 500 := sample_payload_length 500
  have hrep : (List.replicate 1024 9).length = 1024 := List.length_replicate _ _
  have T := (layout_oversize_not_rejected geometry_paired
    (volume_paired UBI_VID_MODE_SLC UBI_VID_DYNAMIC) 5 (sample_payload 500)
    (List.replicate 1024 9) 500 (by decide) (by rw [hlen]; decide)).1 rfl (by decide)
    (by decide) geometry_paired_inverse
  match T.2 (by decide) (by decide) (by decide) (by rw [hrep]; decide) (by decide)
    (fun q hq1 hq2 => (geometry_paired_units q hq1 hq2).2) with
  | ⟨out, h⟩ => ⟨out, h, (T.1 out h).2 (by decide)⟩

theorem geometry_paired_small_derived :
    ubigen_info_init 384 64 64 0 1 7 (some pairing_two_groups) = .ok geometry_paired_small :=
  rfl

/-- C19 fails on `geometry_paired_small`, whose group-0 pairs hold 64 payload bytes:
for the static SLC-emulated volume and a payload of 100 bytes the layout completes and
the header stores `data_size` = 100, while the CRC-32 of the payload bytes gathered
from the group-0 write-units of the block differs from the stored `data_crc`. -/
theorem layout_slc_oversize_crc_mismatch :
    slc_capacity geometry_paired_small = 64 ∧
    ∃ out, ubigen_layout_vid_and_data geometry_paired_small
        (volume_paired UBI_VID_MODE_SLC UBI_VID_STATIC) 5 (sample_payload 100)
        (List.replicate 384 9) 100 = .ok out ∧
      be32_to_cpu (ubi_vid_hdr.of_bytes (buf_slice out 64 64)).data_size = 100 ∧
      mtd_crc32 UBI_CRC32_INIT ((slc_gather geometry_paired_small out).take 100)
        ≠ be32_to_cpu (ubi_vid_hdr.of_bytes (buf_slice out 64 64)).data_crc :=
  ⟨by decide, except_ok_of_decide _ (fun out =>
    be32_to_cpu (ubi_vid_hdr.of_bytes (buf_slice out 64 64)).data_size = 100 ∧
    mtd_crc32 UBI_CRC32_INIT ((slc_gather geometry_paired_small out).take 100)
      ≠ be32_to_cpu (ubi_vid_hdr.of_bytes (buf_slice out 64 64)).data_crc) (by decide!)⟩

/-- C19, amended: for every static volume in plain or SLC-emulated mode and every
payload that fits the payload region of its mode (with the pair-by-pair copy: `len`
at most the capacity of the group-0 pairs, translations inverse on group-0
coordinates, every write-unit used at or after `data_offs`), after
`ubigen_layout_vid_and_data` the header found at `vid_hdr_offs` stores `data_size` =
`len`, and its `data_crc` is the CRC-32 of the `len` payload bytes read back from the
block: from `data_offs` with the plain copy, gathered from the group-0 write-units in
pair order with the pair-by-pair copy. -/
theorem layout_static_crc_round_trip (ui : ubigen_info) (vi : ubigen_vol_info) (lnum : Int)
    (inbuf outbuf : List Nat) (len : Int) (out : List Nat)
    (htype : vi.type = UBI_VID_STATIC)
    (hmode : vi.mode = UBI_VID_MODE_NORMAL ∨ vi.mode = UBI_VID_MODE_SLC)
    (h : ubigen_layout_vid_and_data ui vi lnum inbuf outbuf len = .ok out)
    (hgap : ui.vid_hdr_offs + UBI_VID_HDR_SIZE ≤ ui.data_offs)
    (hint : len ≤ INT_MAX)
    (hslc : vi.mode = UBI_VID_MODE_SLC → ui.max_lebs_per_peb > 1 →
      0 < ui.min_io_size ∧ len ≤ slc_capacity ui ∧
      (∀ pair : Int, mtd_wunit_to_pairing_info ui.mtd
        (mtd_pairing_info_to_wunit ui.mtd { pair := pair, group := 0 })
          = { pair := pair, group := 0 }) ∧
      ∀ q : Int, slc_first_pair ui ≤ q → q < slc_npairs ui →
        ui.data_offs ≤ mtd_pairing_info_to_wunit ui.mtd { pair := q, group := 0 }
          * ui.min_io_size) :
    (be32_to_cpu (ubi_vid_hdr.of_bytes (buf_slice out ui.vid_hdr_offs 64)).data_size : Int)
      = len ∧
    be32_to_cpu (ubi_vid_hdr.of_bytes (buf_slice out ui.vid_hdr_offs 64)).data_crc
      = mtd_crc32 UBI_CRC32_INIT
          (if vi.mode = UBI_VID_MODE_SLC ∧ ui.max_lebs_per_peb > 1
            then (slc_gather ui out).take len.toNat
            else buf_slice out ui.data_offs len.toNat) := by
  have hm : vi.mode ≠ UBI_VID_MODE_MLC_SAFE := by
    rcases hmode with e | e <;> rw [e] <;> decide
  obtain ⟨hl0, hl1⟩ := layout_hdr_readable ui vi lnum inbuf outbuf len out h hm htype
  have hslice := layout_hdr_slice ui vi lnum inbuf outbuf len out h hgap
    (fun h1 h2 => (hslc h1 h2).2.2.2) (fun h1 => absurd h1 hm)
  have e : layout_gap_hdr ui vi lnum inbuf len
      = vid_hdr_set_crc (vid_hdr_fields ui vi lnum 0 inbuf len) := by
    unfold layout_gap_hdr
    rw [if_neg hm]
  rw [e] at hslice
  obtain ⟨d1, d2⟩ := vid_hdr_static_decode ui vi lnum 0 inbuf len htype
  rw [hslice, d1, d2, be32_to_u32, be32_crc]
  refine ⟨(to_u32_of_range _ hl0 (by unfold INT_MAX at hint; omega)).2, ?_⟩
  by_cases hs : vi.mode = UBI_VID_MODE_SLC ∧ ui.max_lebs_per_peb > 1
  · obtain ⟨hmio, hcap, hinv, _⟩ := hslc hs.1 hs.2
    rw [if_pos hs, layout_slc_gather ui vi lnum inbuf outbuf len out hs h hmio hinv hl1,
      min_eq_left (by omega)]
  · rw [if_neg hs, layout_copy_slice ui vi lnum inbuf outbuf len out hm hs h]

/-- C19, amended, on `geometry_paired`: for the static SLC-emulated volume and a
payload of 300 bytes, which fits the 384 bytes of the group-0 pairs, the stored
`data_size` is 300 and the stored `data_crc` is the CRC-32 of the first 300 bytes
gathered from the group-0 write-units. -/
theorem layout_static_crc_round_trip_witness :
    ∃ out, ubigen_layout_vid_and_data geometry_paired
        (volume_paired UBI_VID_MODE_SLC UBI_VID_STATIC) 5 (sample_payload 300)
        (List.replicate 1024 9) 300 = .ok out ∧
      (be32_to_cpu (ubi_vid_hdr.of_bytes (buf_slice out 64 64)).data_size : Int) = 300 ∧
      be32_to_cpu (ubi_vid_hdr.of_bytes (buf_slice out 64 64)).data_crc
        = mtd_crc32 UBI_CRC32_INIT ((slc_gather geometry_paired out).take 300) :=
  have hlen : (sample_payload 300).length = 300 := sample_payload_length 300
  have hrep : (List.replicate 1024 9).length = 1024 := List.length_replicate _ _
  match layout_ok geometry_paired (volume_paired UBI_VID_MODE_SLC UBI_VID_STATIC) 5
      (sample_payload 300) (List.replicate 1024 9) 300 (by decide) (by decide) (by decide)
      (by rw [hrep]; decide) (by decide) (by rw [hlen]; decide)
      (fun h => absurd ⟨rfl, by decide⟩ h)
      (fun _ _ => ⟨by decide, by decide, fun q hq1 hq2 => (geometry_paired_units q hq1 hq2).2⟩)
      (fun h => absurd h (by decide)) with
  | ⟨out, h⟩ =>
    have R := layout_static_crc_round_trip geometry_paired
      (volume_paired UBI_VID_MODE_SLC UBI_VID_STATIC) 5 (sample_payload 300)
      (List.replicate 1024 9) 300 out rfl (Or.inr rfl) h (by decide) (by decide)
      (fun _ _ => ⟨by decide, by decide, geometry_paired_inverse,
        fun q hq1 hq2 => (geometry_paired_units q hq1 hq2).1⟩)
    ⟨out, h, R.1, by
      have := R.2
      rw [if_pos ⟨rfl, by decide⟩] at this
      exact this⟩

/-! ## Volume images -/

theorem take_eq_of_getElem? {α : Type} (a b : List α) (n : Nat)
    (h : ∀ i, i < n → a[i]? = b[i]?) : a.take n = b.take n := by
  apply List.ext_getElem?
  intro i
  by_cases hi : i < n
  · rw [List.getElem?_take_of_lt hi, List.getElem?_take_of_lt hi]
    exact h i hi
  · rw [List.getElem?_take_eq_none (by omega), List.getElem?_take_eq_none (by omega)]

/-- The layout keeps the length of the block buffer and its first 64 bytes, when no
step of it reaches below offset 64. -/
theorem layout_keeps_head (ui : ubigen_info) (vi : ubigen_vol_info) (lnum : Int)
    (inbuf outbuf : List Nat) (len : Int) (out : List Nat)
    (h : ubigen_layout_vid_and_data ui vi lnum inbuf outbuf len = .ok out)
    (hvid : 64 ≤ ui.vid_hdr_offs) (hdo : 64 ≤ ui.data_offs)
    (hslc : vi.mode = UBI_VID_MODE_SLC → ui.max_lebs_per_peb > 1 →
      ∀ q : Int, slc_first_pair ui ≤ q → q < slc_npairs ui →
        64 ≤ mtd_pairing_info_to_wunit ui.mtd { pair := q, group := 0 } * ui.min_io_size)
    (hmlc : vi.mode = UBI_VID_MODE_MLC_SAFE →
      64 ≤ ui.data_offs + ui.slc_leb_size * ui.max_lebs_per_peb ∧
      64 ≤ ui.peb_size - ui.min_io_size) :
    out.length = outbuf.length ∧ out.take 64 = outbuf.take 64 := by
  obtain ⟨hl, b1, b2, h1, h2, hf⟩ :=
    layout_below ui vi lnum inbuf outbuf len out h 64 hdo hslc hmlc
  refine ⟨hl, take_eq_of_getElem? _ _ _ (fun i hi => ?_)⟩
  rw [hf i (by omega), buf_write_below _ _ _ _ h2 i (by omega),
    buf_memset_below _ _ _ _ _ h1 i (by omega)]

theorem malloc_bytes_length (garbage : List Nat) (n : Nat) :
    (malloc_bytes garbage n).length = n := by
  unfold malloc_bytes
  rw [List.length_take, List.length_append, List.length_replicate]
  omega

theorem buf_write_zero_take (buf bs out : List Nat) (h : buf_write buf 0 bs = .ok out) :
    out.take bs.length = bs := by
  obtain ⟨_, _, rfl⟩ := (buf_write_eq_ok _ _ _ _).1 h
  simp

theorem write_volume_loop_zero (ui : ubigen_info) (vi : ubigen_vol_info) (fuel : Nat)
    (len lnum : Int) (inbuf outbuf : List Nat) (src : in_file) (dst : out_file) :
    write_volume_loop ui vi (fuel + 1) 0 len lnum inbuf outbuf src dst
      = some (.ok (0, src, dst)) := by
  rw [write_volume_loop, if_pos rfl]

/-- One round of the block loop of `ubigen_write_volume` when at least a full block
of input is left, the layout completes and the sink has room. -/
theorem write_volume_loop_step (ui : ubigen_info) (vi : ubigen_vol_info) (fuel : Nat)
    (bytes len lnum : Int) (inbuf outbuf inbuf1 outbuf1 : List Nat) (src : in_file)
    (dst : out_file)
    (hlen : 0 < len) (hb : len ≤ bytes) (hsrc : len ≤ src.data.length)
    (hin : buf_write inbuf 0 (src.data.take len.toNat) = .ok inbuf1)
    (hlay : ubigen_layout_vid_and_data ui vi lnum inbuf1 outbuf len = .ok outbuf1)
    (hpeb : 0 ≤ ui.peb_size) (hout : outbuf1.length = ui.peb_size.toNat)
    (hroom : ui.peb_size.toNat ≤ dst.room) :
    write_volume_loop ui vi (fuel + 1) bytes len lnum inbuf outbuf src dst
      = write_volume_loop ui vi fuel (bytes - len) len (lnum + ui.max_lebs_per_peb)
          inbuf1 outbuf1 { data := src.data.drop len.toNat }
          { writes := dst.writes ++ [outbuf1], room := dst.room - ui.peb_size.toNat } := by
  have hb0 : bytes ≠ 0 := by omega
  have hl : (if bytes < len then bytes else len) = len := by
    rw [if_neg (by omega)]
  have htl : (src.data.take len.toNat).length = len.toNat := by
    rw [List.length_take]
    omega
  have hr : sys_read src len
      = (len, src.data.take len.toNat, { data := src.data.drop len.toNat }) := by
    unfold sys_read
    rw [if_neg (by omega), htl]
    congr 1
    omega
  have ht1 : outbuf1.take ui.peb_size.toNat = outbuf1 :=
    List.take_of_length_le (by omega)
  have hw : sys_write dst outbuf1
      = (ui.peb_size, { writes := dst.writes ++ [outbuf1],
                        room := dst.room - ui.peb_size.toNat }) := by
    unfold sys_write
    have ht2 : outbuf1.take dst.room = outbuf1 := List.take_of_length_le (by omega)
    rw [ht2, hout]
    congr 1
    omega
  rw [write_volume_loop, if_neg hb0]
  simp only [hl, hr, sub_self, ne_eq, not_true_eq_false, if_false, hin, hlay, ht1, hw]

/-- The block loop of `ubigen_write_volume` on an input of exactly `N` blocks of `L`
bytes: it ends with 0 after appending `N` blocks to the sink, block `k` being the
layout of the `k`-th chunk with block number `lnum + k * max_lebs_per_peb`. -/
theorem write_volume_loop_blocks (ui : ubigen_info) (vi : ubigen_vol_info) (L : Int)
    (E : List Nat) (hL : 0 < L) (hLP : L ≤ ui.peb_size)
    (hlay : ∀ (lnum : Int) (inb outb : List Nat), inb.length = ui.peb_size.toNat →
      outb.length = ui.peb_size.toNat →
      ∃ b, ubigen_layout_vid_and_data ui vi lnum inb outb L = .ok b)
    (hfr : ∀ (lnum : Int) (inb outb b : List Nat),
      ubigen_layout_vid_and_data ui vi lnum inb outb L = .ok b →
      b.length = outb.length ∧ b.take 64 = outb.take 64) :
    ∀ (N fuel : Nat) (lnum : Int) (inbuf outbuf : List Nat) (src : in_file) (dst : out_file),
    N < fuel → inbuf.length = ui.peb_size.toNat → outbuf.length = ui.peb_size.toNat →
    outbuf.take 64 = E → src.data.length = N * L.toNat → N * ui.peb_size.toNat ≤ dst.room →
    ∃ blocks : List (List Nat),
      write_volume_loop ui vi fuel (N * L) L lnum inbuf outbuf src dst
        = some (.ok (0, { data := [] },
            { writes := dst.writes ++ blocks, room := dst.room - N * ui.peb_size.toNat })) ∧
      blocks.length = N ∧
      ∀ k : Nat, k < N → ∃ inb outb b,
        inb.take L.toNat = (src.data.drop (k * L.toNat)).take L.toNat ∧
        ubigen_layout_vid_and_data ui vi (lnum + k * ui.max_lebs_per_peb) inb outb L = .ok b ∧
        blocks[k]? = some b ∧ b.length = ui.peb_size.toNat ∧ b.take 64 = E := by
  have hLn : (L.toNat : Int) = L := by omega
  intro N
  induction N with
  | zero =>
    intro fuel lnum inbuf outbuf src dst hf _ _ _ hsrc _
    obtain ⟨f, rfl⟩ : ∃ f, fuel = f + 1 := ⟨fuel - 1, by omega⟩
    refine ⟨[], ?_, rfl, fun k hk => absurd hk (by omega)⟩
    have hs : src = { data := [] } := by
      cases src with
      | mk d =>
        have : d = [] := List.eq_nil_of_length_eq_zero (by simpa using hsrc)
        rw [this]
    have hd : ({ writes := dst.writes ++ [], room := dst.room - 0 * ui.peb_size.toNat }
        : out_file) = dst := by
      cases dst
      simp
    rw [hd, ← hs]
    have : ((0 : Nat) : Int) * L = 0 := by simp
    rw [this]
    exact write_volume_loop_zero ..
  | succ N ih =>
    intro fuel lnum inbuf outbuf src dst hf hin hout hE hsrc hroom
    obtain ⟨f, rfl⟩ : ∃ f, fuel = f + 1 := ⟨fuel - 1, by omega⟩
    have hmul : (N + 1) * L.toNat = N * L.toNat + L.toNat := by ring
    have hmulP : (N + 1) * ui.peb_size.toNat = N * ui.peb_size.toNat + ui.peb_size.toNat := by
      ring
    have hNL : (0 : Int) ≤ (N : Int) * L := by positivity
    have hsl : L ≤ src.data.length := by omega
    have htl : (src.data.take L.toNat).length = L.toNat := by
      rw [List.length_take]
      omega
    obtain ⟨inbuf1, hw1, hl1⟩ := buf_write_ok inbuf 0 (src.data.take L.toNat) (le_refl _)
      (by rw [htl]; omega)
    obtain ⟨b, hb⟩ := hlay lnum inbuf1 outbuf (by rw [hl1, hin]) hout
    obtain ⟨hbl, hbt⟩ := hfr lnum inbuf1 outbuf b hb
    have hstep := write_volume_loop_step ui vi f (((N + 1 : Nat) : Int) * L) L lnum inbuf
      outbuf inbuf1 b src dst hL (by push_cast; nlinarith) hsl hw1 hb (by omega)
      (by rw [hbl, hout]) (by omega)
    have hbytes : ((N + 1 : Nat) : Int) * L - L = (N : Int) * L := by
      push_cast
      ring
    rw [hbytes] at hstep
    obtain ⟨blocks, hrun, hlen, hk⟩ := ih f (lnum + ui.max_lebs_per_peb) inbuf1 b
      { data := src.data.drop L.toNat }
      { writes := dst.writes ++ [b], room := dst.room - ui.peb_size.toNat }
      (by omega) (by rw [hl1, hin]) (by rw [hbl, hout]) (by rw [hbt, hE])
      (by
        show (src.data.drop L.toNat).length = N * L.toNat
        rw [List.length_drop]
        omega)
      (by
        show N * ui.peb_size.toNat ≤ dst.room - ui.peb_size.toNat
        omega)
    refine ⟨b :: blocks, ?_, by simp [hlen], fun k hkN => ?_⟩
    · rw [hstep, hrun]
      have e1 : dst.writes ++ [b] ++ blocks = dst.writes ++ b :: blocks := by simp
      have e2 : dst.room - ui.peb_size.toNat - N * ui.peb_size.toNat
          = dst.room - (N + 1) * ui.peb_size.toNat := by omega
      show some (Except.ok ((0 : Int), ({ data := [] } : in_file),
        ({ writes := dst.writes ++ [b] ++ blocks,
           room := dst.room - ui.peb_size.toNat - N * ui.peb_size.toNat } : out_file))) = _
      rw [e1, e2]
    · cases k with
      | zero =>
        refine ⟨inbuf1, outbuf, b, ?_, ?_, by simp, by rw [hbl, hout], by rw [hbt, hE]⟩
        · have := buf_write_zero_take _ _ _ hw1
          rw [htl] at this
          rw [this]
          simp
        · have : lnum + ((0 : Nat) : Int) * ui.max_lebs_per_peb = lnum := by simp
          rw [this]
          exact hb
      | succ k =>
        obtain ⟨inb, outb, b', h1, h2, h3, h4, h5⟩ := hk k (by omega)
        refine ⟨inb, outb, b', ?_, ?_, ?_, h4, h5⟩
        · rw [h1]
          show ((src.data.drop L.toNat).drop (k * L.toNat)).take L.toNat = _
          rw [List.drop_drop]
          congr 2
          ring
        · have : lnum + ((k + 1 : Nat) : Int) * ui.max_lebs_per_peb
              = lnum + ui.max_lebs_per_peb + (k : Int) * ui.max_lebs_per_peb := by
            push_cast
            ring
          rw [this]
          exact h2
        · simpa using h3

theorem ec_hdr_bytes_length (ui : ubigen_info) (ec : Int) :
    (ec_hdr_set_crc (ec_hdr_fields ui ec)).to_bytes.length = 64 :=
  ec_set_crc_to_bytes_length _ (ec_hdr_fields_head_length ui ec)

/-- The preamble of `ubigen_write_volume` for a volume that passes its checks: the
two buffers are allocated, the block buffer is stamped with the erase-counter header,
and the block loop starts at block number 0. -/
theorem write_volume_start (fuel : Nat) (ui : ubigen_info) (vi : ubigen_vol_info)
    (ec bytes : Int) (garbage_in garbage_out : List Nat) (src : in_file) (dst : out_file)
    (hid : vi.id < ui.max_volumes) (halign : vi.alignment < ui.leb_size)
    (hdo : 64 ≤ ui.data_offs) (hdp : ui.data_offs ≤ ui.peb_size) :
    ∃ outbuf : List Nat, outbuf.length = ui.peb_size.toNat ∧
      outbuf.take 64 = (ec_hdr_set_crc (ec_hdr_fields ui ec)).to_bytes ∧
      ubigen_write_volume fuel ui vi ec bytes garbage_in garbage_out src dst
        = write_volume_loop ui vi fuel bytes (write_volume_len ui vi) 0
            (malloc_bytes garbage_in ui.peb_size.toNat) outbuf src dst := by
  have hm := malloc_bytes_length garbage_out ui.peb_size.toNat
  obtain ⟨o1, h1, e1⟩ := buf_memset_ok (malloc_bytes garbage_out ui.peb_size.toNat) 0 255
    ui.data_offs (le_refl _) (by omega) (by omega)
  obtain ⟨o2, h2, e2⟩ := buf_write_ok o1 0 (ec_hdr_set_crc (ec_hdr_fields ui ec)).to_bytes
    (le_refl _) (by rw [ec_hdr_bytes_length]; omega)
  have h2' : buf_init_ec_hdr ui o1 0 ec = .ok o2 := h2
  refine ⟨o2, by omega, ?_, ?_⟩
  · have := buf_write_zero_take _ _ _ h2
    rw [ec_hdr_bytes_length] at this
    exact this
  · unfold ubigen_write_volume
    rw [if_neg (by omega), if_neg (by omega), if_neg (by omega)]
    simp only [h1, h2']
    rfl

/-- C20: for every geometry and volume that pass the checks of `ubigen_write_volume`
(`id < max_volumes`, `alignment < leb_size`) and whose block layout is well formed
(the block payload size `L` = `usable_leb_size`, times `max_lebs_per_peb` in MLC-safe
mode, is positive and at most `peb_size`; the headers start at or after offset 64; no
step of the layout reaches below offset 64; the layout of `L` bytes completes on
buffers of `peb_size` bytes): when the input source holds exactly `N * L` bytes,
`bytes` = `N * L` and the sink has room for `N` blocks, `ubigen_write_volume` returns
0 (for every fuel above `N`), consumes the whole input and emits exactly `N` blocks of
`peb_size` bytes.  Block `k` begins with the erase-counter header for `ec`, whose
checksum is valid, and is the block `ubigen_layout_vid_and_data` composes for the
`k`-th `L`-byte chunk of the input with logical-block number `k * max_lebs_per_peb`. -/
theorem write_volume_emits_blocks (ui : ubigen_info) (vi : ubigen_vol_info) (ec : Int)
    (N : Nat) (garbage_in garbage_out : List Nat) (src : in_file) (dst : out_file)
    (prev : ubi_ec_hdr)
    (hid : vi.id < ui.max_volumes) (halign : vi.alignment < ui.leb_size)
    (hL : 0 < write_volume_len ui vi) (hLP : write_volume_len ui vi ≤ ui.peb_size)
    (hsrc : src.data.length = N * (write_volume_len ui vi).toNat)
    (hroom : N * ui.peb_size.toNat ≤ dst.room)
    (hvid : 64 ≤ ui.vid_hdr_offs) (hdo : 64 ≤ ui.data_offs)
    (hdp : ui.data_offs ≤ ui.peb_size)
    (hslc : vi.mode = UBI_VID_MODE_SLC → ui.max_lebs_per_peb > 1 →
      ∀ q : Int, slc_first_pair ui ≤ q → q < slc_npairs ui →
        64 ≤ mtd_pairing_info_to_wunit ui.mtd { pair := q, group := 0 } * ui.min_io_size)
    (hmlc : vi.mode = UBI_VID_MODE_MLC_SAFE →
      64 ≤ ui.data_offs + ui.slc_leb_size * ui.max_lebs_per_peb ∧
      64 ≤ ui.peb_size - ui.min_io_size)
    (hlay : ∀ (lnum : Int) (inb outb : List Nat), inb.length = ui.peb_size.toNat →
      outb.length = ui.peb_size.toNat →
      ∃ b, ubigen_layout_vid_and_data ui vi lnum inb outb (write_volume_len ui vi) = .ok b) :
    ∀ fuel : Nat, N < fuel → ∃ blocks : List (List Nat),
      ubigen_write_volume fuel ui vi ec (N * write_volume_len ui vi) garbage_in garbage_out
          src dst
        = some (.ok (0, { data := [] },
            { writes := dst.writes ++ blocks, room := dst.room - N * ui.peb_size.toNat })) ∧
      blocks.length = N ∧
      ec_hdr_crc_valid (ubigen_init_ec_hdr ui prev ec) ∧
      ∀ k : Nat, k < N → ∃ inb outb b,
        inb.take (write_volume_len ui vi).toNat
          = (src.data.drop (k * (write_volume_len ui vi).toNat)).take
              (write_volume_len ui vi).toNat ∧
        ubigen_layout_vid_and_data ui vi (k * ui.max_lebs_per_peb) inb outb
          (write_volume_len ui vi) = .ok b ∧
        blocks[k]? = some b ∧ (b.length : Int) = ui.peb_size ∧
        b.take 64 = (ubigen_init_ec_hdr ui prev ec).to_bytes := by
  intro fuel hf
  obtain ⟨outbuf, ho1, ho2, hstart⟩ := write_volume_start fuel ui vi ec
    (N * write_volume_len ui vi) garbage_in garbage_out src dst hid halign hdo hdp
  obtain ⟨blocks, hrun, hlen, hk⟩ := write_volume_loop_blocks ui vi (write_volume_len ui vi)
    (ec_hdr_set_crc (ec_hdr_fields ui ec)).to_bytes hL hLP hlay
    (fun lnum inb outb b h => layout_keeps_head ui vi lnum inb outb _ b h hvid hdo hslc hmlc)
    N fuel 0 (malloc_bytes garbage_in ui.peb_size.toNat) outbuf src dst hf
    (malloc_bytes_length _ _) ho1 ho2 hsrc hroom
  refine ⟨blocks, by rw [hstart, hrun], hlen,
    ec_set_crc_valid _ (ec_hdr_fields_head_length ui ec), fun k hkN => ?_⟩
  obtain ⟨inb, outb, b, h1, h2, h3, h4, h5⟩ := hk k hkN
  rw [zero_add] at h2
  exact ⟨inb, outb, b, h1, h2, h3, by rw [h4]; omega, h5⟩

/-- C20 on `geometry_paired` and the SLC-emulated dynamic volume, whose block payload
size is 384: for an input of 2 * 384 bytes, erase count 3 and a sink with room for
4096 bytes, `ubigen_write_volume` returns 0 with fuel 3, consumes the input and emits
two blocks, each starting with the erase-counter header. -/
theorem write_volume_emits_blocks_witness :
    ∃ blocks : List (List Nat),
      ubigen_write_volume 3 geometry_paired (volume_paired UBI_VID_MODE_SLC UBI_VID_DYNAMIC)
          3 768 [] [] { data := sample_payload 768 } { writes := [], room := 4096 }
        = some (.ok (0, { data := [] }, { writes := blocks, room := 2048 })) ∧
      blocks.length = 2 ∧
      ∀ k : Nat, k < 2 → ∃ b, blocks[k]? = some b ∧ (b.length : Int) = 1024 ∧
        b.take 64 = (ubigen_init_ec_hdr geometry_paired zero_ec_hdr 3).to_bytes :=
  have hsrc : ({ data := sample_payload 768 } : in_file).data.length
      = 2 * (write_volume_len geometry_paired
          (volume_paired UBI_VID_MODE_SLC UBI_VID_DYNAMIC)).toNat := by
    have e : write_volume_len geometry_paired (volume_paired UBI_VID_MODE_SLC UBI_VID_DYNAMIC)
        = 384 := by decide
    have e2 : (384 : Int).toNat = 384 := rfl
    rw [e, e2]
    dsimp only
    rw [sample_payload_length]
  match write_volume_emits_blocks geometry_paired
      (volume_paired UBI_VID_MODE_SLC UBI_VID_DYNAMIC) 3 2 [] []
      { data := sample_payload 768 } { writes := [], room := 4096 } zero_ec_hdr
      (by decide) (by decide) (by decide) (by decide)
      hsrc (by decide) (by decide) (by decide)
      (by decide)
      (fun _ _ q hq1 hq2 => by
        have := (geometry_paired_units q hq1 hq2).1
        have e : geometry_paired.data_offs = 128 := rfl
        rw [e] at this
        omega)
      (fun h => absurd h (by decide))
      (fun lnum inb outb hi ho =>
        layout_ok geometry_paired (volume_paired UBI_VID_MODE_SLC UBI_VID_DYNAMIC) lnum inb
          outb _ (by decide) (by decide) (by decide)
          (by rw [ho]; decide) (by decide) (by rw [hi]; decide)
          (fun h => absurd ⟨rfl, by decide⟩ h)
          (fun _ _ => ⟨by decide, by decide,
            fun q hq1 hq2 => (geometry_paired_units q hq1 hq2).2⟩)
          (fun h => absurd h (by decide)))
      3 (by decide) with
  | ⟨blocks, h1, h2, _, h4⟩ =>
    ⟨blocks, by
      rw [List.nil_append] at h1
      exact h1, h2, fun k hk =>
      match h4 k hk with
      | ⟨_, _, b, _, _, h7, h8, h9⟩ => ⟨b, h7, h8, h9⟩⟩

/-! ## Inputs the validation lets through, and short input -/

/-- C24, evaluated on `geometry_128k` (`leb_size` 126976 > 0), the empty table and
`volume_align_zero`: the descriptor passes both checks of `ubigen_add_volume`
(0 <= id 0 < 128 and alignment 0 < 126976), and the call then divides by zero in
`ui->leb_size % vi->alignment`. -/
theorem add_volume_alignment_zero_divides_by_zero :
    0 < geometry_128k.leb_size ∧
    0 ≤ volume_align_zero.id ∧ volume_align_zero.id < geometry_128k.max_volumes ∧
    volume_align_zero.alignment < geometry_128k.leb_size ∧
    ubigen_add_volume lebs_to_pebs_one_to_one geometry_128k volume_align_zero empty_vtbl_128
      = .error .div_by_zero := by
  refine ⟨by decide, by decide, by decide, by decide, ?_⟩
  decide!

/-- C25, evaluated on `geometry_128k` and the empty table of 128 records: for the
identifier -1 (`volume_negative_id`) the check `id >= max_volumes` lets the call
through and the record is addressed outside the table, instead of the call returning
-1; for a name length of 128 (`volume_long_name`) the terminator is stored outside
the 128-byte name field. -/
theorem add_volume_negative_id_not_rejected :
    ¬ (volume_negative_id.id ≥ geometry_128k.max_volumes) ∧
    ubigen_add_volume lebs_to_pebs_one_to_one geometry_128k volume_negative_id empty_vtbl_128
      = .error .out_of_bounds ∧
    (UBI_VOL_NAME_MAX < volume_long_name.name_len ∧
     ubigen_add_volume lebs_to_pebs_one_to_one geometry_128k volume_long_name empty_vtbl_128
      = .error .out_of_bounds) := by
  refine ⟨by decide, ?_, by decide, ?_⟩ <;> decide!

/-- One round of the block loop of `ubigen_write_volume` with a block payload size of
0: nothing is read, a block is laid out and written, and the byte count is left as it
was. -/
theorem write_volume_loop_step_zero (ui : ubigen_info) (vi : ubigen_vol_info) (fuel : Nat)
    (bytes lnum : Int) (inbuf outbuf outbuf1 : List Nat) (src : in_file) (dst : out_file)
    (hb : 0 < bytes)
    (hlay : ubigen_layout_vid_and_data ui vi lnum inbuf outbuf 0 = .ok outbuf1)
    (hpeb : 0 ≤ ui.peb_size) (hout : outbuf1.length = ui.peb_size.toNat)
    (hroom : ui.peb_size.toNat ≤ dst.room) :
    write_volume_loop ui vi (fuel + 1) bytes 0 lnum inbuf outbuf src dst
      = write_volume_loop ui vi fuel bytes 0 (lnum + ui.max_lebs_per_peb)
          inbuf outbuf1 src
          { writes := dst.writes ++ [outbuf1], room := dst.room - ui.peb_size.toNat } := by
  have hb0 : bytes ≠ 0 := by omega
  have hl : (if bytes < 0 then bytes else (0 : Int)) = 0 := by
    rw [if_neg (by omega)]
  have hr : sys_read src 0 = (0, [], src) := by
    unfold sys_read
    rw [if_neg (by omega)]
    rfl
  have hin : buf_write inbuf 0 [] = .ok inbuf := by
    rw [buf_write_eq_ok]
    refine ⟨le_refl _, by simp, ?_⟩
    simp
  have ht1 : outbuf1.take ui.peb_size.toNat = outbuf1 :=
    List.take_of_length_le (by omega)
  have hw : sys_write dst outbuf1
      = (ui.peb_size, { writes := dst.writes ++ [outbuf1],
                        room := dst.room - ui.peb_size.toNat }) := by
    unfold sys_write
    have ht2 : outbuf1.take dst.room = outbuf1 := List.take_of_length_le (by omega)
    rw [ht2, hout]
    congr 1
    omega
  rw [write_volume_loop, if_neg hb0]
  simp only [hl, hr, sub_self, sub_zero, ne_eq, not_true_eq_false, if_false, hin, hlay, ht1, hw]

/-- With a block payload size of 0 the block loop of `ubigen_write_volume` is still
running after any number of rounds, as long as the sink accepts one block per
round. -/
theorem write_volume_loop_zero_len (ui : ubigen_info) (vi : ubigen_vol_info)
    (hpeb : 0 ≤ ui.peb_size)
    (hlay : ∀ (lnum : Int) (inb outb : List Nat), inb.length = ui.peb_size.toNat →
      outb.length = ui.peb_size.toNat →
      ∃ b, ubigen_layout_vid_and_data ui vi lnum inb outb 0 = .ok b ∧
        b.length = ui.peb_size.toNat) :
    ∀ (fuel : Nat) (bytes lnum : Int) (inbuf outbuf : List Nat) (src : in_file)
      (dst : out_file),
    0 < bytes → inbuf.length = ui.peb_size.toNat → outbuf.length = ui.peb_size.toNat →
    fuel * ui.peb_size.toNat ≤ dst.room →
    write_volume_loop ui vi fuel bytes 0 lnum inbuf outbuf src dst = none := by
  intro fuel
  induction fuel with
  | zero =>
    intro bytes lnum inbuf outbuf src dst _ _ _ _
    rw [write_volume_loop]
  | succ f ih =>
    intro bytes lnum inbuf outbuf src dst hb hin hout hroom
    have hmul : (f + 1) * ui.peb_size.toNat = f * ui.peb_size.toNat + ui.peb_size.toNat := by
      ring
    obtain ⟨b, hl, hbl⟩ := hlay lnum inbuf outbuf hin hout
    rw [write_volume_loop_step_zero ui vi f bytes lnum inbuf outbuf b src dst hb hl hpeb hbl
      (by omega)]
    exact ih bytes _ inbuf b src _ hb hin hbl (by
      show f * ui.peb_size.toNat ≤ dst.room - ui.peb_size.toNat
      omega)

/-- C26, evaluated on `geometry_128k` and `volume_zero_leb`, which pass the checks of
`ubigen_write_volume` (id 0 < 128, alignment 1 < 126976) and give a block payload size
of 0: for a total of 1 byte, whatever the input source holds and however many rounds
`fuel` the block loop is granted, with a sink that has room for `fuel` blocks the call
has not returned when the rounds are used up.  Every round writes a block and leaves
the remaining byte count at 1. -/
theorem write_volume_zero_block_size_never_returns :
    ∀ (fuel : Nat) (src : in_file),
      ubigen_write_volume fuel geometry_128k volume_zero_leb 0 1 [] [] src
        { writes := [], room := fuel * 131072 } = none := by
  intro fuel src
  obtain ⟨outbuf, ho1, _, hstart⟩ := write_volume_start fuel geometry_128k volume_zero_leb 0 1
    [] [] src { writes := [], room := fuel * 131072 } (by decide) (by decide) (by decide)
    (by decide)
  have e : write_volume_len geometry_128k volume_zero_leb = 0 := by decide
  have ep : geometry_128k.peb_size.toNat = 131072 := rfl
  rw [hstart, e]
  refine write_volume_loop_zero_len geometry_128k volume_zero_leb (by decide)
    (fun lnum inb outb hi ho => ?_) fuel 1 0 _ outbuf src _ (by decide)
    (malloc_bytes_length _ _) ho1 (by rw [ep])
  obtain ⟨b, hb⟩ := layout_ok geometry_128k volume_zero_leb lnum inb outb 0 (by decide)
    (by decide) (by decide) (by rw [ho, ep]; decide) (le_refl _) (by omega)
    (fun _ => by decide) (fun h => absurd h (by decide)) (fun h => absurd h (by decide))
  exact ⟨b, hb, by
    rw [(layout_keeps_head geometry_128k volume_zero_leb lnum inb outb 0 b hb (by decide)
      (by decide) (fun h => absurd h (by decide)) (fun h => absurd h (by decide))).1, ho]⟩

/-- The first `M` rounds of the block loop of `ubigen_write_volume` when the input
holds at least `M` chunks of `L` bytes: `M` blocks are appended to the sink, block `k`
being the layout of the `k`-th chunk with block number `lnum + k * max_lebs_per_peb`,
and the loop goes on with the bytes that are left. -/
theorem write_volume_loop_rounds (ui : ubigen_info) (vi : ubigen_vol_info) (L : Int)
    (E : List Nat) (hL : 0 < L) (hLP : L ≤ ui.peb_size)
    (hlay : ∀ (lnum : Int) (inb outb : List Nat), inb.length = ui.peb_size.toNat →
      outb.length = ui.peb_size.toNat →
      ∃ b, ubigen_layout_vid_and_data ui vi lnum inb outb L = .ok b)
    (hfr : ∀ (lnum : Int) (inb outb b : List Nat),
      ubigen_layout_vid_and_data ui vi lnum inb outb L = .ok b →
      b.length = outb.length ∧ b.take 64 = outb.take 64) :
    ∀ (M fuel : Nat) (rest lnum : Int) (inbuf outbuf : List Nat) (src : in_file)
      (dst : out_file),
    0 ≤ rest → inbuf.length = ui.peb_size.toNat → outbuf.length = ui.peb_size.toNat →
    outbuf.take 64 = E → M * L.toNat ≤ src.data.length → M * ui.peb_size.toNat ≤ dst.room →
    ∃ (blocks : List (List Nat)) (inbM outM : List Nat),
      write_volume_loop ui vi (fuel + M) (M * L + rest) L lnum inbuf outbuf src dst
        = write_volume_loop ui vi fuel rest L (lnum + M * ui.max_lebs_per_peb) inbM outM
            { data := src.data.drop (M * L.toNat) }
            { writes := dst.writes ++ blocks, room := dst.room - M * ui.peb_size.toNat } ∧
      inbM.length = ui.peb_size.toNat ∧ outM.length = ui.peb_size.toNat ∧
      outM.take 64 = E ∧ blocks.length = M ∧
      ∀ k : Nat, k < M → ∃ inb outb b,
        inb.take L.toNat = (src.data.drop (k * L.toNat)).take L.toNat ∧
        ubigen_layout_vid_and_data ui vi (lnum + k * ui.max_lebs_per_peb) inb outb L = .ok b ∧
        blocks[k]? = some b ∧ b.length = ui.peb_size.toNat ∧ b.take 64 = E := by
  have hLn : (L.toNat : Int) = L := by omega
  intro M
  induction M with
  | zero =>
    intro fuel rest lnum inbuf outbuf src dst _ hin hout hE _ _
    refine ⟨[], inbuf, outbuf, ?_, hin, hout, hE, rfl, fun k hk => absurd hk (by omega)⟩
    have e1 : ((0 : Nat) : Int) * L + rest = rest := by simp
    have e2 : lnum + ((0 : Nat) : Int) * ui.max_lebs_per_peb = lnum := by simp
    have e3 : ({ data := src.data.drop (0 * L.toNat) } : in_file) = src := by
      cases src
      simp
    have e4 : ({ writes := dst.writes ++ [], room := dst.room - 0 * ui.peb_size.toNat }
        : out_file) = dst := by
      cases dst
      simp
    rw [e1, e2, e3, e4]
    rfl
  | succ M ih =>
    intro fuel rest lnum inbuf outbuf src dst hrest hin hout hE hsrc hroom
    have hmul : (M + 1) * L.toNat = M * L.toNat + L.toNat := by ring
    have hmulP : (M + 1) * ui.peb_size.toNat = M * ui.peb_size.toNat + ui.peb_size.toNat := by
      ring
    have hML : (0 : Int) ≤ (M : Int) * L := by positivity
    have hsl : L ≤ src.data.length := by omega
    have htl : (src.data.take L.toNat).length = L.toNat := by
      rw [List.length_take]
      omega
    obtain ⟨inbuf1, hw1, hl1⟩ := buf_write_ok inbuf 0 (src.data.take L.toNat) (le_refl _)
      (by rw [htl]; omega)
    obtain ⟨b, hb⟩ := hlay lnum inbuf1 outbuf (by rw [hl1, hin]) hout
    obtain ⟨hbl, hbt⟩ := hfr lnum inbuf1 outbuf b hb
    have hstep := write_volume_loop_step ui vi (fuel + M) (((M + 1 : Nat) : Int) * L + rest) L
      lnum inbuf outbuf inbuf1 b src dst hL (by push_cast; nlinarith) hsl hw1 hb (by omega)
      (by rw [hbl, hout]) (by omega)
    have hbytes : ((M + 1 : Nat) : Int) * L + rest - L = (M : Int) * L + rest := by
      push_cast
      ring
    rw [hbytes] at hstep
    obtain ⟨blocks, inbM, outM, hrun, hiM, hoM, hEM, hlen, hk⟩ := ih fuel rest
      (lnum + ui.max_lebs_per_peb) inbuf1 b
      { data := src.data.drop L.toNat }
      { writes := dst.writes ++ [b], room := dst.room - ui.peb_size.toNat }
      hrest (by rw [hl1, hin]) (by rw [hbl, hout]) (by rw [hbt, hE])
      (by
        show M * L.toNat ≤ (src.data.drop L.toNat).length
        rw [List.length_drop]
        omega)
      (by
        show M * ui.peb_size.toNat ≤ dst.room - ui.peb_size.toNat
        omega)
    refine ⟨b :: blocks, inbM, outM, ?_, hiM, hoM, hEM, by simp [hlen], fun k hkN => ?_⟩
    · have ef : fuel + (M + 1) = fuel + M + 1 := by omega
      rw [ef, hstep, hrun]
      have e1 : dst.writes ++ [b] ++ blocks = dst.writes ++ b :: blocks := by simp
      have e2 : dst.room - ui.peb_size.toNat - M * ui.peb_size.toNat
          = dst.room - (M + 1) * ui.peb_size.toNat := by omega
      have e3 : (src.data.drop L.toNat).drop (M * L.toNat)
          = src.data.drop ((M + 1) * L.toNat) := by
        rw [List.drop_drop]
        congr 1
        ring
      have e4 : lnum + ui.max_lebs_per_peb + (M : Int) * ui.max_lebs_per_peb
          = lnum + ((M + 1 : Nat) : Int) * ui.max_lebs_per_peb := by
        push_cast
        ring
      show write_volume_loop ui vi fuel rest L
          (lnum + ui.max_lebs_per_peb + (M : Int) * ui.max_lebs_per_peb) inbM outM
          { data := (src.data.drop L.toNat).drop (M * L.toNat) }
          { writes := dst.writes ++ [b] ++ blocks,
            room := dst.room - ui.peb_size.toNat - M * ui.peb_size.toNat } = _
      rw [e1, e2, e3, e4]
    · cases k with
      | zero =>
        refine ⟨inbuf1, outbuf, b, ?_, ?_, by simp, by rw [hbl, hout], by rw [hbt, hE]⟩
        · have := buf_write_zero_take _ _ _ hw1
          rw [htl] at this
          rw [this]
          simp
        · have : lnum + ((0 : Nat) : Int) * ui.max_lebs_per_peb = lnum := by simp
          rw [this]
          exact hb
      | succ k =>
        obtain ⟨inb, outb, b', h1, h2, h3, h4, h5⟩ := hk k (by omega)
        refine ⟨inb, outb, b', ?_, ?_, ?_, h4, h5⟩
        · rw [h1]
          show ((src.data.drop L.toNat).drop (k * L.toNat)).take L.toNat = _
          rw [List.drop_drop]
          congr 2
          ring
        · have : lnum + ((k + 1 : Nat) : Int) * ui.max_lebs_per_peb
              = lnum + ui.max_lebs_per_peb + (k : Int) * ui.max_lebs_per_peb := by
            push_cast
            ring
          rw [this]
          exact h2
        · simpa using h3

/-- A round of the block loop of `ubigen_write_volume` whose `read` delivers fewer
bytes than the block payload size ends the call with -1 and writes nothing. -/
theorem write_volume_loop_short_read (ui : ubigen_info) (vi : ubigen_vol_info) (fuel : Nat)
    (bytes len lnum : Int) (inbuf outbuf : List Nat) (src : in_file) (dst : out_file)
    (hlen : 0 < len) (hb : len ≤ bytes) (hsrc : (src.data.length : Int) < len) :
    write_volume_loop ui vi (fuel + 1) bytes len lnum inbuf outbuf src dst
      = some (.ok (-1, { data := [] }, dst)) := by
  have hb0 : bytes ≠ 0 := by omega
  have hl : (if bytes < len then bytes else len) = len := by
    rw [if_neg (by omega)]
  have htl : (src.data.take len.toNat).length = src.data.length := by
    rw [List.length_take]
    omega
  have hd : src.data.drop len.toNat = [] := List.drop_of_length_le (by omega)
  have hr : sys_read src len
      = ((src.data.length : Int), src.data.take len.toNat, { data := [] }) := by
    unfold sys_read
    rw [if_neg (by omega), htl, hd]
  have hne : ¬ ((src.data.length : Int) = len) := by omega
  rw [write_volume_loop, if_neg hb0]
  simp only [hl, hr, ne_eq, hne, not_false_eq_true, if_true]

/-- C21: for every geometry and volume that pass the checks of `ubigen_write_volume`
and whose block layout is well formed (as for C20: the block payload size `L` is
positive and at most `peb_size`, the headers start at or after offset 64, no step of
the layout reaches below offset 64, the layout of `L` bytes completes on buffers of
`peb_size` bytes): when `bytes` = `N * L` with `N >= 1`, the input source holds one
byte less than `N * L` bytes and the sink has room for `N - 1` blocks,
`ubigen_write_volume` returns -1 (for every fuel from `N` on) and the sink has
received exactly `N - 1` blocks, each of `peb_size` bytes and each the layout of a
fully read chunk: nothing is written for the final chunk. -/
theorem write_volume_short_input (ui : ubigen_info) (vi : ubigen_vol_info) (ec : Int)
    (N : Nat) (garbage_in garbage_out : List Nat) (src : in_file) (dst : out_file)
    (prev : ubi_ec_hdr) (hN : 1 ≤ N)
    (hid : vi.id < ui.max_volumes) (halign : vi.alignment < ui.leb_size)
    (hL : 0 < write_volume_len ui vi) (hLP : write_volume_len ui vi ≤ ui.peb_size)
    (hsrc : src.data.length + 1 = N * (write_volume_len ui vi).toNat)
    (hroom : (N - 1) * ui.peb_size.toNat ≤ dst.room)
    (hvid : 64 ≤ ui.vid_hdr_offs) (hdo : 64 ≤ ui.data_offs)
    (hdp : ui.data_offs ≤ ui.peb_size)
    (hslc : vi.mode = UBI_VID_MODE_SLC → ui.max_lebs_per_peb > 1 →
      ∀ q : Int, slc_first_pair ui ≤ q → q < slc_npairs ui →
        64 ≤ mtd_pairing_info_to_wunit ui.mtd { pair := q, group := 0 } * ui.min_io_size)
    (hmlc : vi.mode = UBI_VID_MODE_MLC_SAFE →
      64 ≤ ui.data_offs + ui.slc_leb_size * ui.max_lebs_per_peb ∧
      64 ≤ ui.peb_size - ui.min_io_size)
    (hlay : ∀ (lnum : Int) (inb outb : List Nat), inb.length = ui.peb_size.toNat →
      outb.length = ui.peb_size.toNat →
      ∃ b, ubigen_layout_vid_and_data ui vi lnum inb outb (write_volume_len ui vi) = .ok b) :
    ∀ fuel : Nat, N ≤ fuel → ∃ blocks : List (List Nat),
      ubigen_write_volume fuel ui vi ec (N * write_volume_len ui vi) garbage_in garbage_out
          src dst
        = some (.ok (-1, { data := [] },
            { writes := dst.writes ++ blocks,
              room := dst.room - (N - 1) * ui.peb_size.toNat })) ∧
      blocks.length = N - 1 ∧
      ∀ k : Nat, k < N - 1 → ∃ inb outb b,
        inb.take (write_volume_len ui vi).toNat
          = (src.data.drop (k * (write_volume_len ui vi).toNat)).take
              (write_volume_len ui vi).toNat ∧
        ubigen_layout_vid_and_data ui vi (k * ui.max_lebs_per_peb) inb outb
          (write_volume_len ui vi) = .ok b ∧
        blocks[k]? = some b ∧ (b.length : Int) = ui.peb_size ∧
        b.take 64 = (ubigen_init_ec_hdr ui prev ec).to_bytes := by
  intro fuel hf
  obtain ⟨M, rfl⟩ : ∃ M, N = M + 1 := ⟨N - 1, by omega⟩
  obtain ⟨f, rfl⟩ : ∃ f, fuel = f + 1 + M := ⟨fuel - (M + 1), by omega⟩
  have hLn : ((write_volume_len ui vi).toNat : Int) = write_volume_len ui vi := by omega
  have hmul : (M + 1) * (write_volume_len ui vi).toNat
      = M * (write_volume_len ui vi).toNat + (write_volume_len ui vi).toNat := by ring
  have hM : M + 1 - 1 = M := by omega
  rw [hM] at hroom ⊢
  obtain ⟨outbuf, ho1, ho2, hstart⟩ := write_volume_start (f + 1 + M) ui vi ec
    (((M + 1 : Nat) : Int) * write_volume_len ui vi) garbage_in garbage_out src dst hid halign
    hdo hdp
  have hbytes : ((M + 1 : Nat) : Int) * write_volume_len ui vi
      = (M : Int) * write_volume_len ui vi + write_volume_len ui vi := by
    push_cast
    ring
  obtain ⟨blocks, inbM, outM, hrun, _, _, _, hlen, hk⟩ := write_volume_loop_rounds ui vi
    (write_volume_len ui vi) (ec_hdr_set_crc (ec_hdr_fields ui ec)).to_bytes hL hLP hlay
    (fun lnum inb outb b h => layout_keeps_head ui vi lnum inb outb _ b h hvid hdo hslc hmlc)
    M (f + 1) (write_volume_len ui vi) 0 (malloc_bytes garbage_in ui.peb_size.toNat) outbuf
    src dst (le_of_lt hL) (malloc_bytes_length _ _) ho1 ho2 (by omega) hroom
  refine ⟨blocks, ?_, hlen, fun k hkN => ?_⟩
  · rw [hstart, hbytes, hrun]
    exact write_volume_loop_short_read ui vi f _ _ _ inbM outM _ _ hL (le_refl _) (by
      show (((src.data.drop (M * (write_volume_len ui vi).toNat)).length : Nat) : Int)
        < write_volume_len ui vi
      rw [List.length_drop]
      omega)
  · obtain ⟨inb, outb, b, h1, h2, h3, h4, h5⟩ := hk k hkN
    rw [zero_add] at h2
    exact ⟨inb, outb, b, h1, h2, h3, by rw [h4]; omega, h5⟩

/-- C21 on `geometry_paired` and the SLC-emulated dynamic volume, whose block payload
size is 384: for a total of 2 * 384 bytes and an input of 767 bytes,
`ubigen_write_volume` returns -1 with fuel 2 and the sink has received one block of
1024 bytes. -/
theorem write_volume_short_input_witness :
    ∃ blocks : List (List Nat),
      ubigen_write_volume 2 geometry_paired (volume_paired UBI_VID_MODE_SLC UBI_VID_DYNAMIC)
          3 768 [] [] { data := sample_payload 767 } { writes := [], room := 4096 }
        = some (.ok (-1, { data := [] }, { writes := blocks, room := 3072 })) ∧
      blocks.length = 1 ∧
      ∀ k : Nat, k < 1 → ∃ b, blocks[k]? = some b ∧ (b.length : Int) = 1024 :=
  have hsrc : ({ data := sample_payload 767 } : in_file).data.length + 1
      = 2 * (write_volume_len geometry_paired
          (volume_paired UBI_VID_MODE_SLC UBI_VID_DYNAMIC)).toNat := by
    have e : write_volume_len geometry_paired (volume_paired UBI_VID_MODE_SLC UBI_VID_DYNAMIC)
        = 384 := by decide
    have e2 : (384 : Int).toNat = 384 := rfl
    rw [e, e2]
    dsimp only
    rw [sample_payload_length]
  match write_volume_short_input geometry_paired
      (volume_paired UBI_VID_MODE_SLC UBI_VID_DYNAMIC) 3 2 [] []
      { data := sample_payload 767 } { writes := [], room := 4096 } zero_ec_hdr
      (by decide) (by decide) (by decide) (by decide) (by decide)
      hsrc (by decide) (by decide) (by decide) (by decide)
      (fun _ _ q hq1 hq2 => by
        have := (geometry_paired_units q hq1 hq2).1
        have e : geometry_paired.data_offs = 128 := rfl
        rw [e] at this
        omega)
      (fun h => absurd h (by decide))
      (fun lnum inb outb hi ho =>
        layout_ok geometry_paired (volume_paired UBI_VID_MODE_SLC UBI_VID_DYNAMIC) lnum inb
          outb _ (by decide) (by decide) (by decide)
          (by rw [ho]; decide) (by decide) (by rw [hi]; decide)
          (fun h => absurd ⟨rfl, by decide⟩ h)
          (fun _ _ => ⟨by decide, by decide,
            fun q hq1 hq2 => (geometry_paired_units q hq1 hq2).2⟩)
          (fun h => absurd h (by decide)))
      2 (by decide) with
  | ⟨blocks, h1, h2, h3⟩ =>
    ⟨blocks, by
      rw [List.nil_append] at h1
      exact h1, h2, fun k hk =>
      match h3 k hk with
      | ⟨_, _, b, _, _, h7, h8, _⟩ => ⟨b, h7, h8⟩⟩

/-! ## Pair capacity of an SLC-emulated block -/

/-- The fields `ubigen_info_init` derives from a pairing scheme. -/
theorem info_init_pairing_fields (peb_size min_io_size subpage_size vid_hdr_offs ubi_ver : Int)
    (image_seq : Nat) (p : mtd_pairing_scheme) (ui : ubigen_info)
    (h : ubigen_info_init peb_size min_io_size subpage_size vid_hdr_offs ubi_ver image_seq
      (some p) = .ok ui) :
    p.ngroups ≠ 0 ∧ ui.slc_leb_size = peb_size.tdiv p.ngroups - ui.data_offs ∧
    ui.max_lebs_per_peb = p.ngroups ∧
    ui.mtd = { eb_size := peb_size, min_io_size := min_io_size, pairing := some p } := by
  unfold ubigen_info_init at h
  simp only [except_bind_eq_ok, c_div_eq_ok, pure, Except.pure, Except.ok.injEq] at h
  obtain ⟨v, _, d, ⟨_, rfl⟩, q, ⟨hg, rfl⟩, rfl⟩ := h
  exact ⟨hg, rfl, rfl, rfl⟩

/-- The pair-by-pair copy leaves every byte of the visited write-units untouched that
lies at or beyond the payload length, counted in pair order. -/
theorem slc_copy_loop_rest (ui : ubigen_info) (npairs : Int) (hmio : 0 < ui.min_io_size)
    (hinj : ∀ q q' : Int,
      mtd_pairing_info_to_wunit ui.mtd { pair := q, group := 0 }
        = mtd_pairing_info_to_wunit ui.mtd { pair := q', group := 0 } → q = q') :
    ∀ (n : Nat) (pair : Int) (out inb : List Nat) (len : Int)
      (res : List Nat × List Nat × Int),
    slc_copy_loop ui npairs n pair out inb len = .ok res → 0 ≤ len →
    (∀ q : Int, pair ≤ q → q < pair + n →
      0 ≤ mtd_pairing_info_to_wunit ui.mtd { pair := q, group := 0 } * ui.min_io_size) →
    ∀ j : Nat, len ≤ (j : Int) → j < n * ui.min_io_size.toNat →
      res.1[(mtd_pairing_info_to_wunit ui.mtd
          { pair := pair + (j / ui.min_io_size.toNat : Nat), group := 0 }
        * ui.min_io_size).toNat + j % ui.min_io_size.toNat]?
      = out[(mtd_pairing_info_to_wunit ui.mtd
          { pair := pair + (j / ui.min_io_size.toNat : Nat), group := 0 }
        * ui.min_io_size).toNat + j % ui.min_io_size.toNat]? := by
  have hm : 0 < ui.min_io_size.toNat := by omega
  have hmc : (ui.min_io_size.toNat : Int) = ui.min_io_size := by omega
  intro n
  induction n with
  | zero =>
    intro pair out inb len res _ _ _ j _ hj
    omega
  | succ n ih =>
    intro pair out inb len res h hl0 hun j hj1 hj2
    rcases (slc_copy_loop_succ ..).1 h with ⟨_, hl, out1, h1, h2⟩ | ⟨_, hres⟩
    · obtain ⟨b0, bn, bs, bl, blen⟩ := buf_memcpy_bounds _ _ _ _ _ h1
      have hw1 : (if ui.min_io_size > len then len else ui.min_io_size) ≤ len := by
        split <;> omega
      have hw2 : (if ui.min_io_size > len then len else ui.min_io_size) ≤ ui.min_io_size := by
        split <;> omega
      by_cases hjm : j < ui.min_io_size.toNat
      · have e1 : j / ui.min_io_size.toNat = 0 := Nat.div_eq_of_lt hjm
        have e2 : j % ui.min_io_size.toNat = j := Nat.mod_eq_of_lt hjm
        rw [e1, e2]
        have e3 : pair + ((0 : Nat) : Int) = pair := by simp
        rw [e3]
        rw [(slc_copy_loop_frame _ _ _ _ _ _ _ _ h2).2 _ (fun q hq1 _ _ hh => by
            have := wunit_of_offset _ _ _ hmio hh.1 hh.2
            have e4 := wunit_of_offset
              (mtd_pairing_info_to_wunit ui.mtd { pair := pair, group := 0 })
              ui.min_io_size
              ((mtd_pairing_info_to_wunit ui.mtd { pair := pair, group := 0 }
                * ui.min_io_size).toNat + j) hmio (by omega) (by omega)
            rw [e4] at this
            have := hinj _ _ this
            omega),
          buf_memcpy_get _ _ _ _ _ h1, if_neg (by omega)]
      · have hjj : j = (j - ui.min_io_size.toNat) + ui.min_io_size.toNat := by omega
        have hih := ih (pair + 1) out1
          (inb.drop (if ui.min_io_size > len then len else ui.min_io_size).toNat)
          (len - (if ui.min_io_size > len then len else ui.min_io_size)) res
          h2 (by omega)
          (fun q hq1 hq2 => hun q (by omega) (by push_cast; omega))
          (j - ui.min_io_size.toNat) (by
            have : ((j - ui.min_io_size.toNat : Nat) : Int) = (j : Int) - ui.min_io_size := by
              omega
            rw [this]
            split <;> omega)
          (by
            have : (n + 1) * ui.min_io_size.toNat
                = n * ui.min_io_size.toNat + ui.min_io_size.toNat := by ring
            omega)
        have e1 : j / ui.min_io_size.toNat
            = (j - ui.min_io_size.toNat) / ui.min_io_size.toNat + 1 := by
          conv_lhs => rw [hjj]
          exact Nat.add_div_right _ hm
        have e2 : j % ui.min_io_size.toNat
            = (j - ui.min_io_size.toNat) % ui.min_io_size.toNat := by
          conv_lhs => rw [hjj]
          exact Nat.add_mod_right _ _
        have e3 : pair + ((((j - ui.min_io_size.toNat) / ui.min_io_size.toNat + 1 : Nat)) : Int)
            = pair + 1 + (((j - ui.min_io_size.toNat) / ui.min_io_size.toNat : Nat) : Int) := by
          push_cast
          ring
        rw [e1, e2, e3, hih, buf_memcpy_get _ _ _ _ _ h1, if_neg]
        intro hh
        have hq : (j - ui.min_io_size.toNat) / ui.min_io_size.toNat < n := by
          rw [Nat.div_lt_iff_lt_mul hm]
          have : (n + 1) * ui.min_io_size.toNat
              = n * ui.min_io_size.toNat + ui.min_io_size.toNat := by ring
          omega
        have hnn : (0 : Int)
            ≤ (((j - ui.min_io_size.toNat) / ui.min_io_size.toNat : Nat) : Int) :=
          Int.ofNat_nonneg _
        have hqI : (((j - ui.min_io_size.toNat) / ui.min_io_size.toNat : Nat) : Int)
            < (n : Int) := by exact_mod_cast hq
        have hn1 : ((n + 1 : Nat) : Int) = (n : Int) + 1 := by push_cast; rfl
        have hu0 := hun (pair + 1 + (((j - ui.min_io_size.toNat) / ui.min_io_size.toNat : Nat)
          : Int)) (by omega) (by rw [hn1]; omega)
        have hr := Nat.mod_lt (j - ui.min_io_size.toNat) hm
        have e5 := wunit_of_offset
          (mtd_pairing_info_to_wunit ui.mtd { pair := pair + 1 +
            (((j - ui.min_io_size.toNat) / ui.min_io_size.toNat : Nat) : Int), group := 0 })
          ui.min_io_size
          ((mtd_pairing_info_to_wunit ui.mtd { pair := pair + 1 +
            (((j - ui.min_io_size.toNat) / ui.min_io_size.toNat : Nat) : Int), group := 0 }
            * ui.min_io_size).toNat + (j - ui.min_io_size.toNat) % ui.min_io_size.toNat)
          hmio (by omega) (by omega)
        have e6 := wunit_of_offset
          (mtd_pairing_info_to_wunit ui.mtd { pair := pair, group := 0 })
          ui.min_io_size
          ((mtd_pairing_info_to_wunit ui.mtd { pair := pair + 1 +
            (((j - ui.min_io_size.toNat) / ui.min_io_size.toNat : Nat) : Int), group := 0 }
            * ui.min_io_size).toNat + (j - ui.min_io_size.toNat) % ui.min_io_size.toNat)
          hmio (by omega) (by omega)
        rw [e5] at e6
        have := hinj _ _ e6
        omega
    · rw [hres]

/-- After the pair-by-pair copy the gathered payload region holds 0xFF from the
payload length on, when the group-0 write-units lie in the payload region of the
block. -/
theorem layout_slc_gather_rest (ui : ubigen_info) (vi : ubigen_vol_info) (lnum : Int)
    (inbuf outbuf : List Nat) (len : Int) (out : List Nat)
    (hs : vi.mode = UBI_VID_MODE_SLC ∧ ui.max_lebs_per_peb > 1)
    (h : ubigen_layout_vid_and_data ui vi lnum inbuf outbuf len = .ok out)
    (hmio : 0 < ui.min_io_size)
    (hinv : ∀ pair : Int, mtd_wunit_to_pairing_info ui.mtd
      (mtd_pairing_info_to_wunit ui.mtd { pair := pair, group := 0 })
        = { pair := pair, group := 0 })
    (hl0 : 0 ≤ len) (hd0 : 0 ≤ ui.data_offs)
    (hunits : ∀ q : Int, slc_first_pair ui ≤ q → q < slc_npairs ui →
      ui.data_offs ≤ mtd_pairing_info_to_wunit ui.mtd { pair := q, group := 0 }
        * ui.min_io_size ∧
      mtd_pairing_info_to_wunit ui.mtd { pair := q, group := 0 } * ui.min_io_size
        + ui.min_io_size ≤ ui.peb_size) :
    ∀ j : Nat, len.toNat ≤ j → j < slc_capacity ui → (slc_gather ui out)[j]? = some 255 := by
  intro j hj1 hj2
  obtain ⟨b1, b2, b3, res, _, _, h3, _, _, h4, rfl⟩ :=
    (layout_slc_eq_ok ui vi lnum inbuf outbuf len out hs).1 h
  have hm : 0 < ui.min_io_size.toNat := by omega
  have hn : 0 < (slc_npairs ui - slc_first_pair ui).toNat := by
    unfold slc_capacity at hj2
    by_contra hz
    have : (slc_npairs ui - slc_first_pair ui).toNat = 0 := by omega
    rw [this] at hj2
    omega
  have hq : j / ui.min_io_size.toNat < (slc_npairs ui - slc_first_pair ui).toNat := by
    rw [Nat.div_lt_iff_lt_mul hm]
    exact hj2
  have hnn : (0 : Int) ≤ ((j / ui.min_io_size.toNat : Nat) : Int) := Int.ofNat_nonneg _
  have hqI : ((j / ui.min_io_size.toNat : Nat) : Int)
      < ((slc_npairs ui - slc_first_pair ui).toNat : Int) := by exact_mod_cast hq
  have hr := Nat.mod_lt j hm
  obtain ⟨hu1, hu2⟩ := hunits (slc_first_pair ui + ((j / ui.min_io_size.toNat : Nat) : Int))
    (by omega) (by omega)
  have hrest := slc_copy_loop_rest ui _ hmio (pairing_inverse_injective ui hinv) _ _ _ _ _ _
    h4 hl0 (fun q hq1 hq2 => by
      have := (hunits q hq1 (by
        have e : (slc_first_pair ui + ((slc_npairs ui - slc_first_pair ui).toNat : Int))
            = slc_npairs ui := by omega
        have hq2' : q < slc_first_pair ui
            + ((slc_npairs ui - slc_first_pair ui).toNat : Int) := hq2
        omega)).1
      omega) j (by omega) hj2
  have hrest' : res.1[(mtd_pairing_info_to_wunit ui.mtd
        { pair := slc_first_pair ui + (j / ui.min_io_size.toNat : Nat), group := 0 }
      * ui.min_io_size).toNat + j % ui.min_io_size.toNat]?
      = b3[(mtd_pairing_info_to_wunit ui.mtd
        { pair := slc_first_pair ui + (j / ui.min_io_size.toNat : Nat), group := 0 }
      * ui.min_io_size).toNat + j % ui.min_io_size.toNat]? := hrest
  rw [slc_gather, List.getElem?_map, List.getElem?_range hj2, Option.map_some',
    List.getD_eq_getElem?_getD, hrest',
    buf_memset_in _ _ _ _ _ h3 _ (by omega) (by omega)]
  rfl

/-- The gathered payload region of an SLC-emulated block after the layout: the first
`min len capacity` payload bytes, then 0xFF. -/
theorem layout_slc_gather_eq (ui : ubigen_info) (vi : ubigen_vol_info) (lnum : Int)
    (inbuf outbuf : List Nat) (len : Int) (out : List Nat)
    (hs : vi.mode = UBI_VID_MODE_SLC ∧ ui.max_lebs_per_peb > 1)
    (h : ubigen_layout_vid_and_data ui vi lnum inbuf outbuf len = .ok out)
    (hmio : 0 < ui.min_io_size)
    (hinv : ∀ pair : Int, mtd_wunit_to_pairing_info ui.mtd
      (mtd_pairing_info_to_wunit ui.mtd { pair := pair, group := 0 })
        = { pair := pair, group := 0 })
    (hl0 : 0 ≤ len) (hl1 : len ≤ inbuf.length) (hd0 : 0 ≤ ui.data_offs)
    (hunits : ∀ q : Int, slc_first_pair ui ≤ q → q < slc_npairs ui →
      ui.data_offs ≤ mtd_pairing_info_to_wunit ui.mtd { pair := q, group := 0 }
        * ui.min_io_size ∧
      mtd_pairing_info_to_wunit ui.mtd { pair := q, group := 0 } * ui.min_io_size
        + ui.min_io_size ≤ ui.peb_size) :
    slc_gather ui out = inbuf.take (min len.toNat (slc_capacity ui))
      ++ List.replicate (slc_capacity ui - min len.toNat (slc_capacity ui)) 255 := by
  have hg := layout_slc_gather ui vi lnum inbuf outbuf len out hs h hmio hinv hl1
  have hrest := layout_slc_gather_rest ui vi lnum inbuf outbuf len out hs h hmio hinv hl0 hd0
    hunits
  have hlen := slc_gather_length ui out
  have hdrop : (slc_gather ui out).drop len.toNat
      = List.replicate (slc_capacity ui - min len.toNat (slc_capacity ui)) 255 := by
    apply List.ext_getElem?
    intro i
    rw [List.getElem?_drop, List.getElem?_replicate]
    rcases Nat.le_total len.toNat (slc_capacity ui) with hle | hle
    · rw [min_eq_left hle]
      by_cases hi : i < slc_capacity ui - len.toNat
      · rw [if_pos hi]
        exact hrest _ (by omega) (by omega)
      · rw [if_neg hi, List.getElem?_eq_none (by omega)]
    · rw [min_eq_right hle, if_neg (by omega), List.getElem?_eq_none (by omega)]
  rw [← hg, ← hdrop, List.take_append_drop]

/-- For a geometry `ubigen_info_init` derives from a pairing scheme whose blocks are a
whole number of groups of write-units, the pairs the pair-by-pair copy visits hold
exactly `slc_leb_size` bytes (none when `slc_leb_size` is negative). -/
theorem info_init_slc_capacity (peb_size min_io_size subpage_size vid_hdr_offs ubi_ver : Int)
    (image_seq : Nat) (p : mtd_pairing_scheme) (ui : ubigen_info)
    (h : ubigen_info_init peb_size min_io_size subpage_size vid_hdr_offs ubi_ver image_seq
      (some p) = .ok ui)
    (hmio : 0 < min_io_size) (hsub : 0 < subpage_size) (hvid : 0 ≤ vid_hdr_offs)
    (hpeb : p.ngroups * min_io_size ∣ peb_size) :
    ui.slc_leb_size = peb_size.tdiv p.ngroups - ui.data_offs ∧
    slc_capacity ui = ui.slc_leb_size.toNat ∧ 0 ≤ ui.data_offs ∧
    ui.max_lebs_per_peb = p.ngroups ∧ ui.min_io_size = min_io_size := by
  obtain ⟨hg, hslc, hmlpp, hmtd⟩ := info_init_pairing_fields _ _ _ _ _ _ _ _ h
  obtain ⟨_, _, _, _, hpe, hmi, _⟩ := info_init_eq_ok _ _ _ _ _ _ _ _ h
  obtain ⟨hdvd, hlow, _, _⟩ := info_init_data_offs_bounds _ _ _ _ _ _ _ _ hmio hsub hvid h
  have hv0 := info_init_vid_hdr_offs_nonneg _ _ _ _ _ _ _ _ hsub hvid h
  have hd0 : 0 ≤ ui.data_offs := by
    have : (0 : Int) ≤ UBI_VID_HDR_SIZE := by decide
    omega
  obtain ⟨c, hc⟩ := hpeb
  obtain ⟨d, hd⟩ := hdvd
  have hd_nonneg : 0 ≤ d := by
    by_contra hn
    have : d ≤ -1 := by omega
    nlinarith
  have hgroups : mtd_pairing_groups ui.mtd = p.ngroups := by
    rw [hmtd]
    rfl
  have e1 : peb_size.tdiv min_io_size = p.ngroups * c := by
    rw [hc, show p.ngroups * min_io_size * c = min_io_size * (p.ngroups * c) by ring]
    exact Int.mul_tdiv_cancel_left _ (ne_of_gt hmio)
  have e2 : (p.ngroups * c).tdiv p.ngroups = c := Int.mul_tdiv_cancel_left _ hg
  have e3 : peb_size.tdiv p.ngroups = min_io_size * c := by
    rw [hc, show p.ngroups * min_io_size * c = p.ngroups * (min_io_size * c) by ring]
    exact Int.mul_tdiv_cancel_left _ hg
  have hnp : slc_npairs ui = c := by
    unfold slc_npairs
    rw [hpe, hmi, hgroups, e1, e2]
  have hfp : slc_first_pair ui = d := by
    unfold slc_first_pair
    rw [hmi, hd, Int.tdiv_eq_ediv (by nlinarith) (le_of_lt hmio),
      show min_io_size * d + min_io_size - 1 = (min_io_size - 1) + min_io_size * d by ring,
      Int.add_mul_ediv_left _ _ (ne_of_gt hmio),
      Int.ediv_eq_zero_of_lt (by omega) (by omega)]
    omega
  have hleb : ui.slc_leb_size = min_io_size * (c - d) := by
    rw [hslc, e3, hd]
    ring
  refine ⟨hslc, ?_, hd0, hmlpp, hmi⟩
  unfold slc_capacity
  rw [hnp, hfp, hmi, hleb]
  by_cases hcd : d ≤ c
  · have h1 : (((c - d).toNat * min_io_size.toNat : Nat) : Int) = min_io_size * (c - d) := by
      push_cast
      rw [Int.toNat_of_nonneg (by omega), Int.toNat_of_nonneg (le_of_lt hmio)]
      ring
    have h2 : (0 : Int) ≤ min_io_size * (c - d) := by nlinarith
    omega
  · have h1 : (c - d).toNat = 0 := by omega
    have h2 : min_io_size * (c - d) < 0 := by nlinarith
    rw [h1]
    omega

/-- C23: for every geometry `ubigen_info_init` builds from valid parameters
(`min_io_size > 0`, `subpage_size > 0`, offset not negative) with a pairing scheme of
more than one group, `peb_size` a multiple of `ngroups * min_io_size`, translations
that are inverse on the group-0 coordinates and map the pairs the copy visits to
write-units of the payload region `[data_offs, peb_size)`; for every SLC-emulated
volume and every readable payload of `len >= 0` bytes: after
`ubigen_layout_vid_and_data` the group-0 write-units of the pairs
`ceil(data_offs / min_io_size), ..., npairs - 1`, concatenated in pair order, are the
first `min len slc_leb_size` payload bytes followed only by 0xFF.  Their total size,
the pair capacity of the block, is the SLC-equivalent logical-block size
`slc_leb_size` = `peb_size / ngroups - data_offs` (no byte when that is negative). -/
theorem layout_slc_places_min_len_capacity
    (peb_size min_io_size subpage_size vid_hdr_offs ubi_ver : Int) (image_seq : Nat)
    (p : mtd_pairing_scheme) (ui : ubigen_info) (vi : ubigen_vol_info) (lnum : Int)
    (inbuf outbuf : List Nat) (len : Int) (out : List Nat)
    (h : ubigen_info_init peb_size min_io_size subpage_size vid_hdr_offs ubi_ver image_seq
      (some p) = .ok ui)
    (hng : 1 < p.ngroups) (hmio : 0 < min_io_size) (hsub : 0 < subpage_size)
    (hvid : 0 ≤ vid_hdr_offs) (hpeb : p.ngroups * min_io_size ∣ peb_size)
    (hinv : ∀ pair : Int, mtd_wunit_to_pairing_info ui.mtd
      (mtd_pairing_info_to_wunit ui.mtd { pair := pair, group := 0 })
        = { pair := pair, group := 0 })
    (hunits : ∀ q : Int, slc_first_pair ui ≤ q → q < slc_npairs ui →
      ui.data_offs ≤ mtd_pairing_info_to_wunit ui.mtd { pair := q, group := 0 }
        * ui.min_io_size ∧
      mtd_pairing_info_to_wunit ui.mtd { pair := q, group := 0 } * ui.min_io_size
        + ui.min_io_size ≤ ui.peb_size)
    (hmode : vi.mode = UBI_VID_MODE_SLC) (hl0 : 0 ≤ len) (hl1 : len ≤ inbuf.length)
    (hlay : ubigen_layout_vid_and_data ui vi lnum inbuf outbuf len = .ok out) :
    ui.slc_leb_size = peb_size.tdiv p.ngroups - ui.data_offs ∧
    (slc_gather ui out).length = ui.slc_leb_size.toNat ∧
    slc_gather ui out = inbuf.take (min len.toNat ui.slc_leb_size.toNat)
      ++ List.replicate (ui.slc_leb_size.toNat - min len.toNat ui.slc_leb_size.toNat) 255 := by
  obtain ⟨h1, hcap, hd0, hmlpp, hmi⟩ := info_init_slc_capacity _ _ _ _ _ _ _ _ h hmio hsub hvid
    hpeb
  have hs : vi.mode = UBI_VID_MODE_SLC ∧ ui.max_lebs_per_peb > 1 := ⟨hmode, by omega⟩
  have hg := layout_slc_gather_eq ui vi lnum inbuf outbuf len out hs hlay (by omega) hinv hl0
    hl1 hd0 hunits
  rw [hcap] at hg
  exact ⟨h1, by rw [slc_gather_length, hcap], hg⟩

/-- C23 on `geometry_paired`, which `ubigen_info_init` derives for 1024-byte blocks,
a 64-byte I/O unit and `pairing_two_groups`: `slc_leb_size` is 1024 / 2 - 128 = 384,
and after the layout of a 500-byte payload of the SLC-emulated volume the group-0
write-units hold the first 384 payload bytes. -/
theorem layout_slc_places_min_len_capacity_witness :
    geometry_paired.slc_leb_size = 384 ∧
    ∃ out, ubigen_layout_vid_and_data geometry_paired
        (volume_paired UBI_VID_MODE_SLC UBI_VID_DYNAMIC) 5 (sample_payload 500)
        (List.replicate 1024 9) 500 = .ok out ∧
      (slc_gather geometry_paired out).length = 384 ∧
      slc_gather geometry_paired out = (sample_payload 500).take 384 ++ List.replicate 0 255 :=
  have hlen : (sample_payload 500).length = 500 := sample_payload_length 500
  have hrep : (List.replicate 1024 9).length = 1024 := List.length_replicate _ _
  match layout_ok geometry_paired (volume_paired UBI_VID_MODE_SLC UBI_VID_DYNAMIC) 5
      (sample_payload 500) (List.replicate 1024 9) 500 (by decide) (by decide) (by decide)
      (by rw [hrep]; decide) (by decide) (by rw [hlen]; decide)
      (fun h => absurd ⟨rfl, by decide⟩ h)
      (fun _ _ => ⟨by decide, by decide, fun q hq1 hq2 => (geometry_paired_units q hq1 hq2).2⟩)
      (fun h => absurd h (by decide)) with
  | ⟨out, h⟩ =>
    match layout_slc_places_min_len_capacity 1024 64 64 0 1 7 pairing_two_groups
      geometry_paired (volume_paired UBI_VID_MODE_SLC UBI_VID_DYNAMIC) 5 (sample_payload 500)
      (List.replicate 1024 9) 500 out geometry_paired_derived (by decide) (by decide)
      (by decide) (by decide) ⟨8, by decide⟩ geometry_paired_inverse
      (fun q hq1 hq2 => ⟨(geometry_paired_units q hq1 hq2).1,
        (geometry_paired_units q hq1 hq2).2.2⟩)
      rfl (by decide) (by rw [hlen]; decide) h with
    | ⟨_, h2, h3⟩ => ⟨by decide, out, h, h2, h3⟩

/-! ## Writing the layout volume -/

theorem layout_vol_info_ok (lv : layout_volume_macros) (stack_vi : ubigen_vol_info)
    (ui : ubigen_info) (halign : lv.align ≠ 0) :
    ∃ vi, layout_vol_info lv stack_vi ui = .ok vi ∧ vi.id = lv.id ∧ vi.type = lv.type ∧
      vi.compat = lv.compat ∧ vi.mode = stack_vi.mode ∧ vi.alignment = lv.align ∧
      vi.data_pad = ui.leb_size.tmod lv.align := by
  unfold layout_vol_info
  have hc : c_mod ui.leb_size lv.align = .ok (ui.leb_size.tmod lv.align) :=
    (c_mod_eq_ok _ _ _).2 ⟨halign, rfl⟩
  simp only [hc, except_ok_bind]
  refine ⟨_, rfl, rfl, rfl, rfl, rfl, rfl, ?_⟩
  show ui.leb_size - (ui.leb_size - ui.leb_size.tmod lv.align) = _
  omega

theorem sys_lseek_ok (f : seek_file) (off : Int) (h0 : 0 ≤ off) (h1 : off ∉ f.unreachable) :
    sys_lseek f off = (off, { f with pos := off }) := by
  unfold sys_lseek
  rw [if_neg]
  intro h
  rcases h with h | h
  · omega
  · exact h1 h

theorem sys_lseek_fails (f : seek_file) (off : Int) (h : off < 0 ∨ off ∈ f.unreachable) :
    sys_lseek f off = (-1, f) := by
  unfold sys_lseek
  rw [if_pos h]

theorem sys_write_at_ok (f : seek_file) (bytes : List Nat) (h : bytes.length ≤ f.room) :
    sys_write_at f bytes
      = ((bytes.length : Int),
         { f with stored := f.stored ++ [(f.pos, bytes)],
                  pos := f.pos + bytes.length,
                  room := f.room - bytes.length }) := by
  unfold sys_write_at
  rw [List.take_of_length_le h]

theorem sys_write_at_short (f : seek_file) (bytes : List Nat) (h : f.room < bytes.length) :
    (sys_write_at f bytes).1 = (f.room : Int) := by
  unfold sys_write_at
  simp only [List.length_take]
  congr 1
  omega

/-- Stamping the two headers into a block buffer, as `ubigen_write_layout_vol` does
before each write: the erase-counter header at offset 0, the identifier header at
`vid_hdr_offs`; the bytes after the identifier header are left alone. -/
theorem layout_vol_stamp (ui : ubigen_info) (vi : ubigen_vol_info) (b : List Nat)
    (ec lnum : Int) (hv : 64 ≤ ui.vid_hdr_offs) (hlen : ui.vid_hdr_offs + 64 ≤ b.length) :
    ∃ bm b', buf_init_ec_hdr ui b 0 ec = .ok bm ∧
      buf_init_vid_hdr ui vi bm ui.vid_hdr_offs lnum 0 [] 0 = .ok b' ∧
      b'.length = b.length ∧
      b'.take 64 = (ec_hdr_set_crc (ec_hdr_fields ui ec)).to_bytes ∧
      buf_slice b' ui.vid_hdr_offs 64
        = (vid_hdr_set_crc (vid_hdr_fields ui vi lnum 0 [] 0)).to_bytes ∧
      ∀ i : Nat, ui.vid_hdr_offs + 64 ≤ (i : Int) → b'[i]? = b[i]? := by
  obtain ⟨bm, h1, e1⟩ := buf_write_ok b 0 (ec_hdr_set_crc (ec_hdr_fields ui ec)).to_bytes
    (le_refl _) (by rw [ec_hdr_bytes_length]; omega)
  obtain ⟨b', h2, e2⟩ := buf_init_vid_hdr_ok ui vi bm ui.vid_hdr_offs lnum 0 [] 0
    (fun _ => ⟨le_refl _, by simp⟩) (by omega) (by omega)
  obtain ⟨_, hw2⟩ := (buf_init_vid_hdr_eq_ok ..).1 h2
  refine ⟨bm, b', h1, h2, by omega, ?_, ?_, fun i hi => ?_⟩
  · have ht := buf_write_zero_take _ _ _ h1
    rw [ec_hdr_bytes_length] at ht
    rw [← ht]
    exact take_eq_of_getElem? _ _ _ (fun i hi => buf_write_below _ _ _ _ hw2 i (by omega))
  · have hs := buf_write_slice _ _ _ _ hw2
    rw [vid_hdr_bytes_length] at hs
    exact hs
  · rw [buf_write_above _ _ _ _ hw2 i (by rw [vid_hdr_bytes_length]; omega),
      buf_write_above _ _ _ _ h1 i (by rw [ec_hdr_bytes_length]; omega)]

/-- The block buffer `ubigen_write_layout_vol` prepares before it stamps the headers:
0xFF up to `data_offs`, the table, 0xFF up to the end of the block. -/
theorem layout_vol_payload (ui : ubigen_info) (vtbl : List ubi_vtbl_record)
    (garbage_out : List Nat)
    (hd0 : 0 ≤ ui.data_offs) (hvt : 0 ≤ ui.vtbl_size)
    (hfit : ui.data_offs + ui.vtbl_size ≤ ui.peb_size)
    (htab : ui.vtbl_size ≤ (vtbl_bytes vtbl).length) :
    ∃ b1 b2 b3,
      buf_memset (malloc_bytes garbage_out ui.peb_size.toNat) 0 255 ui.data_offs = .ok b1 ∧
      buf_memcpy b1 ui.data_offs (vtbl_bytes vtbl) ui.vtbl_size = .ok b2 ∧
      buf_memset b2 (ui.data_offs + ui.vtbl_size) 255
        (ui.peb_size - ui.data_offs - ui.vtbl_size) = .ok b3 ∧
      b3.length = ui.peb_size.toNat ∧
      buf_slice b3 ui.data_offs ui.vtbl_size.toNat
        = (vtbl_bytes vtbl).take ui.vtbl_size.toNat ∧
      ∀ i : Nat, ui.data_offs + ui.vtbl_size ≤ (i : Int) → (i : Int) < ui.peb_size →
        b3[i]? = some 255 := by
  have hm := malloc_bytes_length garbage_out ui.peb_size.toNat
  obtain ⟨b1, h1, e1⟩ := buf_memset_ok (malloc_bytes garbage_out ui.peb_size.toNat) 0 255
    ui.data_offs (le_refl _) hd0 (by omega)
  obtain ⟨b2, h2, e2⟩ := buf_memcpy_ok b1 ui.data_offs (vtbl_bytes vtbl) ui.vtbl_size hd0 hvt
    htab (by omega)
  obtain ⟨b3, h3, e3⟩ := buf_memset_ok b2 (ui.data_offs + ui.vtbl_size) 255
    (ui.peb_size - ui.data_offs - ui.vtbl_size) (by omega) (by omega) (by omega)
  obtain ⟨_, _, hw2⟩ := (buf_memcpy_eq_ok _ _ _ _ _).1 h2
  have htl : ((vtbl_bytes vtbl).take ui.vtbl_size.toNat).length = ui.vtbl_size.toNat := by
    rw [List.length_take]
    omega
  refine ⟨b1, b2, b3, h1, h2, h3, by omega, ?_, fun i hi0 hi1 =>
    buf_memset_in _ _ _ _ _ h3 i hi0 (by omega)⟩
  have hs := buf_write_slice _ _ _ _ hw2
  rw [htl] at hs
  rw [← hs]
  exact buf_slice_congr _ _ _ _ (fun i _ hi1 => buf_memset_below _ _ _ _ _ h3 i (by omega))

/-- The function `ubigen_write_layout_vol` on a well-formed geometry and table: the
two block images it builds, and its result in terms of the four calls on the
output. -/
theorem write_layout_vol_eq (lv : layout_volume_macros) (stack_vi : ubigen_vol_info)
    (ui : ubigen_info) (peb1 peb2 ec1 ec2 : Int) (vtbl : List ubi_vtbl_record)
    (garbage_out : List Nat) (fd : seek_file)
    (halign : lv.align ≠ 0) (hv : 64 ≤ ui.vid_hdr_offs)
    (hgap : ui.vid_hdr_offs + UBI_VID_HDR_SIZE ≤ ui.data_offs) (hvt : 0 ≤ ui.vtbl_size)
    (hfit : ui.data_offs + ui.vtbl_size ≤ ui.peb_size)
    (htab : ui.vtbl_size ≤ (vtbl_bytes vtbl).length) :
    ∃ (vi : ubigen_vol_info) (B1 B2 : List Nat),
      layout_vol_info lv stack_vi ui = .ok vi ∧
      B1.length = ui.peb_size.toNat ∧ B2.length = ui.peb_size.toNat ∧
      B1.take 64 = (ec_hdr_set_crc (ec_hdr_fields ui ec1)).to_bytes ∧
      B2.take 64 = (ec_hdr_set_crc (ec_hdr_fields ui ec2)).to_bytes ∧
      buf_slice B1 ui.vid_hdr_offs 64
        = (vid_hdr_set_crc (vid_hdr_fields ui vi 0 0 [] 0)).to_bytes ∧
      buf_slice B2 ui.vid_hdr_offs 64
        = (vid_hdr_set_crc (vid_hdr_fields ui vi 1 0 [] 0)).to_bytes ∧
      buf_slice B1 ui.data_offs ui.vtbl_size.toNat
        = (vtbl_bytes vtbl).take ui.vtbl_size.toNat ∧
      buf_slice B2 ui.data_offs ui.vtbl_size.toNat
        = (vtbl_bytes vtbl).take ui.vtbl_size.toNat ∧
      (∀ i : Nat, ui.data_offs + ui.vtbl_size ≤ (i : Int) → (i : Int) < ui.peb_size →
        B1[i]? = some 255 ∧ B2[i]? = some 255) ∧
      ubigen_write_layout_vol lv stack_vi ui peb1 peb2 ec1 ec2 vtbl garbage_out fd
        = .ok (
          if (sys_lseek fd (peb1 * ui.peb_size)).1 ≠ peb1 * ui.peb_size
          then (-1, (sys_lseek fd (peb1 * ui.peb_size)).2)
          else if (sys_write_at (sys_lseek fd (peb1 * ui.peb_size)).2 B1).1 ≠ ui.peb_size
          then (-1, (sys_write_at (sys_lseek fd (peb1 * ui.peb_size)).2 B1).2)
          else if (sys_lseek (sys_write_at (sys_lseek fd (peb1 * ui.peb_size)).2 B1).2
              (peb2 * ui.peb_size)).1 ≠ peb2 * ui.peb_size
          then (-1, (sys_lseek (sys_write_at (sys_lseek fd (peb1 * ui.peb_size)).2 B1).2
              (peb2 * ui.peb_size)).2)
          else if (sys_write_at (sys_lseek (sys_write_at
              (sys_lseek fd (peb1 * ui.peb_size)).2 B1).2 (peb2 * ui.peb_size)).2 B2).1
              ≠ ui.peb_size
          then (-1, (sys_write_at (sys_lseek (sys_write_at
              (sys_lseek fd (peb1 * ui.peb_size)).2 B1).2 (peb2 * ui.peb_size)).2 B2).2)
          else (0, (sys_write_at (sys_lseek (sys_write_at
              (sys_lseek fd (peb1 * ui.peb_size)).2 B1).2 (peb2 * ui.peb_size)).2 B2).2)) := by
  have hsz : UBI_VID_HDR_SIZE = 64 := rfl
  rw [hsz] at hgap
  obtain ⟨vi, hvi, _⟩ := layout_vol_info_ok lv stack_vi ui halign
  obtain ⟨b1, b2, b3, h1, h2, h3, e3, hp3, hf3⟩ := layout_vol_payload ui vtbl garbage_out
    (by omega) hvt hfit htab
  obtain ⟨m1, B1, h4, h5, e5, ht5, hs5, ha5⟩ := layout_vol_stamp ui vi b3 ec1 0 hv (by omega)
  obtain ⟨m2, B2, h6, h7, e7, ht7, hs7, ha7⟩ := layout_vol_stamp ui vi B1 ec2 1 hv (by omega)
  have hB1 : B1.take ui.peb_size.toNat = B1 := List.take_of_length_le (by omega)
  have hB2 : B2.take ui.peb_size.toNat = B2 := List.take_of_length_le (by omega)
  refine ⟨vi, B1, B2, hvi, by omega, by omega, ht5, ht7, hs5, hs7, ?_, ?_, ?_, ?_⟩
  · rw [← hp3]
    exact buf_slice_congr _ _ _ _ (fun i hi0 _ => ha5 i (by omega))
  · rw [← hp3]
    exact buf_slice_congr _ _ _ _ (fun i hi0 _ => by
      rw [ha7 i (by omega), ha5 i (by omega)])
  · intro i hi0 hi1
    constructor
    · rw [ha5 i (by omega)]
      exact hf3 i hi0 hi1
    · rw [ha7 i (by omega), ha5 i (by omega)]
      exact hf3 i hi0 hi1
  · unfold ubigen_write_layout_vol
    simp only [hvi, except_ok_bind, if_neg (show ¬ ui.peb_size < 0 by omega), h1, h2, h3]
    by_cases c1 : (sys_lseek fd (peb1 * ui.peb_size)).1 ≠ peb1 * ui.peb_size
    · rw [if_pos c1, if_pos c1]
      rfl
    · rw [if_neg c1, if_neg c1]
      simp only [h4, h5, except_ok_bind, hB1]
      by_cases c2 : (sys_write_at (sys_lseek fd (peb1 * ui.peb_size)).2 B1).1 ≠ ui.peb_size
      · rw [if_pos c2, if_pos c2]
        rfl
      · rw [if_neg c2, if_neg c2]
        by_cases c3 : (sys_lseek (sys_write_at (sys_lseek fd (peb1 * ui.peb_size)).2 B1).2
            (peb2 * ui.peb_size)).1 ≠ peb2 * ui.peb_size
        · rw [if_pos c3, if_pos c3]
          rfl
        · rw [if_neg c3, if_neg c3]
          simp only [h6, h7, except_ok_bind, hB2]
          by_cases c4 : (sys_write_at (sys_lseek (sys_write_at
              (sys_lseek fd (peb1 * ui.peb_size)).2 B1).2 (peb2 * ui.peb_size)).2 B2).1
              ≠ ui.peb_size
          · rw [if_pos c4, if_pos c4]
            rfl
          · rw [if_neg c4, if_neg c4]
            rfl

theorem mul_ne_neg_one (a b : Int) (hb : 2 ≤ b) : a * b ≠ -1 := by
  intro h
  rcases lt_or_ge a 0 with ha | ha
  · have : a ≤ -1 := by omega
    nlinarith
  · have : 0 ≤ a * b := by positivity
    omega

/-- C22: for every geometry and volume table that are well formed (the macro
`UBI_LAYOUT_VOLUME_ALIGN` is not 0 and `UBI_LAYOUT_VOLUME_ID` is an `int`, the
erase-counter header ends at or before `vid_hdr_offs`, the identifier header at or
before `data_offs`, the table of `vtbl_size >= 0` bytes fits between `data_offs` and
`peb_size` and is readable): when both seeks succeed and the output accepts two
blocks, `ubigen_write_layout_vol` returns 0 and writes exactly two blocks of
`peb_size` bytes, the first at offset `peb1 * peb_size`, the second at
`peb2 * peb_size`.  In both, `[data_offs, data_offs + vtbl_size)` is the table and
`[data_offs + vtbl_size, peb_size)` is 0xFF; the first starts with the erase-counter
header for `ec1` and has at `vid_hdr_offs` the identifier header of the layout volume
for block 0, the second the erase-counter header for `ec2` and the identifier header
for block 1, all with valid checksums.  When a seek or a write fails at either
position the function returns -1. -/
theorem write_layout_vol_spec (lv : layout_volume_macros) (stack_vi : ubigen_vol_info)
    (ui : ubigen_info) (peb1 peb2 ec1 ec2 : Int) (vtbl : List ubi_vtbl_record)
    (garbage_out : List Nat) (fd : seek_file) (prev_ec : ubi_ec_hdr) (prev_vid : ubi_vid_hdr)
    (halign : lv.align ≠ 0) (hid : 0 ≤ lv.id ∧ lv.id ≤ INT_MAX)
    (hv : 64 ≤ ui.vid_hdr_offs)
    (hgap : ui.vid_hdr_offs + UBI_VID_HDR_SIZE ≤ ui.data_offs) (hvt : 0 ≤ ui.vtbl_size)
    (hfit : ui.data_offs + ui.vtbl_size ≤ ui.peb_size)
    (htab : ui.vtbl_size ≤ (vtbl_bytes vtbl).length) :
    (0 ≤ peb1 * ui.peb_size → peb1 * ui.peb_size ∉ fd.unreachable →
      0 ≤ peb2 * ui.peb_size → peb2 * ui.peb_size ∉ fd.unreachable →
      2 * ui.peb_size.toNat ≤ fd.room →
      ∃ (B1 B2 : List Nat) (fd1 : seek_file) (vi : ubigen_vol_info) (h1 h2 : ubi_vid_hdr),
        ubigen_write_layout_vol lv stack_vi ui peb1 peb2 ec1 ec2 vtbl garbage_out fd
          = .ok (0, fd1) ∧
        fd1.stored = fd.stored ++ [(peb1 * ui.peb_size, B1), (peb2 * ui.peb_size, B2)] ∧
        (B1.length : Int) = ui.peb_size ∧ (B2.length : Int) = ui.peb_size ∧
        buf_slice B1 ui.data_offs ui.vtbl_size.toNat
          = (vtbl_bytes vtbl).take ui.vtbl_size.toNat ∧
        buf_slice B2 ui.data_offs ui.vtbl_size.toNat
          = (vtbl_bytes vtbl).take ui.vtbl_size.toNat ∧
        ((vtbl_bytes vtbl).take ui.vtbl_size.toNat).length = ui.vtbl_size.toNat ∧
        (∀ i : Nat, ui.data_offs + ui.vtbl_size ≤ (i : Int) → (i : Int) < ui.peb_size →
          B1[i]? = some 255 ∧ B2[i]? = some 255) ∧
        B1.take 64 = (ubigen_init_ec_hdr ui prev_ec ec1).to_bytes ∧
        B2.take 64 = (ubigen_init_ec_hdr ui prev_ec ec2).to_bytes ∧
        ec_hdr_crc_valid (ubigen_init_ec_hdr ui prev_ec ec1) ∧
        ec_hdr_crc_valid (ubigen_init_ec_hdr ui prev_ec ec2) ∧
        layout_vol_info lv stack_vi ui = .ok vi ∧
        ubigen_init_vid_hdr ui vi prev_vid 0 0 [] 0 = .ok h1 ∧
        ubigen_init_vid_hdr ui vi prev_vid 1 0 [] 0 = .ok h2 ∧
        buf_slice B1 ui.vid_hdr_offs 64 = h1.to_bytes ∧
        buf_slice B2 ui.vid_hdr_offs 64 = h2.to_bytes ∧
        (be32_to_cpu h1.vol_id : Int) = lv.id ∧ (be32_to_cpu h2.vol_id : Int) = lv.id ∧
        be32_to_cpu h1.lnum = 0 ∧ be32_to_cpu h2.lnum = 1 ∧
        vid_hdr_crc_valid h1 ∧ vid_hdr_crc_valid h2) ∧
    (¬ (0 ≤ peb1 * ui.peb_size ∧ peb1 * ui.peb_size ∉ fd.unreachable ∧
        0 ≤ peb2 * ui.peb_size ∧ peb2 * ui.peb_size ∉ fd.unreachable ∧
        2 * ui.peb_size.toNat ≤ fd.room) →
      ∃ fd1, ubigen_write_layout_vol lv stack_vi ui peb1 peb2 ec1 ec2 vtbl garbage_out fd
        = .ok (-1, fd1)) := by
  have hsz : UBI_VID_HDR_SIZE = 64 := rfl
  obtain ⟨vi, B1, B2, hvi, e1, e2, ht1, ht2, hs1, hs2, hp1, hp2, hff, heq⟩ :=
    write_layout_vol_eq lv stack_vi ui peb1 peb2 ec1 ec2 vtbl garbage_out fd halign hv hgap
      hvt hfit htab
  have hvid' : vi.id = lv.id := by
    obtain ⟨vi', hvi', hid', _⟩ := layout_vol_info_ok lv stack_vi ui halign
    rw [hvi] at hvi'
    cases hvi'
    exact hid'
  have hpeb : (128 : Int) ≤ ui.peb_size := by
    rw [hsz] at hgap
    omega
  have hP : (ui.peb_size.toNat : Int) = ui.peb_size := by omega
  rw [heq]
  constructor
  · intro hs1a hs1b hs2a hs2b hroom
    have r1 := sys_lseek_ok fd (peb1 * ui.peb_size) hs1a hs1b
    have w1 := sys_write_at_ok (sys_lseek fd (peb1 * ui.peb_size)).2 B1 (by
      rw [r1]
      show B1.length ≤ fd.room
      omega)
    have r2 := sys_lseek_ok (sys_write_at (sys_lseek fd (peb1 * ui.peb_size)).2 B1).2
      (peb2 * ui.peb_size) hs2a (by
        rw [w1, r1]
        exact hs2b)
    have w2 := sys_write_at_ok (sys_lseek (sys_write_at (sys_lseek fd
      (peb1 * ui.peb_size)).2 B1).2 (peb2 * ui.peb_size)).2 B2 (by
        rw [r2, w1, r1]
        show B2.length ≤ fd.room - B1.length
        omega)
    have c1 : ¬ ((sys_lseek fd (peb1 * ui.peb_size)).1 ≠ peb1 * ui.peb_size) := by
      rw [r1]
      simp
    have c2 : ¬ ((sys_write_at (sys_lseek fd (peb1 * ui.peb_size)).2 B1).1
        ≠ ui.peb_size) := by
      rw [w1]
      simp only [ne_eq, not_not, e1]
      exact hP
    have c3 : ¬ ((sys_lseek (sys_write_at (sys_lseek fd (peb1 * ui.peb_size)).2 B1).2
        (peb2 * ui.peb_size)).1 ≠ peb2 * ui.peb_size) := by
      rw [r2]
      simp
    have c4 : ¬ ((sys_write_at (sys_lseek (sys_write_at (sys_lseek fd
        (peb1 * ui.peb_size)).2 B1).2 (peb2 * ui.peb_size)).2 B2).1 ≠ ui.peb_size) := by
      rw [w2]
      simp only [ne_eq, not_not, e2]
      exact hP
    rw [if_neg c1, if_neg c2, if_neg c3, if_neg c4]
    have hl0 : (0 : Int) ≤ 0 ∧ (0 : Int) ≤ INT_MAX := by decide
    have hl1 : (0 : Int) ≤ 1 ∧ (1 : Int) ≤ INT_MAX := by decide
    refine ⟨B1, B2, _, vi, _, _, rfl, ?_, by omega, by omega, hp1, hp2, ?_, hff, ht1, ht2,
      ec_set_crc_valid _ (ec_hdr_fields_head_length ui ec1),
      ec_set_crc_valid _ (ec_hdr_fields_head_length ui ec2), hvi,
      init_vid_hdr_eq ui vi prev_vid 0 0 [] 0 (fun _ => ⟨le_refl _, by simp⟩),
      init_vid_hdr_eq ui vi prev_vid 1 0 [] 0 (fun _ => ⟨le_refl _, by simp⟩),
      hs1, hs2, ?_, ?_, ?_, ?_,
      vid_set_crc_valid _ (vid_hdr_fields_head_length ..),
      vid_set_crc_valid _ (vid_hdr_fields_head_length ..)⟩
    · rw [w2, r2, w1, r1]
      simp
    · rw [List.length_take]
      omega
    · show (be32_to_cpu (cpu_to_be32 (to_u32 vi.id)) : Int) = lv.id
      rw [be32_to_u32, hvid']
      exact (to_u32_of_range _ hid.1 (by unfold INT_MAX at hid; omega)).2
    · show (be32_to_cpu (cpu_to_be32 (to_u32 vi.id)) : Int) = lv.id
      rw [be32_to_u32, hvid']
      exact (to_u32_of_range _ hid.1 (by unfold INT_MAX at hid; omega)).2
    · show be32_to_cpu (cpu_to_be32 (to_u32 0)) = 0
      decide
    · show be32_to_cpu (cpu_to_be32 (to_u32 1)) = 1
      decide
  · intro hnot
    by_cases c1 : (sys_lseek fd (peb1 * ui.peb_size)).1 ≠ peb1 * ui.peb_size
    · rw [if_pos c1]
      exact ⟨_, rfl⟩
    · rw [if_neg c1]
      by_cases c2 : (sys_write_at (sys_lseek fd (peb1 * ui.peb_size)).2 B1).1 ≠ ui.peb_size
      · rw [if_pos c2]
        exact ⟨_, rfl⟩
      · rw [if_neg c2]
        by_cases c3 : (sys_lseek (sys_write_at (sys_lseek fd (peb1 * ui.peb_size)).2 B1).2
            (peb2 * ui.peb_size)).1 ≠ peb2 * ui.peb_size
        · rw [if_pos c3]
          exact ⟨_, rfl⟩
        · rw [if_neg c3]
          by_cases c4 : (sys_write_at (sys_lseek (sys_write_at
              (sys_lseek fd (peb1 * ui.peb_size)).2 B1).2 (peb2 * ui.peb_size)).2 B2).1
              ≠ ui.peb_size
          · rw [if_pos c4]
            exact ⟨_, rfl⟩
          · exfalso
            apply hnot
            -- every call succeeded: read the conditions back
            have s1 : ¬ (peb1 * ui.peb_size < 0 ∨ peb1 * ui.peb_size ∈ fd.unreachable) := by
              intro hf
              apply c1
              rw [sys_lseek_fails fd _ hf]
              exact (mul_ne_neg_one peb1 ui.peb_size (by omega)).symm
            have r1 := sys_lseek_ok fd (peb1 * ui.peb_size) (by omega)
              (fun hm => s1 (Or.inr hm))
            have hr1 : B1.length ≤ fd.room := by
              by_contra hlt
              apply c2
              have := sys_write_at_short (sys_lseek fd (peb1 * ui.peb_size)).2 B1 (by
                rw [r1]
                show fd.room < B1.length
                omega)
              rw [this, r1]
              show ((fd.room : Nat) : Int) ≠ ui.peb_size
              omega
            have w1 := sys_write_at_ok (sys_lseek fd (peb1 * ui.peb_size)).2 B1 (by
              rw [r1]
              exact hr1)
            have s2 : ¬ (peb2 * ui.peb_size < 0 ∨ peb2 * ui.peb_size ∈ fd.unreachable) := by
              intro hf
              apply c3
              rw [sys_lseek_fails _ _ (by
                rw [w1, r1]
                exact hf)]
              exact (mul_ne_neg_one peb2 ui.peb_size (by omega)).symm
            have r2 := sys_lseek_ok (sys_write_at (sys_lseek fd (peb1 * ui.peb_size)).2 B1).2
              (peb2 * ui.peb_size) (by omega) (by
                rw [w1, r1]
                exact fun hm => s2 (Or.inr hm))
            have hr2 : B2.length ≤ fd.room - B1.length := by
              by_contra hlt
              apply c4
              have := sys_write_at_short (sys_lseek (sys_write_at (sys_lseek fd
                (peb1 * ui.peb_size)).2 B1).2 (peb2 * ui.peb_size)).2 B2 (by
                  rw [r2, w1, r1]
                  show fd.room - B1.length < B2.length
                  omega)
              rw [this, r2, w1, r1]
              show (((fd.room - B1.length : Nat)) : Int) ≠ ui.peb_size
              omega
            exact ⟨by omega, fun hm => s1 (Or.inr hm), by omega, fun hm => s2 (Or.inr hm),
              by omega⟩

theorem vtbl_single_bytes_length : (vtbl_bytes vtbl_single).length = 172 := by decide!

/-- C22 on `geometry_paired_small` (384-byte blocks, table of 172 bytes at offset 128)
with `sample_layout_volume`, positions 0 and 1 and erase counts 3 and 4: on an output
that accepts 768 bytes the call returns 0 and stores two blocks of 384 bytes at
offsets 0 and 384, both holding the table at offset 128; when offset 384 cannot be
reached the call returns -1. -/
theorem write_layout_vol_spec_witness :
    (∃ (B1 B2 : List Nat) (fd1 : seek_file),
      ubigen_write_layout_vol sample_layout_volume volume_100k geometry_paired_small 0 1 3 4
          vtbl_single [] { stored := [], pos := 0, unreachable := [], room := 768 }
        = .ok (0, fd1) ∧
      fd1.stored = [(0, B1), (384, B2)] ∧
      (B1.length : Int) = 384 ∧ (B2.length : Int) = 384 ∧
      buf_slice B1 128 172 = (vtbl_bytes vtbl_single).take 172 ∧
      buf_slice B2 128 172 = (vtbl_bytes vtbl_single).take 172 ∧
      B1.take 64 = (ubigen_init_ec_hdr geometry_paired_small zero_ec_hdr 3).to_bytes ∧
      B2.take 64 = (ubigen_init_ec_hdr geometry_paired_small zero_ec_hdr 4).to_bytes) ∧
    (∃ fd1,
      ubigen_write_layout_vol sample_layout_volume volume_100k geometry_paired_small 0 1 3 4
          vtbl_single [] { stored := [], pos := 0, unreachable := [384], room := 768 }
        = .ok (-1, fd1)) :=
  have htab : geometry_paired_small.vtbl_size ≤ (vtbl_bytes vtbl_single).length := by
    rw [vtbl_single_bytes_length]
    decide
  ⟨match (write_layout_vol_spec sample_layout_volume volume_100k geometry_paired_small 0 1 3 4
        vtbl_single [] { stored := [], pos := 0, unreachable := [], room := 768 } zero_ec_hdr
        zero_vid_hdr (by decide) (by decide) (by decide) (by decide) (by decide) (by decide)
        htab).1 (by decide) (by decide) (by decide) (by decide) (by decide) with
    | ⟨B1, B2, fd1, _, _, _, h1, h2, h3, h4, h5, h6, _, _, h9, h10, _⟩ =>
      ⟨B1, B2, fd1, h1, h2, h3, h4, h5, h6, h9, h10⟩,
   (write_layout_vol_spec sample_layout_volume volume_100k geometry_paired_small 0 1 3 4
        vtbl_single [] { stored := [], pos := 0, unreachable := [384], room := 768 } zero_ec_hdr
        zero_vid_hdr (by decide) (by decide) (by decide) (by decide) (by decide) (by decide)
        htab).2 (by decide)⟩

end Ubigen
